import Mathlib

/-!
# JWT-Editor: a verification development

A shallow embedding of `src/jwt-editor.js` together with the JavaScript built-ins it
calls (`trim`, `split`, `replace`, `btoa`, `atob`, `JSON.parse`, `JSON.stringify`),
followed by theorems about the program.

Modelling conventions:

* a JavaScript string is the list of its UTF-16 code units (`JSString`), so that
  `length`, `btoa` and the escapes of JSON see what JavaScript sees;
* a built-in or a function of the source that may throw returns `Option`, `none`
  being the throw;
* the module variables of the source and the DOM cells it reads and writes are the
  fields of `State`; a cell returns what was last written to it, and the elements are
  taken to exist in the page;
* the keyed hashes of CryptoJS are not part of the repository: every operation takes
  them as the parameter `hmac`, and the theorems hold for every `hmac`; where the
  value of a hash matters (the demo token), HMAC-SHA256 is defined from its standard
  (`hmacSHA256`) and the theorem asks of `hmac` that it agrees with it there;
* the page is driven by events (`Event`, `step`, `run`), one for each listener that
  the script registers on a field or on the demo button;
* a JSON number is kept as its shortest decimal form; the rounding of IEEE-754
  doubles is not modelled (it changes which digits `JSON.stringify` prints for
  numerals of more than fifteen digits, and nothing else the program does);
* `JSON.parse` recurses on a bound of `2 * length + 1` calls, which the grammar
  never exceeds: every nested value, element or member costs a character.
-/

namespace JWTEditor

/-! ## JavaScript strings and base64 -/

/-- A JavaScript string: its UTF-16 code units, in order. -/
abbrev JSString := List Nat

/-- UTF-16 code units of one Unicode scalar value. -/
def utf16 (c : Char) : List Nat :=
  if c.toNat < 65536 then [c.toNat]
  else [55296 + (c.toNat - 65536) / 1024, 56320 + (c.toNat - 65536) % 1024]

/-- The JavaScript string written by a literal. -/
def js (s : String) : JSString := s.toList.flatMap utf16

/-- Code units that `String.prototype.trim` strips: WhiteSpace and LineTerminator. -/
def isTrimSpace (c : Nat) : Bool :=
  c = 9 || c = 10 || c = 11 || c = 12 || c = 13 || c = 32 || c = 160 || c = 5760 ||
  (8192 ≤ c && c ≤ 8202) || c = 8232 || c = 8233 || c = 8239 || c = 8287 ||
  c = 12288 || c = 65279

/-- The method `String.prototype.trim`. -/
def trim (s : JSString) : JSString :=
  ((s.dropWhile isTrimSpace).reverse.dropWhile isTrimSpace).reverse

/-- The call `s.split(sep)` for a separator of one code unit: always at least one part. -/
def split (sep : Nat) : JSString → List JSString
  | [] => [[]]
  | c :: cs =>
    if c = sep then [] :: split sep cs
    else
      match split sep cs with
      | [] => [[c]]
      | p :: ps => (c :: p) :: ps

/-- The global replacement of the code unit `a` by the code unit `b`. -/
def replaceAll (a b : Nat) (s : JSString) : JSString :=
  s.map (fun c => if c = a then b else c)

/-- The replacement of the trailing run of `=` (code unit 61) by nothing. -/
def stripTrailingEq (s : JSString) : JSString :=
  (s.reverse.dropWhile (fun c => c = 61)).reverse

/-- The base64 alphabet: code unit of a 6-bit value. -/
def b64Char (n : Nat) : Nat :=
  if n < 26 then 65 + n
  else if n < 52 then 71 + n
  else if n < 62 then n - 4
  else if n = 62 then 43
  else 47

/-- Inverse of the base64 alphabet; `none` for a code unit outside it. -/
def b64Val (c : Nat) : Option Nat :=
  if 65 ≤ c ∧ c ≤ 90 then some (c - 65)
  else if 97 ≤ c ∧ c ≤ 122 then some (c - 71)
  else if 48 ≤ c ∧ c ≤ 57 then some (c + 4)
  else if c = 43 then some 62
  else if c = 47 then some 63
  else none

/-- Standard padded base64 of a byte sequence (each element is taken modulo 256). -/
def base64Encode : List Nat → JSString
  | [] => []
  | [a] =>
    [b64Char (a % 256 / 4), b64Char (a % 4 * 16), 61, 61]
  | [a, b] =>
    [b64Char (a % 256 / 4), b64Char (a % 4 * 16 + b % 256 / 16), b64Char (b % 16 * 4), 61]
  | a :: b :: c :: rest =>
    b64Char (a % 256 / 4) :: b64Char (a % 4 * 16 + b % 256 / 16) ::
      b64Char (b % 16 * 4 + c % 256 / 64) :: b64Char (c % 64) :: base64Encode rest

/-- The built-in `btoa`: throws (`none`) on a code unit above 0xFF, else gives the
base64 of the code units. -/
def btoa (s : JSString) : Option JSString :=
  if s.all (fun c => decide (c ≤ 255)) then some (base64Encode s) else none

/-- ASCII whitespace, which forgiving-base64 decoding removes. -/
def isAsciiWhitespace (c : Nat) : Bool :=
  c = 9 || c = 10 || c = 12 || c = 13 || c = 32

/-- Remove one or two trailing `=`, as forgiving-base64 decoding does when the
length is a multiple of four. -/
def stripPadding (data : JSString) : JSString :=
  if data.getLast? = some 61 then
    if data.dropLast.getLast? = some 61 then data.dropLast.dropLast else data.dropLast
  else data

/-- The 6-bit values of a string of alphabet characters; `none` on any other code unit. -/
def b64Vals : JSString → Option (List Nat)
  | [] => some []
  | c :: cs =>
    match b64Val c, b64Vals cs with
    | some v, some vs => some (v :: vs)
    | _, _ => none

/-- Bytes of a sequence of 6-bit values; a final group of two or three values
gives one or two bytes, the unused low bits being dropped. -/
def decodeGroups : List Nat → List Nat
  | a :: b :: c :: d :: rest =>
    (a * 4 + b / 16) :: (b % 16 * 16 + c / 4) :: (c % 4 * 64 + d) :: decodeGroups rest
  | [a, b, c] => [a * 4 + b / 16, b % 16 * 16 + c / 4]
  | [a, b] => [a * 4 + b / 16]
  | _ => []

/-- The built-in `atob`: forgiving-base64 decode; `none` when it throws. -/
def atob (data : JSString) : Option JSString :=
  let data := data.filter (fun c => !isAsciiWhitespace c)
  let data := if data.length % 4 = 0 then stripPadding data else data
  if data.length % 4 = 1 then none
  else (b64Vals data).map decodeGroups

/-- The function `base64UrlEncode` of the source; `none` when `btoa` throws. -/
def base64UrlEncode (input : JSString) : Option JSString :=
  (btoa input).map (fun s => stripTrailingEq (replaceAll 47 95 (replaceAll 43 45 s)))

/-- The function `base64UrlDecode` of the source; `none` is the `null` it returns when
`atob` throws. -/
def base64UrlDecode (input : JSString) : Option JSString :=
  let input := replaceAll 95 47 (replaceAll 45 43 input)
  let pad := input.length % 4
  let input := if pad ≠ 0 then input ++ List.replicate (4 - pad) 61 else input
  atob input

/-- The 6-bit values of a byte sequence (unpadded). -/
def sextets : List Nat → List Nat
  | [] => []
  | [a] => [a % 256 / 4, a % 4 * 16]
  | [a, b] => [a % 256 / 4, a % 4 * 16 + b % 256 / 16, b % 16 * 4]
  | a :: b :: c :: rest =>
    a % 256 / 4 :: (a % 4 * 16 + b % 256 / 16) :: (b % 16 * 4 + c % 256 / 64) :: c % 64 ::
      sextets rest

/-- Number of `=` that padded base64 appends. -/
def padLen : List Nat → Nat
  | [] => 0
  | [_] => 2
  | [_, _] => 1
  | _ :: _ :: _ :: rest => padLen rest

/-- What the two replacements of `base64UrlEncode` do to one code unit. -/
def urlChar (c : Nat) : Nat := if c = 43 then 45 else if c = 47 then 95 else c

/-- What the two replacements of `base64UrlDecode` do to one code unit. -/
def stdChar (c : Nat) : Nat := if c = 45 then 43 else if c = 95 then 47 else c

/-- The URL-safe alphabet: letters, digits, `-` and `_`. -/
def isUrlChar (c : Nat) : Prop :=
  (65 ≤ c ∧ c ≤ 90) ∨ (97 ≤ c ∧ c ≤ 122) ∨ (48 ≤ c ∧ c ≤ 57) ∨ c = 45 ∨ c = 95

/-- The unpadded URL-safe base64 text of a byte sequence. -/
def urlBody (s : List Nat) : JSString := (sextets s).map (fun v => urlChar (b64Char v))

/-! ## JSON values, `JSON.stringify` and `JSON.parse` -/

/-- A JSON value as JavaScript holds it. A number is kept as its shortest decimal
form: sign, significant digits (most significant first, no zero at either end) and
the position of the decimal point, the value being `0.d₁d₂…dₖ × 10 ^ point`.
Zero has no digits (negative zero is not distinguished: it prints as `0`).
IEEE-754 rounding is not modelled. An object is its own properties in
enumeration order. -/
inductive JSON where
  | null
  | bool (b : Bool)
  | num (neg : Bool) (digits : List Nat) (point : Int)
  | str (s : JSString)
  | arr (xs : List JSON)
  | obj (kvs : List (JSString × JSON))

/-- Decimal value of a list of digits, most significant first. -/
def ofDigits (ds : List Nat) : Nat := ds.foldl (fun acc d => 10 * acc + d) 0

/-- Decimal digits of `n`, most significant first, prepended to `acc`. -/
def natDigitsAux : Nat → Nat → List Nat → List Nat
  | 0, _, acc => acc
  | fuel + 1, n, acc =>
    if n < 10 then n :: acc else natDigitsAux fuel (n / 10) (n % 10 :: acc)

/-- Decimal digits of `n`, most significant first (`[0]` for zero). -/
def natDigits (n : Nat) : List Nat := natDigitsAux (n + 1) n []

/-- The code units of a list of decimal digits. -/
def digitChars (ds : List Nat) : JSString := ds.map (fun d => d + 48)

/-- The exponent part of `Number::toString`: `e`, a sign, the decimal digits. -/
def expText (e : Int) : JSString :=
  101 :: (if e < 0 then 45 else 43) :: digitChars (natDigits e.natAbs)

/-- The text `Number::toString` (radix 10) gives a positive number with the given
digits and point. -/
def unsignedText (digits : List Nat) (point : Int) : JSString :=
  if (digits.length : Int) ≤ point ∧ point ≤ 21 then
    digitChars digits ++ List.replicate (point - digits.length).toNat 48
  else if 0 < point ∧ point ≤ 21 then
    digitChars (digits.take point.toNat) ++ 46 :: digitChars (digits.drop point.toNat)
  else if -6 < point ∧ point ≤ 0 then
    48 :: 46 :: (List.replicate (-point).toNat 48 ++ digitChars digits)
  else
    match digits with
    | [] => []
    | [d] => (d + 48) :: expText (point - 1)
    | d :: rest => (d + 48) :: 46 :: (digitChars rest ++ expText (point - 1))

/-- The text `Number::toString` (radix 10) gives the number with the given sign,
digits and point. -/
def numberToString (neg : Bool) (digits : List Nat) (point : Int) : JSString :=
  if digits = [] then [48]
  else (if neg then [45] else []) ++ unsignedText digits point

/-- Lower-case hexadecimal digit. -/
def hexChar (n : Nat) : Nat := if n < 10 then 48 + n else 87 + n

/-- The escape `\uXXXX` of a code unit. -/
def unicodeEscape (c : Nat) : JSString :=
  [92, 117, hexChar (c / 4096 % 16), hexChar (c / 256 % 16), hexChar (c / 16 % 16),
    hexChar (c % 16)]

/-- The body of `QuoteJSONString`: the escaped code units between the quotes. -/
def quoteChars : JSString → JSString
  | [] => []
  | c :: rest =>
    if c = 8 then 92 :: 98 :: quoteChars rest
    else if c = 9 then 92 :: 116 :: quoteChars rest
    else if c = 10 then 92 :: 110 :: quoteChars rest
    else if c = 12 then 92 :: 102 :: quoteChars rest
    else if c = 13 then 92 :: 114 :: quoteChars rest
    else if c = 34 then 92 :: 34 :: quoteChars rest
    else if c = 92 then 92 :: 92 :: quoteChars rest
    else if c < 32 then unicodeEscape c ++ quoteChars rest
    else if 55296 ≤ c ∧ c ≤ 56319 then
      match rest with
      | d :: rest2 =>
        if 56320 ≤ d ∧ d ≤ 57343 then c :: d :: quoteChars rest2
        else unicodeEscape c ++ quoteChars (d :: rest2)
      | [] => unicodeEscape c
    else if 56320 ≤ c ∧ c ≤ 57343 then unicodeEscape c ++ quoteChars rest
    else c :: quoteChars rest

/-- The abstract operation `QuoteJSONString`. -/
def quoteJSONString (s : JSString) : JSString := 34 :: quoteChars s ++ [34]

mutual
/-- The call `JSON.stringify(value)`: the compact serialisation. -/
def JSON.stringify : JSON → JSString
  | .null => [110, 117, 108, 108]
  | .bool true => [116, 114, 117, 101]
  | .bool false => [102, 97, 108, 115, 101]
  | .num neg digits point => numberToString neg digits point
  | .str s => quoteJSONString s
  | .arr xs => 91 :: stringifyElems xs ++ [93]
  | .obj kvs => 123 :: stringifyMembers kvs ++ [125]
/-- The elements of an array, joined by commas. -/
def stringifyElems : List JSON → JSString
  | [] => []
  | [x] => JSON.stringify x
  | x :: y :: rest => JSON.stringify x ++ 44 :: stringifyElems (y :: rest)
/-- The members of an object, joined by commas. -/
def stringifyMembers : List (JSString × JSON) → JSString
  | [] => []
  | [(k, v)] => quoteJSONString k ++ 58 :: JSON.stringify v
  | (k, v) :: m :: rest =>
    quoteJSONString k ++ 58 :: JSON.stringify v ++ 44 :: stringifyMembers (m :: rest)
end

/-- A line break followed by the indentation of nesting depth `d` (gap of two spaces). -/
def newline (d : Nat) : JSString := 10 :: List.replicate (2 * d) 32

mutual
/-- The call `JSON.stringify(value, null, 2)`, at nesting depth `d`. -/
def JSON.stringifyIndented (d : Nat) : JSON → JSString
  | .null => [110, 117, 108, 108]
  | .bool true => [116, 114, 117, 101]
  | .bool false => [102, 97, 108, 115, 101]
  | .num neg digits point => numberToString neg digits point
  | .str s => quoteJSONString s
  | .arr [] => [91, 93]
  | .arr (x :: xs) => 91 :: newline (d + 1) ++ indentedElems d (x :: xs) ++ newline d ++ [93]
  | .obj [] => [123, 125]
  | .obj (m :: ms) =>
    123 :: newline (d + 1) ++ indentedMembers d (m :: ms) ++ newline d ++ [125]
/-- The elements of an array inside depth `d`, one per line. -/
def indentedElems (d : Nat) : List JSON → JSString
  | [] => []
  | [x] => JSON.stringifyIndented (d + 1) x
  | x :: y :: rest =>
    JSON.stringifyIndented (d + 1) x ++ 44 :: newline (d + 1) ++ indentedElems d (y :: rest)
/-- The members of an object inside depth `d`, one per line. -/
def indentedMembers (d : Nat) : List (JSString × JSON) → JSString
  | [] => []
  | [(k, v)] => quoteJSONString k ++ 58 :: 32 :: JSON.stringifyIndented (d + 1) v
  | (k, v) :: m :: rest =>
    quoteJSONString k ++ 58 :: 32 :: JSON.stringifyIndented (d + 1) v ++
      44 :: newline (d + 1) ++ indentedMembers d (m :: rest)
end

/-- JSON whitespace: tab, line feed, carriage return, space. -/
def isJsonWs (c : Nat) : Bool := c = 9 || c = 10 || c = 13 || c = 32

/-- Skip JSON whitespace. -/
def skipWs (s : JSString) : JSString := s.dropWhile isJsonWs

/-- A decimal digit `0`..`9`. -/
def isDigit (c : Nat) : Bool := decide (48 ≤ c) && decide (c ≤ 57)

/-- The longest run of decimal digits at the front, as digit values, and the rest. -/
def takeDigits : JSString → List Nat × JSString
  | [] => ([], [])
  | c :: cs =>
    if isDigit c then ((c - 48) :: (takeDigits cs).1, (takeDigits cs).2) else ([], c :: cs)

/-- Value of a hexadecimal digit of either case. -/
def hexVal (c : Nat) : Option Nat :=
  if 48 ≤ c ∧ c ≤ 57 then some (c - 48)
  else if 65 ≤ c ∧ c ≤ 70 then some (c - 55)
  else if 97 ≤ c ∧ c ≤ 102 then some (c - 87)
  else none

/-- The code unit of a one-letter escape (the letter after the backslash). -/
def escapeVal (e : Nat) : Option Nat :=
  if e = 34 then some 34
  else if e = 92 then some 92
  else if e = 47 then some 47
  else if e = 98 then some 8
  else if e = 102 then some 12
  else if e = 110 then some 10
  else if e = 114 then some 13
  else if e = 116 then some 9
  else none

/-- Put a code unit in front of a parsed string. -/
def consChar (c : Nat) : Option (JSString × JSString) → Option (JSString × JSString)
  | some (s, r) => some (c :: s, r)
  | none => none

/-- The characters of a JSON string after its opening quote, up to and including
the closing quote: the string value and the remaining input. -/
def parseChars : JSString → Option (JSString × JSString)
  | [] => none
  | c :: rest =>
    if c = 34 then some ([], rest)
    else if c = 92 then
      match rest with
      | [] => none
      | e :: rest2 =>
        if e = 117 then
          match rest2 with
          | h1 :: h2 :: h3 :: h4 :: rest3 =>
            match hexVal h1, hexVal h2, hexVal h3, hexVal h4 with
            | some a, some b, some c, some d =>
              consChar (a * 4096 + b * 256 + c * 16 + d) (parseChars rest3)
            | _, _, _, _ => none
          | _ => none
        else
          match escapeVal e with
          | some v => consChar v (parseChars rest2)
          | none => none
    else if c < 32 then none
    else consChar c (parseChars rest)

/-- The number denoted by a numeral with integer digits `ip`, fraction digits `fp`
and exponent `e`: leading and trailing zeros are dropped from the digits. The value is
the exact decimal; JavaScript rounds it to a double, so on numerals that no double
holds exactly (more than 17 significant digits, `1e400`, `1e-400`) the built-in gives
another number than this model. -/
def mkNumber (neg : Bool) (ip fp : List Nat) (e : Int) : JSON :=
  let sig := (ip ++ fp).dropWhile (fun d => d = 0)
  let digits := (sig.reverse.dropWhile (fun d => d = 0)).reverse
  if digits = [] then .num false [] 0
  else .num neg digits ((ip.length : Int) + e - (((ip ++ fp).length - sig.length : Nat) : Int))

/-- The optional fraction of a numeral: a dot and at least one digit. -/
def parseFraction : JSString → Option (List Nat × JSString)
  | [] => some ([], [])
  | c :: r =>
    if c = 46 then
      if (takeDigits r).1 = [] then none else some (takeDigits r)
    else some ([], c :: r)

/-- The digits of an exponent: at least one. -/
def parseExpDigits (neg : Bool) (s : JSString) : Option (Int × JSString) :=
  if (takeDigits s).1 = [] then none
  else some (if neg then - (ofDigits (takeDigits s).1 : Int) else (ofDigits (takeDigits s).1 : Int),
    (takeDigits s).2)

/-- The optional exponent of a numeral: `e` or `E`, an optional sign, digits. -/
def parseExponent : JSString → Option (Int × JSString)
  | [] => some (0, [])
  | c :: r =>
    if c = 101 ∨ c = 69 then
      match r with
      | [] => none
      | s :: r1 =>
        if s = 43 then parseExpDigits false r1
        else if s = 45 then parseExpDigits true r1
        else parseExpDigits false (s :: r1)
    else some (0, c :: r)

/-- A numeral without its sign. -/
def parseUnsigned (neg : Bool) : JSString → Option (JSON × JSString)
  | [] => none
  | c :: r =>
    if isDigit c then
      let ip := if c = 48 then ([0], r) else takeDigits (c :: r)
      match parseFraction ip.2 with
      | none => none
      | some (fp, s3) =>
        match parseExponent s3 with
        | none => none
        | some (e, s4) => some (mkNumber neg ip.1 fp e, s4)
    else none

/-- A JSON numeral at the front of the input. -/
def parseNumber : JSString → Option (JSON × JSString)
  | [] => none
  | c :: r => if c = 45 then parseUnsigned true r else parseUnsigned false (c :: r)

/-- The rest of a literal name (`true`, `false`, `null`) after its first letter. -/
def expect (lit : JSString) (v : JSON) (input : JSString) : Option (JSON × JSString) :=
  if input.take lit.length = lit then some (v, input.drop lit.length) else none

/-- The array index a property key denotes: the key is the canonical decimal
numeral of an integer below `2 ^ 32 - 1`. -/
def arrayIndex? (k : JSString) : Option Nat :=
  match k with
  | [] => none
  | c :: cs =>
    if (c :: cs).all isDigit && (decide (c ≠ 48) || decide (cs = [])) &&
        decide (ofDigits ((c :: cs).map (fun d => d - 48)) < 4294967295) then
      some (ofDigits ((c :: cs).map (fun d => d - 48)))
    else none

/-- Insert a new property: an array index goes in ascending position among the
array indices, which precede all other keys; any other key goes last. -/
def insertProp (k : JSString) (v : JSON) : List (JSString × JSON) → List (JSString × JSON)
  | [] => [(k, v)]
  | (k1, v1) :: rest =>
    match arrayIndex? k, arrayIndex? k1 with
    | some i, some j =>
      if i < j then (k, v) :: (k1, v1) :: rest else (k1, v1) :: insertProp k v rest
    | some _, none => (k, v) :: (k1, v1) :: rest
    | none, _ => (k1, v1) :: insertProp k v rest

/-- Define a data property on an object: an existing key keeps its place and takes
the new value, a new key is inserted. -/
def setProp (o : List (JSString × JSON)) (k : JSString) (v : JSON) : List (JSString × JSON) :=
  if o.any (fun kv => decide (kv.1 = k)) then
    o.map (fun kv => if kv.1 = k then (k, v) else kv)
  else insertProp k v o

/-- The object that the members of an object literal build, in source order. -/
def buildObject (ms : List (JSString × JSON)) : List (JSString × JSON) :=
  ms.foldl (fun o kv => setProp o kv.1 kv.2) []

/-- Wrap parsed elements as an array. -/
def mkArr : Option (List JSON × JSString) → Option (JSON × JSString)
  | some (xs, r) => some (.arr xs, r)
  | none => none

/-- Wrap parsed members as an object. -/
def mkObj : Option (List (JSString × JSON) × JSString) → Option (JSON × JSString)
  | some (ms, r) => some (.obj (buildObject ms), r)
  | none => none

/-- Wrap a parsed string as a value. -/
def mkStr : Option (JSString × JSString) → Option (JSON × JSString)
  | some (s, r) => some (.str s, r)
  | none => none

/-- Put a value in front of parsed elements. -/
def consElem (v : JSON) : Option (List JSON × JSString) → Option (List JSON × JSString)
  | some (vs, r) => some (v :: vs, r)
  | none => none

/-- Put a member in front of parsed members. -/
def consMember (k : JSString) (v : JSON) :
    Option (List (JSString × JSON) × JSString) → Option (List (JSString × JSON) × JSString)
  | some (ms, r) => some ((k, v) :: ms, r)
  | none => none

mutual
/-- A JSON value at the front of the input (after optional whitespace): the value
and the remaining input. The first argument bounds the recursion. -/
def parseValue : Nat → JSString → Option (JSON × JSString)
  | 0, _ => none
  | fuel + 1, input =>
    match skipWs input with
    | [] => none
    | c :: rest =>
      if c = 123 then
        match skipWs rest with
        | [] => none
        | d :: rest2 =>
          if d = 125 then some (.obj [], rest2) else mkObj (parseMembers fuel (d :: rest2))
      else if c = 91 then
        match skipWs rest with
        | [] => none
        | d :: rest2 =>
          if d = 93 then some (.arr [], rest2) else mkArr (parseElems fuel (d :: rest2))
      else if c = 34 then mkStr (parseChars rest)
      else if c = 116 then expect [114, 117, 101] (.bool true) rest
      else if c = 102 then expect [97, 108, 115, 101] (.bool false) rest
      else if c = 110 then expect [117, 108, 108] .null rest
      else parseNumber (c :: rest)
/-- The elements of a non-empty array up to and including the closing bracket. -/
def parseElems : Nat → JSString → Option (List JSON × JSString)
  | 0, _ => none
  | fuel + 1, input =>
    match parseValue fuel input with
    | none => none
    | some (v, rest) =>
      match skipWs rest with
      | [] => none
      | c :: rest2 =>
        if c = 93 then some ([v], rest2)
        else if c = 44 then consElem v (parseElems fuel rest2)
        else none
/-- The members of a non-empty object up to and including the closing brace. -/
def parseMembers : Nat → JSString → Option (List (JSString × JSON) × JSString)
  | 0, _ => none
  | fuel + 1, input =>
    match skipWs input with
    | [] => none
    | q :: rest =>
      if q = 34 then
        match parseChars rest with
        | none => none
        | some (k, rest1) =>
          match skipWs rest1 with
          | [] => none
          | colon :: rest2 =>
            if colon = 58 then
              match parseValue fuel rest2 with
              | none => none
              | some (v, rest3) =>
                match skipWs rest3 with
                | [] => none
                | c :: rest4 =>
                  if c = 125 then some ([(k, v)], rest4)
                  else if c = 44 then consMember k v (parseMembers fuel rest4)
                  else none
            else none
      else none
end

/-- The call `JSON.parse(text)`; `none` when it throws a `SyntaxError`. -/
def JSON.parse (text : JSString) : Option JSON :=
  match parseValue (2 * text.length + 1) text with
  | some (v, rest) => if skipWs rest = [] then some v else none
  | none => none

/-! ## Values that JavaScript can hold -/

/-- A number is in shortest form: zero has no digits, no sign and point 0; otherwise
the digits are decimal and neither the first nor the last is zero. -/
def numWF (neg : Bool) (digits : List Nat) (point : Int) : Bool :=
  match digits with
  | [] => !neg && decide (point = 0)
  | d :: ds =>
    (d :: ds).all (fun x => decide (x < 10)) && decide (d ≠ 0) &&
      decide ((d :: ds).getLast? ≠ some 0)

/-- Key `k1` may come before key `k` in property enumeration order: array indices
first, in ascending order, then the other keys. -/
def before (k1 k : JSString) : Bool :=
  match arrayIndex? k1, arrayIndex? k with
  | some j, some i => decide (j ≤ i)
  | some _, none => true
  | none, none => true
  | none, some _ => false

/-- The keys are distinct and in property enumeration order. -/
def keysCanon : List JSString → Bool
  | [] => true
  | k :: ks => ks.all (fun k1 => decide (k1 ≠ k) && before k k1) && keysCanon ks

mutual
/-- The value is one that JavaScript can hold after `JSON.parse`: numbers in shortest
form, object keys distinct and in enumeration order. -/
def JSON.WF : JSON → Bool
  | .null => true
  | .bool _ => true
  | .num neg digits point => numWF neg digits point
  | .str _ => true
  | .arr xs => allWF xs
  | .obj kvs => keysCanon (kvs.map Prod.fst) && membersWF kvs
/-- Every element is well formed. -/
def allWF : List JSON → Bool
  | [] => true
  | x :: xs => x.WF && allWF xs
/-- Every member value is well formed. -/
def membersWF : List (JSString × JSON) → Bool
  | [] => true
  | (_, v) :: rest => v.WF && membersWF rest
end

/-- The input does not continue with a decimal digit. -/
def NoDigit (rest : JSString) : Prop := ∀ c, rest.head? = some c → isDigit c = false

/-- The input is at its end or continues with `,`, `]` or the closing brace. -/
def Delim (rest : JSString) : Prop := ∀ c, rest.head? = some c → c = 44 ∨ c = 93 ∨ c = 125

/-- The fraction text of a numeral with fraction digits `fp`. -/
def fracText (fp : List Nat) : JSString := if fp = [] then [] else 46 :: digitChars fp

mutual
/-- Recursion depth that `parseValue` needs to read the value back. -/
def JSON.need : JSON → Nat
  | .null => 1
  | .bool _ => 1
  | .num _ _ _ => 1
  | .str _ => 1
  | .arr xs => needElems xs + 1
  | .obj kvs => needMembers kvs + 1
/-- Recursion depth that `parseElems` needs. -/
def needElems : List JSON → Nat
  | [] => 0
  | x :: xs => max x.need (needElems xs) + 1
/-- Recursion depth that `parseMembers` needs. -/
def needMembers : List (JSString × JSON) → Nat
  | [] => 0
  | (_, v) :: rest => max v.need (needMembers rest) + 1
end

/-- A code unit that can start the text of a value. -/
def IsStart (c : Nat) : Prop :=
  c = 110 ∨ c = 116 ∨ c = 102 ∨ c = 34 ∨ c = 91 ∨ c = 123 ∨ c = 45 ∨ (48 ≤ c ∧ c ≤ 57)

/-! ## The program `jwt-editor.js` -/

/-- The keyed hashes of CryptoJS that `getHMACAlgo` can return. -/
inductive HmacAlgo where
  | HmacSHA256
  | HmacSHA384
  | HmacSHA512
  deriving DecidableEq

/-- The CryptoJS keyed hashes, which are not part of the repository: the digest
bytes of `hmacAlgo(message, key)`. -/
abbrev Hmac := HmacAlgo → JSString → JSString → List Nat

/-- The program state: the module variables and the DOM cells the program uses. -/
structure State where
  /-- Module variable `savedSignature`. -/
  savedSignature : JSString
  /-- Module variable `currentAlg`; `none` is `undefined`. -/
  currentAlg : Option JSON
  /-- Module variable `pendingUpdate`. -/
  pendingUpdate : Bool
  /-- Module variable `verificationStatus`: `false` while it is `null`, `true` once it
  holds the element `#verifyStatus`. -/
  verificationStatus : Bool
  /-- Value of `#jwtInput`. -/
  jwtInput : JSString
  /-- Value of `#decodedHeader`. -/
  decodedHeader : JSString
  /-- Value of `#decodedPayload`. -/
  decodedPayload : JSString
  /-- Value of `#editSecret`. -/
  editSecret : JSString
  /-- Text of `#encodedResult`. -/
  encodedResult : JSString
  /-- Text of `#verifyStatus`. -/
  verifyStatus : JSString

/-- The state when the script has loaded: the initial values of the module
variables, all cells empty. -/
def initialState : State :=
  { savedSignature := [], currentAlg := some (.str []), pendingUpdate := false,
    verificationStatus := false, jwtInput := [], decodedHeader := [], decodedPayload := [],
    editSecret := [], encodedResult := [], verifyStatus := [] }

/-- Status text of `autoDecodeJWT` for a wrong number of segments. -/
def msgInvalidFormat : JSString := js "❌ Invalid JWT format"

/-- Status text of `autoDecodeJWT` for a segment that does not decode. -/
def msgBase64Error : JSString := js "❌ Base64 decode error"

/-- Status text of `autoDecodeJWT` when its `try` block throws. -/
def msgInvalidJson : JSString := js "❌ Invalid JSON in header/payload"

/-- Status text of `liveVerify` for `alg` equal to `none`. -/
def msgValidNone : JSString := js "✔ Valid (alg=none)"

/-- Status text of `liveVerify` for an algorithm without a keyed hash. -/
def msgCannotVerify : JSString := js "⚠ Cannot verify RSA/ES signatures"

/-- Status text of `liveVerify` for an empty secret. -/
def msgNeedSecret : JSString := js "⚠ Provide secret key to verify"

/-- Status text of `liveVerify` for a matching signature. -/
def msgSigValid : JSString := js "✔ Signature valid"

/-- Status text of `liveVerify` for a signature that does not match. -/
def msgSigInvalid : JSString := js "❌ Signature invalid"

/-- Output text of `updateJWTFromEdits` when its `try` block throws. -/
def msgInvalidJsonOut : JSString := js "Invalid JSON."

/-- Own property lookup on the members of an object. -/
def lookupProp (k : JSString) : List (JSString × JSON) → Option JSON
  | [] => none
  | (k1, v) :: rest => if k1 = k then some v else lookupProp k rest

/-- The property read `value.alg`: the outer `none` is the TypeError thrown on `null`,
the inner `none` is `undefined`. -/
def getAlg : JSON → Option (Option JSON)
  | .null => none
  | .obj kvs => some (lookupProp (js "alg") kvs)
  | _ => some none

/-- Strict equality `value === "text"` with a string. -/
def strictEq (value : Option JSON) (text : JSString) : Bool :=
  match value with
  | some (.str s) => decide (s = text)
  | _ => false

/-- JavaScript truthiness of a JSON value. -/
def truthy : JSON → Bool
  | .null => false
  | .bool b => b
  | .num _ digits _ => decide (digits ≠ [])
  | .str s => decide (s ≠ [])
  | .arr _ => true
  | .obj _ => true

/-- The expression `value || ""`. -/
def orEmpty (value : Option JSON) : JSON :=
  match value with
  | some v => if truthy v then v else .str []
  | none => .str []

/-- The function `getHMACAlgo` of the source. -/
def getHMACAlgo (alg : Option JSON) : Option HmacAlgo :=
  if strictEq alg (js "HS256") then some .HmacSHA256
  else if strictEq alg (js "HS384") then some .HmacSHA384
  else if strictEq alg (js "HS512") then some .HmacSHA512
  else none

/-- The signature text both `liveVerify` and `updateJWTFromEdits` compute:
`CryptoJS.enc.Base64.stringify` of the digest, made URL-safe and unpadded. -/
def hmacSignature (hmac : Hmac) (hmacAlgo : HmacAlgo) (data secret : JSString) : JSString :=
  stripTrailingEq (replaceAll 47 95 (replaceAll 43 45 (base64Encode (hmac hmacAlgo data secret))))

/-- The guarded write `if (verificationStatus) verificationStatus.textContent = msg`. -/
def report (st : State) (msg : JSString) : State :=
  if st.verificationStatus then { st with verifyStatus := msg } else st

/-- The unguarded write `verificationStatus.textContent = msg`, which throws (`none`)
while `verificationStatus` is `null`. -/
def writeStatus (st : State) (msg : JSString) : Option State :=
  if st.verificationStatus then some { st with verifyStatus := msg } else none

/-- The function `liveVerify` of the source; `none` when it throws. Every write is the last step of its
path, so a throw leaves the state as it was. -/
def liveVerify (hmac : Hmac) (st : State) (jwt : JSString) : Option State :=
  let parts := split 46 jwt
  if parts.length ≠ 3 then some st
  else
    let header := parts.getD 0 []
    let payload := parts.getD 1 []
    let signature := parts.getD 2 []
    match atob (replaceAll 95 47 (replaceAll 45 43 header)) with
    | none => none
    | some text =>
      match JSON.parse text with
      | none => none
      | some decodedHeader =>
        match getAlg decodedHeader with
        | none => none
        | some alg =>
          if strictEq alg (js "none") then writeStatus st msgValidNone
          else
            let secret := trim st.editSecret
            match getHMACAlgo alg with
            | none => writeStatus st msgCannotVerify
            | some hmacAlgo =>
              if secret = [] then writeStatus st msgNeedSecret
              else
                let expectedSig := hmacSignature hmac hmacAlgo (header ++ 46 :: payload) secret
                writeStatus st (if expectedSig = signature then msgSigValid else msgSigInvalid)

/-- The falsy strings of `!decoded`: `null` and the empty string. -/
def falsy (s : Option JSString) : Bool :=
  match s with
  | none => true
  | some [] => true
  | some (_ :: _) => false

/-- The function `autoDecodeJWT` of the source. -/
def autoDecodeJWT (hmac : Hmac) (st : State) : State :=
  let jwtInput := trim st.jwtInput
  let parts := split 46 jwtInput
  let st1 := { st with verificationStatus := true }
  let st2 := if parts.length = 3 then { st1 with savedSignature := parts.getD 2 [] } else st1
  if parts.length ≠ 3 then
    report { st2 with decodedHeader := [], decodedPayload := [] } msgInvalidFormat
  else
    let decodedHeader := base64UrlDecode (parts.getD 0 [])
    let decodedPayload := base64UrlDecode (parts.getD 1 [])
    if falsy decodedHeader || falsy decodedPayload then report st2 msgBase64Error
    else
      match JSON.parse (decodedHeader.getD []) with
      | none => report st2 msgInvalidJson
      | some headerObj =>
        match JSON.parse (decodedPayload.getD []) with
        | none => report st2 msgInvalidJson
        | some payloadObj =>
          let st3 := { st2 with decodedHeader := headerObj.stringifyIndented 0,
                                decodedPayload := payloadObj.stringifyIndented 0 }
          match getAlg headerObj with
          | none => report st3 msgInvalidJson
          | some alg =>
            let st4 := { st3 with currentAlg := some (orEmpty alg) }
            match liveVerify hmac st4 jwtInput with
            | none => report st4 msgInvalidJson
            | some st5 => st5

/-- The function `updateJWTFromEdits` of the source; every throw inside its `try`
block ends in the `catch` that writes "Invalid JSON.". -/
def updateJWTFromEdits (hmac : Hmac) (st : State) : State :=
  let headerBox := trim st.decodedHeader
  let payloadBox := trim st.decodedPayload
  let secret := trim st.editSecret
  match JSON.parse headerBox with
  | none => { st with encodedResult := msgInvalidJsonOut }
  | some header =>
    match JSON.parse payloadBox with
    | none => { st with encodedResult := msgInvalidJsonOut }
    | some payload =>
      match base64UrlEncode header.stringify with
      | none => { st with encodedResult := msgInvalidJsonOut }
      | some encodedHeader =>
        match base64UrlEncode payload.stringify with
        | none => { st with encodedResult := msgInvalidJsonOut }
        | some encodedPayload =>
          let data := encodedHeader ++ 46 :: encodedPayload
          match getAlg header with
          | none => { st with encodedResult := msgInvalidJsonOut }
          | some alg =>
            let st1 := { st with currentAlg := alg }
            let finalJWT :=
              if strictEq alg (js "none") then data ++ [46]
              else
                match getHMACAlgo alg with
                | none => data ++ 46 :: st.savedSignature
                | some hmacAlgo =>
                  if secret ≠ [] then data ++ 46 :: hmacSignature hmac hmacAlgo data secret
                  else data ++ 46 :: st.savedSignature
            let st2 := { st1 with jwtInput := finalJWT, encodedResult := finalJWT }
            match liveVerify hmac st2 finalJWT with
            | none => { st2 with encodedResult := msgInvalidJsonOut }
            | some st3 => st3

/-- The function `triggerUpdateOnMouseEnter` of the source. -/
def triggerUpdateOnMouseEnter (hmac : Hmac) (st : State) : State :=
  if st.pendingUpdate then { updateJWTFromEdits hmac st with pendingUpdate := false } else st

/-- The demo token of `loadTestJWT`. -/
def demoJWT : JSString :=
  js "eyJhbGciOiJIUzI1NiIsInR5cCI6IkpXVCJ9" ++ js "." ++ js "eyJ1c2VyIjoiYWRtaW4ifQ" ++ js "." ++
    js "qK7qEqLJHX_8JoECnKoMsMo8CtX3oywecGe0NSK5pCg"

/-- The function `loadTestJWT` of the source. -/
def loadTestJWT (hmac : Hmac) (st : State) : State :=
  autoDecodeJWT hmac
    { st with jwtInput := demoJWT, editSecret := js "admin",
              savedSignature := (split 46 demoJWT).getD 2 [] }

/-- The `input` listener of `#jwtInput`: the user has changed the field to `value`. -/
def onJwtInput (hmac : Hmac) (value : JSString) (st : State) : State :=
  autoDecodeJWT hmac { st with jwtInput := value }

/-- The `input` listener of `#decodedHeader`. -/
def onHeaderInput (value : JSString) (st : State) : State :=
  { st with decodedHeader := value, pendingUpdate := true }

/-- The `input` listener of `#decodedPayload`. -/
def onPayloadInput (value : JSString) (st : State) : State :=
  { st with decodedPayload := value, pendingUpdate := true }

/-- The `input` listener of `#editSecret`. -/
def onSecretInput (value : JSString) (st : State) : State :=
  { st with editSecret := value, pendingUpdate := true }

/-! ## Auxiliary definitions of the proofs, and concrete sessions -/

/-- The token that `updateJWTFromEdits` assembles from the two encoded segments,
the algorithm of the header, the trimmed secret and the saved signature. -/
def finalJWTOf (hmac : Hmac) (st : State) (encodedHeader encodedPayload : JSString)
    (alg : Option JSON) : JSString :=
  if strictEq alg (js "none") then (encodedHeader ++ 46 :: encodedPayload) ++ [46]
  else
    match getHMACAlgo alg with
    | none => (encodedHeader ++ 46 :: encodedPayload) ++ 46 :: st.savedSignature
    | some hmacAlgo =>
      if trim st.editSecret ≠ [] then
        (encodedHeader ++ 46 :: encodedPayload) ++
          46 :: hmacSignature hmac hmacAlgo (encodedHeader ++ 46 :: encodedPayload)
            (trim st.editSecret)
      else (encodedHeader ++ 46 :: encodedPayload) ++ 46 :: st.savedSignature

/-- A stand-in keyed hash for instantiating the theorems at concrete inputs; the
theorems hold for every `hmac`. -/
def toyHmac : Hmac := fun _ data key => key ++ data

/-- The session right after the demo button: `loadTestJWT` from the initial state. -/
def demoState : State := loadTestJWT toyHmac initialState

/-- The demo session after the payload field has been edited to `{"user":"root"}`. -/
def editedState : State := onPayloadInput (js "\x7b\"user\":\"root\"\x7d") demoState

/-- A session whose status element is bound and whose secret field holds `admin`. -/
def boundState : State :=
  { initialState with verificationStatus := true, editSecret := js "admin" }

/-- The edited demo session with a different saved signature, algorithm record,
token field and pending flag. -/
def otherState : State :=
  { editedState with savedSignature := js "other", currentAlg := none, jwtInput := js "x.y.z",
                     pendingUpdate := false, verifyStatus := [] }

/-- The demo session with the header edited to `{"alg":"RS256","typ":"JWT"}`. -/
def rsaState : State :=
  onHeaderInput (js "\x7b\"alg\":\"RS256\",\"typ\":\"JWT\"\x7d") editedState

/-- The demo session with the header edited to `{"alg":"none"}`. -/
def noneState : State := onHeaderInput (js "\x7b\"alg\":\"none\"\x7d") editedState

/-- A session with the status element bound, the secret `admin`, the header text
`{"alg":"HS256","typ":"JWT"}` and the payload text `{"user":"Ω"}`. -/
def omegaState : State :=
  { boundState with decodedHeader := js "\x7b\"alg\":\"HS256\",\"typ\":\"JWT\"\x7d",
                    decodedPayload := js "\x7b\"user\":\"Ω\"\x7d" }

/-- The token that `updateJWTFromEdits` assembles (lines 139 to 142 and 157 of the
source) from a header, a payload and a signature segment; `none` when `btoa` throws. -/
def buildToken (header payload : JSON) (sig : JSString) : Option JSString :=
  match base64UrlEncode header.stringify, base64UrlEncode payload.stringify with
  | some encodedHeader, some encodedPayload =>
    some (encodedHeader ++ 46 :: (encodedPayload ++ 46 :: sig))
  | _, _ => none

/-! ## The keyed hash HMAC-SHA256, and the events of the page -/

/-- Modelled from the spec: part of SHA-256, the rotation of a 32-bit word to the right
by `n` bits. -/
def rotr32 (n x : Nat) : Nat :=
  (x >>> n) ||| ((x <<< (32 - n)) % 4294967296)

/-- Modelled from the spec: part of SHA-256, its round constants. -/
def sha256K : List Nat :=
  [1116352408, 1899447441, 3049323471, 3921009573, 961987163, 1508970993, 2453635748, 2870763221,
   3624381080, 310598401, 607225278, 1426881987, 1925078388, 2162078206, 2614888103, 3248222580,
   3835390401, 4022224774, 264347078, 604807628, 770255983, 1249150122, 1555081692, 1996064986,
   2554220882, 2821834349, 2952996808, 3210313671, 3336571891, 3584528711, 113926993, 338241895,
   666307205, 773529912, 1294757372, 1396182291, 1695183700, 1986661051, 2177026350, 2456956037,
   2730485921, 2820302411, 3259730800, 3345764771, 3516065817, 3600352804, 4094571909, 275423344,
   430227734, 506948616, 659060556, 883997877, 958139571, 1322822218, 1537002063, 1747873779,
   1955562222, 2024104815, 2227730452, 2361852424, 2428436474, 2756734187, 3204031479, 3329325298]

/-- Modelled from the spec: part of SHA-256, its initial hash value. -/
def sha256Init : List Nat :=
  [1779033703, 3144134277, 1013904242, 2773480762, 1359893119, 2600822924, 528734635, 1541459225]

/-- Modelled from the spec: part of SHA-256, its message schedule, built on the
reversed list of the words so far. -/
def sha256Schedule : Nat → List Nat → List Nat
  | 0, w => w
  | n + 1, w =>
    let x := w.getD 1 0
    let y := w.getD 14 0
    let s1 := rotr32 17 x ^^^ rotr32 19 x ^^^ (x >>> 10)
    let s0 := rotr32 7 y ^^^ rotr32 18 y ^^^ (y >>> 3)
    sha256Schedule n ((s1 + w.getD 6 0 + s0 + w.getD 15 0) % 4294967296 :: w)

/-- Modelled from the spec: part of SHA-256, one round of its compression function on
the working variables. -/
def sha256Round (s : List Nat) (kw : Nat × Nat) : List Nat :=
  match s with
  | [a, b, c, d, e, f, g, h] =>
    let ch := (e &&& f) ^^^ ((4294967295 - e) &&& g)
    let maj := (a &&& b) ^^^ (a &&& c) ^^^ (b &&& c)
    let t1 := (h + (rotr32 6 e ^^^ rotr32 11 e ^^^ rotr32 25 e) + ch + kw.1 + kw.2) % 4294967296
    let t2 := ((rotr32 2 a ^^^ rotr32 13 a ^^^ rotr32 22 a) + maj) % 4294967296
    [(t1 + t2) % 4294967296, a, b, c, (d + t1) % 4294967296, e, f, g]
  | _ => s

/-- Modelled from the spec: part of SHA-256, the big-endian 32-bit words of a list of
bytes. -/
def be32Words : List Nat → List Nat
  | a :: b :: c :: d :: rest => (((a * 256 + b) * 256 + c) * 256 + d) :: be32Words rest
  | _ => []

/-- Modelled from the spec: part of SHA-256, its compression function: the hash value
after one block of 64 bytes. -/
def sha256Compress (hash block : List Nat) : List Nat :=
  let w := (sha256Schedule 48 (be32Words block).reverse).reverse
  let s := (sha256K.zip w).foldl sha256Round hash
  List.zipWith (fun x y => (x + y) % 4294967296) hash s

/-- Modelled from the spec: part of SHA-256, the blocks of 64 bytes of a padded
message. -/
def sha256Blocks : Nat → List Nat → List (List Nat)
  | 0, _ => []
  | n + 1, bytes => bytes.take 64 :: sha256Blocks n (bytes.drop 64)

/-- Modelled from the spec: part of SHA-256, the big-endian bytes of a number, `n` of
them. -/
def beBytes : Nat → Nat → List Nat
  | 0, _ => []
  | n + 1, x => (x / 256 ^ n) % 256 :: beBytes n x

/-- Modelled from the spec: part of SHA-256, its padding: one bit, zeros, and the
length in bits on 64 bits. -/
def sha256Pad (msg : List Nat) : List Nat :=
  msg ++ 128 :: (List.replicate ((119 - msg.length % 64) % 64) 0 ++ beBytes 8 (8 * msg.length))

/-- Modelled from the spec: the hash SHA-256 (FIPS 180-4) on a list of bytes, which the
CryptoJS library provides and the repository does not contain. -/
def sha256 (msg : List Nat) : List Nat :=
  let padded := sha256Pad msg
  ((sha256Blocks (padded.length / 64) padded).foldl sha256Compress sha256Init).flatMap (beBytes 4)

/-- Modelled from the spec: the keyed hash HMAC-SHA256 (RFC 2104 over SHA-256) of the
bytes `msg` under the bytes `key`, which the CryptoJS library provides as
`CryptoJS.HmacSHA256` and the repository does not contain. -/
def hmacSHA256 (key msg : List Nat) : List Nat :=
  let k0 := if key.length > 64 then sha256 key else key
  let k := k0 ++ List.replicate (64 - k0.length) 0
  sha256 (k.map (fun b => b ^^^ 92) ++ sha256 (k.map (fun b => b ^^^ 54) ++ msg))

/-- Modelled from the spec: a provider of keyed hashes that answers with HMAC-SHA256 of
the code units taken as bytes. On text of code units below 128 its `HmacSHA256` entry is the digest that
`CryptoJS.HmacSHA256` returns; the other two entries stand in for hashes that the
demo token does not use. -/
def sha256Hmac : Hmac := fun _ data key => hmacSHA256 key data

/-- What the user can do on the page: one constructor for each listener that the
script registers on a field or on the demo button. -/
inductive Event where
  /-- The `input` event of `#jwtInput`, the field now holding `value`. -/
  | jwtInput (value : JSString)
  /-- The `input` event of `#decodedHeader`, the field now holding `value`. -/
  | headerInput (value : JSString)
  /-- The `input` event of `#decodedPayload`, the field now holding `value`. -/
  | payloadInput (value : JSString)
  /-- The `input` event of `#editSecret`, the field now holding `value`. -/
  | secretInput (value : JSString)
  /-- The `mouseenter` event of `#jwtInput`. -/
  | mouseEnter
  /-- A click on `#loadDemoBtn`. -/
  | loadDemo

/-- The listener that the script runs on an event. -/
def step (hmac : Hmac) (st : State) : Event → State
  | .jwtInput value => onJwtInput hmac value st
  | .headerInput value => onHeaderInput value st
  | .payloadInput value => onPayloadInput value st
  | .secretInput value => onSecretInput value st
  | .mouseEnter => triggerUpdateOnMouseEnter hmac st
  | .loadDemo => loadTestJWT hmac st

/-- The state of the page after a sequence of events, from the initial state. -/
def run (hmac : Hmac) (events : List Event) : State :=
  events.foldl (step hmac) initialState

/-! ## Further concrete sessions -/

/-- The demo session after the token field has been changed to `value`, before the
listener of the field has run. -/
def pastedState (value : JSString) : State := { demoState with jwtInput := value }

/-- The signing input of the demo token: its first two segments and the dot between. -/
def demoData : JSString :=
  js "eyJhbGciOiJIUzI1NiIsInR5cCI6IkpXVCJ9.eyJ1c2VyIjoiYWRtaW4ifQ"

/-- The header of the demo token. -/
def demoHeader : JSON := .obj [(js "alg", .str (js "HS256")), (js "typ", .str (js "JWT"))]

/-- The payload of the demo token. -/
def demoPayload : JSON := .obj [(js "user", .str (js "admin"))]

/-! ## Sessions right after page load -/

/-- The session right after page load in which the header, payload and secret fields
have been typed and no token has been decoded yet: `verificationStatus` still is
`null`. -/
def typedState (headerText payloadText secret : JSString) : State :=
  onSecretInput secret (onPayloadInput payloadText (onHeaderInput headerText initialState))

/-- The fresh session with the header `{"alg":"HS256","typ":"JWT"}`, the payload
`{"user":"root"}` and the secret `admin` typed. -/
def hs256Typed : State :=
  typedState (js "\x7b\"alg\":\"HS256\",\"typ\":\"JWT\"\x7d") (js "\x7b\"user\":\"root\"\x7d")
    (js "admin")

/-- The fresh session with the header `{"alg":"none"}`, the payload `{}` and the secret
`admin` typed. -/
def noneTyped : State := typedState (js "\x7b\"alg\":\"none\"\x7d") (js "\x7b\x7d") (js "admin")

/-- The fresh session with the header `{"alg":"RS256"}`, the payload `{}` and the secret
`admin` typed. -/
def rs256Typed : State := typedState (js "\x7b\"alg\":\"RS256\"\x7d") (js "\x7b\x7d") (js "admin")

/-- The fresh session with the header `{"alg":"HS256"}` and the payload `{}` typed, the
secret left empty. -/
def noSecretTyped : State := typedState (js "\x7b\"alg\":\"HS256\"\x7d") (js "\x7b\x7d") []

/-- The token that a rebuild writes for the header `{"alg":"HS256","typ":"JWT"}`, the
payload `{"user":"root"}` and the secret `admin`. -/
def hs256Token (hmac : Hmac) : JSString :=
  js "eyJhbGciOiJIUzI1NiIsInR5cCI6IkpXVCJ9" ++ 46 :: (js "eyJ1c2VyIjoicm9vdCJ9" ++
    46 :: hmacSignature hmac .HmacSHA256
      (js "eyJhbGciOiJIUzI1NiIsInR5cCI6IkpXVCJ9" ++ 46 :: js "eyJ1c2VyIjoicm9vdCJ9") (js "admin"))

/-! ## base64: decoding inverts encoding -/

theorem base64Encode_eq (s : List Nat) :
    base64Encode s = (sextets s).map b64Char ++ List.replicate (padLen s) 61 := by
  induction s using base64Encode.induct with
  | case1 => rfl
  | case2 a => rfl
  | case3 a b => rfl
  | case4 a b c rest ih => simp [base64Encode, sextets, padLen, ih]

theorem sextets_lt (s : List Nat) : ∀ v ∈ sextets s, v < 64 := by
  induction s using sextets.induct with
  | case1 => simp [sextets]
  | case2 a => simp [sextets]; omega
  | case3 a b => simp [sextets]; omega
  | case4 a b c rest ih =>
    simp only [sextets, List.mem_cons]
    rintro v (h | h | h | h | h)
    · omega
    · omega
    · omega
    · omega
    · exact ih v h

theorem padLen_le (s : List Nat) : padLen s ≤ 2 := by
  induction s using padLen.induct with
  | case1 => simp [padLen]
  | case2 a => simp [padLen]
  | case3 a b => simp [padLen]
  | case4 a b c rest ih => simpa [padLen] using ih

theorem sextets_length (s : List Nat) :
    ((sextets s).length + padLen s) % 4 = 0 ∧ (sextets s).length % 4 ≠ 1 ∧
      (padLen s = if (sextets s).length % 4 = 0 then 0 else 4 - (sextets s).length % 4) := by
  induction s using sextets.induct with
  | case1 => simp [sextets, padLen]
  | case2 a => simp [sextets, padLen]
  | case3 a b => simp [sextets, padLen]
  | case4 a b c rest ih =>
    simp only [sextets, padLen, List.length_cons]
    obtain ⟨h1, h2, h3⟩ := ih
    refine ⟨by omega, by omega, ?_⟩
    rw [h3]
    have : ((sextets rest).length + 1 + 1 + 1 + 1) % 4 = (sextets rest).length % 4 := by omega
    rw [this]

theorem decodeGroups_sextets (s : List Nat) (h : ∀ c ∈ s, c ≤ 255) :
    decodeGroups (sextets s) = s := by
  induction s using sextets.induct with
  | case1 => rfl
  | case2 a =>
    have := h a (by simp)
    simp only [sextets, decodeGroups, List.cons.injEq, and_true]; omega
  | case3 a b =>
    have := h a (by simp); have := h b (by simp)
    simp only [sextets, decodeGroups, List.cons.injEq, and_true]; omega
  | case4 a b c rest ih =>
    have := h a (by simp); have := h b (by simp); have := h c (by simp)
    have hr : ∀ x ∈ rest, x ≤ 255 := fun x hx => h x (by simp [hx])
    simp only [sextets, decodeGroups, List.cons.injEq, ih hr, and_true]; omega

theorem b64Val_b64Char (n : Nat) (h : n < 64) : b64Val (b64Char n) = some n := by
  unfold b64Char b64Val
  split_ifs <;> first | (simp; done) | (simp; omega) | omega

/-- Every alphabet character lies in one of the five ranges of the alphabet. -/
theorem b64Char_range (n : Nat) :
    (65 ≤ b64Char n ∧ b64Char n ≤ 90) ∨ (97 ≤ b64Char n ∧ b64Char n ≤ 122) ∨
      (48 ≤ b64Char n ∧ b64Char n ≤ 57) ∨ b64Char n = 43 ∨ b64Char n = 47 := by
  unfold b64Char
  split_ifs <;> omega

theorem replaceAll_url (s : JSString) :
    replaceAll 47 95 (replaceAll 43 45 s) = s.map urlChar := by
  simp only [replaceAll, List.map_map]
  apply List.map_congr_left
  intro c _
  simp only [Function.comp, urlChar]
  split_ifs <;> omega

theorem replaceAll_std (s : JSString) :
    replaceAll 95 47 (replaceAll 45 43 s) = s.map stdChar := by
  simp only [replaceAll, List.map_map]
  apply List.map_congr_left
  intro c _
  simp only [Function.comp, stdChar]
  split_ifs <;> omega

theorem stdChar_urlChar_b64Char (n : Nat) : stdChar (urlChar (b64Char n)) = b64Char n := by
  have := b64Char_range n
  unfold stdChar urlChar
  split_ifs <;> omega

theorem isUrlChar_urlChar_b64Char (n : Nat) : isUrlChar (urlChar (b64Char n)) := by
  have := b64Char_range n
  unfold isUrlChar urlChar
  split_ifs <;> omega

theorem urlBody_isUrlChar (s : List Nat) : ∀ c ∈ urlBody s, isUrlChar c := by
  intro c hc
  simp only [urlBody, List.mem_map] at hc
  obtain ⟨v, _, rfl⟩ := hc
  exact isUrlChar_urlChar_b64Char v

theorem urlBody_ne_nil (s : List Nat) (h : s ≠ []) : urlBody s ≠ [] := by
  unfold urlBody
  cases s with
  | nil => exact absurd rfl h
  | cons a t =>
    cases t with
    | nil => simp [sextets]
    | cons b t =>
      cases t with
      | nil => simp [sextets]
      | cons c t => simp [sextets]

theorem dropWhile_replicate_append (k : Nat) (l : JSString)
    (h : ∀ c, l.head? = some c → c ≠ 61) :
    (List.replicate k 61 ++ l).dropWhile (fun c => decide (c = 61)) = l := by
  induction k with
  | zero =>
    cases l with
    | nil => rfl
    | cons c t =>
      have := h c rfl
      simp [List.dropWhile, this]
  | succ k ih => simpa [List.replicate_succ, List.dropWhile] using ih

theorem stripTrailingEq_append (l : JSString) (k : Nat) (h : ∀ c ∈ l, c ≠ 61) :
    stripTrailingEq (l ++ List.replicate k 61) = l := by
  unfold stripTrailingEq
  rw [List.reverse_append, List.reverse_replicate, dropWhile_replicate_append, List.reverse_reverse]
  intro c hc
  apply h c
  have : c ∈ l.reverse := List.mem_of_mem_head? hc
  simpa using this

theorem base64UrlEncode_eq (s : JSString) (h : ∀ c ∈ s, c ≤ 255) :
    base64UrlEncode s = some (urlBody s) := by
  have hall : s.all (fun c => decide (c ≤ 255)) = true := by
    simpa [List.all_eq_true] using h
  simp only [base64UrlEncode, btoa, hall, if_true, Option.map_some', replaceAll_url,
    base64Encode_eq, List.map_append, List.map_replicate, List.map_map]
  congr 1
  have h61 : urlChar 61 = 61 := by decide
  rw [h61]
  apply stripTrailingEq_append
  intro c hc
  have := urlBody_isUrlChar s c (by simpa [urlBody] using hc)
  unfold isUrlChar at this
  omega

theorem base64UrlEncode_none (s : JSString) (h : ¬ ∀ c ∈ s, c ≤ 255) :
    base64UrlEncode s = none := by
  have hall : ¬ s.all (fun c => decide (c ≤ 255)) = true := by
    simpa [List.all_eq_true] using h
  simp [base64UrlEncode, btoa, hall]

theorem map_stdChar_urlBody (s : List Nat) :
    (urlBody s).map stdChar = (sextets s).map b64Char := by
  simp only [urlBody, List.map_map]
  apply List.map_congr_left
  intro v _
  exact stdChar_urlChar_b64Char v

theorem b64Vals_map_b64Char (vs : List Nat) (h : ∀ v ∈ vs, v < 64) :
    b64Vals (vs.map b64Char) = some vs := by
  induction vs with
  | nil => rfl
  | cons v vs ih =>
    have hv := b64Val_b64Char v (h v (by simp))
    have ht := ih (fun x hx => h x (by simp [hx]))
    simp [b64Vals, hv, ht]

theorem not_ws_b64Char (n : Nat) : isAsciiWhitespace (b64Char n) = false := by
  have := b64Char_range n
  simp only [isAsciiWhitespace, Bool.or_eq_false_iff, decide_eq_false_iff_not]
  omega

theorem filter_ws_b64 (vs : List Nat) (k : Nat) :
    (vs.map b64Char ++ List.replicate k 61).filter (fun c => !isAsciiWhitespace c) =
      vs.map b64Char ++ List.replicate k 61 := by
  rw [List.filter_eq_self]
  intro c hc
  rcases List.mem_append.1 hc with h | h
  · obtain ⟨v, _, rfl⟩ := List.mem_map.1 h
    simp [not_ws_b64Char]
  · have := (List.mem_replicate.1 h).2
    subst this
    decide

theorem getLast?_map_b64Char_ne (vs : List Nat) : (vs.map b64Char).getLast? ≠ some 61 := by
  intro h
  have hm := List.mem_of_getLast?_eq_some h
  obtain ⟨v, _, hv⟩ := List.mem_map.1 hm
  have := b64Char_range v
  omega

theorem stripPadding_b64 (vs : List Nat) (k : Nat) (hk : k ≤ 2) :
    stripPadding (vs.map b64Char ++ List.replicate k 61) = vs.map b64Char := by
  have hne := getLast?_map_b64Char_ne vs
  interval_cases k
  · simp only [List.replicate, List.append_nil, stripPadding, if_neg hne]
  · have h1 : (vs.map b64Char ++ List.replicate 1 61) = vs.map b64Char ++ [61] := rfl
    rw [h1]
    simp only [stripPadding, List.getLast?_concat, List.dropLast_concat, if_true, if_neg hne]
  · have h2 : (vs.map b64Char ++ List.replicate 2 61) = (vs.map b64Char ++ [61]) ++ [61] := by
      simp [List.replicate]
    rw [h2]
    simp only [stripPadding, List.getLast?_concat, List.dropLast_concat, if_true]

/-- Forgiving decoding of padded base64 gives the bytes back. -/
theorem atob_base64Encode (s : List Nat) (h : ∀ c ∈ s, c ≤ 255) :
    atob (base64Encode s) = some s := by
  obtain ⟨h1, h2, _⟩ := sextets_length s
  simp only [atob, base64Encode_eq, filter_ws_b64]
  have hlen : (List.map b64Char (sextets s) ++ List.replicate (padLen s) 61).length % 4 = 0 := by
    simpa using h1
  simp only [hlen, if_true, stripPadding_b64 _ _ (padLen_le s), List.length_map,
    b64Vals_map_b64Char _ (sextets_lt s), Option.map_some', decodeGroups_sextets s h]
  simp [h2]

/-- Forgiving decoding of unpadded base64 gives the bytes back. -/
theorem atob_unpadded (s : List Nat) (h : ∀ c ∈ s, c ≤ 255) :
    atob ((sextets s).map b64Char) = some s := by
  obtain ⟨_, h2, _⟩ := sextets_length s
  have hf := filter_ws_b64 (sextets s) 0
  have hs := stripPadding_b64 (sextets s) 0 (by omega)
  simp only [List.replicate, List.append_nil] at hf hs
  simp only [atob, hf, hs, ite_self, List.length_map,
    b64Vals_map_b64Char _ (sextets_lt s), Option.map_some', decodeGroups_sextets s h]
  simp [h2]

/-- Decoding as `liveVerify` does (no padding added) inverts `base64UrlEncode`. -/
theorem atob_std_urlBody (s : List Nat) (h : ∀ c ∈ s, c ≤ 255) :
    atob (replaceAll 95 47 (replaceAll 45 43 (urlBody s))) = some s := by
  rw [replaceAll_std, map_stdChar_urlBody, atob_unpadded s h]

/-- Decoding as `base64UrlDecode` does (padding restored) inverts `base64UrlEncode`. -/
theorem base64UrlDecode_urlBody (s : List Nat) (h : ∀ c ∈ s, c ≤ 255) :
    base64UrlDecode (urlBody s) = some s := by
  obtain ⟨_, _, h3⟩ := sextets_length s
  simp only [base64UrlDecode, replaceAll_std, map_stdChar_urlBody, List.length_map]
  have : (if (sextets s).length % 4 ≠ 0 then
      List.map b64Char (sextets s) ++ List.replicate (4 - (sextets s).length % 4) 61
      else List.map b64Char (sextets s)) = base64Encode s := by
    rw [base64Encode_eq, h3]
    split_ifs <;> simp_all
  rw [this, atob_base64Encode s h]

/-! ## JSON: parsing inverts serialisation -/

theorem hexVal_hexChar (n : Nat) (h : n < 16) : hexVal (hexChar n) = some n := by
  unfold hexVal hexChar
  split_ifs <;> first | (simp; done) | (simp; omega) | omega

theorem parseChars_quote (t : JSString) : parseChars (34 :: t) = some ([], t) := by
  rw [parseChars.eq_def]; simp

theorem parseChars_unicodeEscape (c : Nat) (hc : c < 65536) (t : JSString) :
    parseChars (unicodeEscape c ++ t) = consChar c (parseChars t) := by
  have e1 := hexVal_hexChar (c / 4096 % 16) (by omega)
  have e2 := hexVal_hexChar (c / 256 % 16) (by omega)
  have e3 := hexVal_hexChar (c / 16 % 16) (by omega)
  have e4 := hexVal_hexChar (c % 16) (by omega)
  have hv : c / 4096 % 16 * 4096 + c / 256 % 16 * 256 + c / 16 % 16 * 16 + c % 16 = c := by
    omega
  rw [parseChars.eq_def]
  simp [unicodeEscape, e1, e2, e3, e4, hv]

theorem parseChars_raw (c : Nat) (h1 : c ≠ 34) (h2 : c ≠ 92) (h3 : ¬ c < 32) (t : JSString) :
    parseChars (c :: t) = consChar c (parseChars t) := by
  rw [parseChars.eq_def]; simp [h1, h2, h3]

theorem parseChars_escape (e v : Nat) (he : e ≠ 117) (hv : escapeVal e = some v) (t : JSString) :
    parseChars (92 :: e :: t) = consChar v (parseChars t) := by
  rw [parseChars.eq_def]; simp [he, hv]

/-- Reading back the escaped body of a string, up to the closing quote. -/
theorem parseChars_quoteChars (s rest : JSString) :
    parseChars (quoteChars s ++ 34 :: rest) = some (s, rest) := by
  induction s using quoteChars.induct with
  | case1 => simp [quoteChars, parseChars_quote]
  | case2 t ih =>
    rw [quoteChars.eq_def]; simp only [ if_true, List.cons_append]
    rw [parseChars_escape 98 8 (by decide) (by decide), ih]; rfl
  | case3 t h ih =>
    rw [quoteChars.eq_def]; simp only [h, if_true, List.cons_append, reduceCtorEq, if_false]
    rw [parseChars_escape 116 9 (by decide) (by decide), ih]; rfl
  | case4 t h1 h2 ih =>
    rw [quoteChars.eq_def]; simp only [h1, h2, if_true, List.cons_append, reduceCtorEq, if_false]
    rw [parseChars_escape 110 10 (by decide) (by decide), ih]; rfl
  | case5 t h1 h2 h3 ih =>
    rw [quoteChars.eq_def]; simp only [h1, h2, h3, if_true, List.cons_append, reduceCtorEq, if_false]
    rw [parseChars_escape 102 12 (by decide) (by decide), ih]; rfl
  | case6 t h1 h2 h3 h4 ih =>
    rw [quoteChars.eq_def]; simp only [h1, h2, h3, h4, if_true, List.cons_append, reduceCtorEq, if_false]
    rw [parseChars_escape 114 13 (by decide) (by decide), ih]; rfl
  | case7 t h1 h2 h3 h4 h5 ih =>
    rw [quoteChars.eq_def]; simp only [h1, h2, h3, h4, h5, if_true, List.cons_append, reduceCtorEq, if_false]
    rw [parseChars_escape 34 34 (by decide) (by decide), ih]; rfl
  | case8 t h1 h2 h3 h4 h5 h6 ih =>
    rw [quoteChars.eq_def]; simp only [h1, h2, h3, h4, h5, h6, if_true, List.cons_append, reduceCtorEq, if_false]
    rw [parseChars_escape 92 92 (by decide) (by decide), ih]; rfl
  | case9 c t h1 h2 h3 h4 h5 h6 h7 h8 ih =>
    rw [quoteChars.eq_def]; simp only [ h1, h2, h3, h4, h5, h6, h7, h8, if_true, if_false, List.append_assoc]
    rw [parseChars_unicodeEscape c (by omega), ih]; rfl
  | case10 c h1 h2 h3 h4 h5 h6 h7 h8 h9 d t h10 ih =>
    simp only [quoteChars, h1, h2, h3, h4, h5, h6, h7, h8, h9, h10, if_true, if_false,
      List.cons_append, and_self]
    rw [parseChars_raw c h6 h7 h8, parseChars_raw d (by omega) (by omega) (by omega), ih]; rfl
  | case11 c h1 h2 h3 h4 h5 h6 h7 h8 h9 d t h10 ih =>
    simp only [quoteChars, h1, h2, h3, h4, h5, h6, h7, h8, h9, h10, if_true, if_false,
      List.append_assoc, and_self] at ih ⊢
    rw [parseChars_unicodeEscape c (by omega), ih]; rfl
  | case12 c h1 h2 h3 h4 h5 h6 h7 h8 h9 =>
    simp only [quoteChars, h1, h2, h3, h4, h5, h6, h7, h8, h9, if_true, if_false,
      List.append_assoc, and_self]
    rw [parseChars_unicodeEscape c (by omega), parseChars_quote]; rfl
  | case13 c t h1 h2 h3 h4 h5 h6 h7 h8 h9 h10 ih =>
    rw [quoteChars.eq_def]; simp only [ h1, h2, h3, h4, h5, h6, h7, h8, h9, h10, if_true, if_false,
      List.append_assoc, and_self]
    rw [parseChars_unicodeEscape c (by omega), ih]; rfl
  | case14 c t h1 h2 h3 h4 h5 h6 h7 h8 h9 h10 ih =>
    rw [quoteChars.eq_def]; simp only [ h1, h2, h3, h4, h5, h6, h7, h8, h9, h10, if_true, if_false,
      List.cons_append]
    rw [parseChars_raw c h6 h7 h8, ih]; rfl

theorem ofDigits_append_singleton (xs : List Nat) (d : Nat) :
    ofDigits (xs ++ [d]) = 10 * ofDigits xs + d := by
  simp [ofDigits, List.foldl_append]

theorem natDigitsAux_acc (fuel n : Nat) (acc : List Nat) :
    natDigitsAux fuel n acc = natDigitsAux fuel n [] ++ acc := by
  induction fuel generalizing n acc with
  | zero => simp [natDigitsAux]
  | succ f ih =>
    simp only [natDigitsAux]
    split_ifs
    · simp
    · rw [ih (n / 10) (n % 10 :: acc), ih (n / 10) [n % 10]]
      simp

theorem natDigitsAux_spec (fuel n : Nat) (h : n < fuel) :
    ofDigits (natDigitsAux fuel n []) = n ∧ (∀ d ∈ natDigitsAux fuel n [], d < 10) ∧
      natDigitsAux fuel n [] ≠ [] := by
  induction fuel generalizing n with
  | zero => omega
  | succ f ih =>
    simp only [natDigitsAux]
    split_ifs with h10
    · refine ⟨by simp [ofDigits], ?_, by simp⟩
      intro d hd
      simp at hd
      omega
    · rw [natDigitsAux_acc]
      obtain ⟨h1, h2, h3⟩ := ih (n / 10) (by omega)
      refine ⟨?_, ?_, by simp⟩
      · rw [ofDigits_append_singleton, h1]; omega
      · intro d hd
        rcases List.mem_append.1 hd with hd | hd
        · exact h2 d hd
        · simp at hd; omega

theorem natDigits_spec (n : Nat) :
    ofDigits (natDigits n) = n ∧ (∀ d ∈ natDigits n, d < 10) ∧ natDigits n ≠ [] :=
  natDigitsAux_spec (n + 1) n (by omega)

theorem Delim.noDigit {rest : JSString} (h : Delim rest) : NoDigit rest := by
  intro c hc
  rcases h c hc with h | h | h <;> subst h <;> decide

theorem takeDigits_noDigit (rest : JSString) (h : NoDigit rest) : takeDigits rest = ([], rest) := by
  cases rest with
  | nil => rfl
  | cons c t =>
    have := h c rfl
    simp [takeDigits, this]

theorem takeDigits_digitChars (ds : List Nat) (h : ∀ d ∈ ds, d < 10) (rest : JSString)
    (hr : NoDigit rest) : takeDigits (digitChars ds ++ rest) = (ds, rest) := by
  induction ds with
  | nil => simpa [digitChars] using takeDigits_noDigit rest hr
  | cons d t ih =>
    have hd : d < 10 := h d (by simp)
    have ht := ih (fun x hx => h x (by simp [hx]))
    have hdig : isDigit (d + 48) = true := by
      simp only [isDigit, Bool.and_eq_true, decide_eq_true_eq]; omega
    have hstep : takeDigits (digitChars (d :: t) ++ rest) =
        ((d + 48 - 48) :: (takeDigits (digitChars t ++ rest)).1,
          (takeDigits (digitChars t ++ rest)).2) := by
      show takeDigits ((d + 48) :: (digitChars t ++ rest)) = _
      simp only [takeDigits, hdig, if_true]
    rw [hstep, ht]
    simp

theorem dropWhile_replicate_append_gen (p : Nat → Bool) (a : Nat) (ha : p a = true) (k : Nat)
    (l : List Nat) (h : ∀ c, l.head? = some c → p c = false) :
    (List.replicate k a ++ l).dropWhile p = l := by
  induction k with
  | zero =>
    cases l with
    | nil => rfl
    | cons c t =>
      have := h c rfl
      simp [List.dropWhile, this]
  | succ k ih => simpa [List.replicate_succ, List.dropWhile, ha] using ih

theorem dropWhile_zero_of_head (l : List Nat) (h : l.head? ≠ some 0) :
    l.dropWhile (fun d => decide (d = 0)) = l := by
  have := dropWhile_replicate_append_gen (fun d => decide (d = 0)) 0 (by simp) 0 l
    (by intro c hc; simp; rintro rfl; exact h hc)
  simpa using this

theorem stripZeros_append (l : List Nat) (k : Nat) (h : l.getLast? ≠ some 0) :
    ((l ++ List.replicate k 0).reverse.dropWhile (fun d => decide (d = 0))).reverse = l := by
  rw [List.reverse_append, List.reverse_replicate,
    dropWhile_replicate_append_gen (fun d => decide (d = 0)) 0 (by simp), List.reverse_reverse]
  intro c hc
  rw [List.head?_reverse] at hc
  simp
  rintro rfl
  exact h hc

theorem stripZeros_self (l : List Nat) (h : l.getLast? ≠ some 0) :
    (l.reverse.dropWhile (fun d => decide (d = 0))).reverse = l := by
  simpa using stripZeros_append l 0 h

/-- What `numWF` says of a number with digits. -/
theorem numWF_cons {neg : Bool} {d : Nat} {ds : List Nat} {point : Int}
    (h : numWF neg (d :: ds) point = true) :
    (∀ x ∈ d :: ds, x < 10) ∧ d ≠ 0 ∧ (d :: ds).getLast? ≠ some 0 := by
  simp only [numWF, Bool.and_eq_true, List.all_eq_true, decide_eq_true_eq] at h
  exact ⟨h.1.1, h.1.2, h.2⟩

theorem noDigit_cons (c : Nat) (t : JSString) (h : isDigit c = false) : NoDigit (c :: t) := by
  intro x hx
  simp at hx
  subst hx
  exact h

theorem parseFraction_fracText (fp : List Nat) (hfp : ∀ d ∈ fp, d < 10) (tail : JSString)
    (hnd : NoDigit tail) (hdot : tail.head? ≠ some 46) :
    parseFraction (fracText fp ++ tail) = some (fp, tail) := by
  unfold fracText
  split_ifs with h
  · subst h
    cases tail with
    | nil => rfl
    | cons c t =>
      have : c ≠ 46 := by intro hc; subst hc; exact hdot rfl
      simp [parseFraction, this]
  · have ht := takeDigits_digitChars fp hfp tail hnd
    show parseFraction (46 :: (digitChars fp ++ tail)) = _
    simp [parseFraction, ht, h]

theorem noDigit_fracText (fp : List Nat) (tail : JSString) (hnd : NoDigit tail) :
    NoDigit (fracText fp ++ tail) := by
  unfold fracText
  split_ifs
  · simpa using hnd
  · exact noDigit_cons 46 _ (by decide)

theorem parseUnsigned_parts (neg : Bool) (ip fp : List Nat) (e : Int) (tail rest : JSString)
    (hip : ∀ d ∈ ip, d < 10) (hfp : ∀ d ∈ fp, d < 10)
    (hhead : ip = [0] ∨ (ip ≠ [] ∧ ip.head? ≠ some 0))
    (hnd : NoDigit tail) (hdot : tail.head? ≠ some 46)
    (hexp : parseExponent tail = some (e, rest)) :
    parseUnsigned neg (digitChars ip ++ (fracText fp ++ tail)) =
      some (mkNumber neg ip fp e, rest) := by
  have hfr := parseFraction_fracText fp hfp tail hnd hdot
  rcases hhead with h0 | ⟨hne, hh⟩
  · subst h0
    show parseUnsigned neg (48 :: (fracText fp ++ tail)) = _
    have : isDigit 48 = true := by decide
    simp [parseUnsigned, this, hfr, hexp]
  · cases ip with
    | nil => exact absurd rfl hne
    | cons d t =>
      have hd : d < 10 := hip d (by simp)
      have hd0 : d ≠ 0 := by intro h; subst h; exact hh rfl
      have hdig : isDigit (d + 48) = true := by
        simp only [isDigit, Bool.and_eq_true, decide_eq_true_eq]; omega
      have htk := takeDigits_digitChars (d :: t) hip (fracText fp ++ tail)
        (noDigit_fracText fp tail hnd)
      have hc : (d + 48 = 48) = False := by simp; exact hd0
      have hshape : digitChars (d :: t) ++ (fracText fp ++ tail) =
          (d + 48) :: (digitChars t ++ (fracText fp ++ tail)) := rfl
      rw [hshape] at htk ⊢
      simp only [parseUnsigned, hdig, if_true, hc, if_false, htk, hfr, hexp]

theorem parseExponent_delim (rest : JSString) (h : Delim rest) :
    parseExponent rest = some (0, rest) := by
  cases rest with
  | nil => rfl
  | cons c t =>
    have : ¬ (c = 101 ∨ c = 69) := by
      rcases h c rfl with h | h | h <;> subst h <;> decide
    simp [parseExponent, this]

theorem parseExponent_expText (p : Int) (rest : JSString) (hr : NoDigit rest) :
    parseExponent (expText p ++ rest) = some (p, rest) := by
  obtain ⟨h1, h2, h3⟩ := natDigits_spec p.natAbs
  have htk := takeDigits_digitChars (natDigits p.natAbs) h2 rest hr
  unfold expText
  split_ifs with hneg
  · show parseExponent (101 :: 45 :: (digitChars (natDigits p.natAbs) ++ rest)) = _
    have hv : -((p.natAbs : Nat) : Int) = p := by omega
    simp only [parseExponent, true_or, if_true, parseExpDigits, htk, h3, if_false, h1, hv]
    simp
  · show parseExponent (101 :: 43 :: (digitChars (natDigits p.natAbs) ++ rest)) = _
    have hv : ((p.natAbs : Nat) : Int) = p := by omega
    simp only [parseExponent, true_or, if_true, parseExpDigits, htk, h3, if_false, h1, hv]
    simp

theorem noDigit_expText (p : Int) (rest : JSString) : NoDigit (expText p ++ rest) :=
  noDigit_cons 101 _ (by decide)

theorem mkNumber_eq (neg : Bool) (ip fp : List Nat) (e : Int) (ds : List Nat)
    (hsig : (ip ++ fp).dropWhile (fun d => decide (d = 0)) = ds)
    (hlast : ds.getLast? ≠ some 0) (hne : ds ≠ []) :
    mkNumber neg ip fp e =
      .num neg ds ((ip.length : Int) + e - (((ip ++ fp).length - ds.length : Nat) : Int)) := by
  simp only [mkNumber, hsig, stripZeros_self ds hlast, hne, if_false]

theorem mkNumber_eq_gen (neg : Bool) (ip fp : List Nat) (e : Int) (sig ds : List Nat)
    (hsig : (ip ++ fp).dropWhile (fun d => decide (d = 0)) = sig)
    (hstrip : (sig.reverse.dropWhile (fun d => decide (d = 0))).reverse = ds) (hne : ds ≠ []) :
    mkNumber neg ip fp e =
      .num neg ds ((ip.length : Int) + e - (((ip ++ fp).length - sig.length : Nat) : Int)) := by
  simp only [mkNumber, hsig, hstrip, hne, if_false]

theorem digitChars_append (a b : List Nat) :
    digitChars (a ++ b) = digitChars a ++ digitChars b := by
  simp [digitChars]

theorem digitChars_replicate_zero (m : Nat) :
    digitChars (List.replicate m 0) = List.replicate m 48 := by
  simp [digitChars]

/-- Reading back the unsigned text of a number with digits. -/
theorem parseUnsigned_unsignedText (neg : Bool) (d : Nat) (t : List Nat) (p : Int)
    (hall : ∀ x ∈ d :: t, x < 10) (hd0 : d ≠ 0) (hlast : (d :: t).getLast? ≠ some 0)
    (rest : JSString) (hd : Delim rest) :
    parseUnsigned neg (unsignedText (d :: t) p ++ rest) = some (.num neg (d :: t) p, rest) := by
  have hexp0 := parseExponent_delim rest hd
  have hnd := hd.noDigit
  have hdot : rest.head? ≠ some 46 := by
    intro h; rcases hd 46 h with h | h | h <;> omega
  have hhead : (d :: t).head? ≠ some 0 := by simpa using hd0
  have hsig := dropWhile_zero_of_head (d :: t) hhead
  unfold unsignedText
  split_ifs with hA hB hC
  · -- digits followed by zeros
    have hip : ∀ x ∈ d :: t ++ List.replicate (p - ((d :: t).length : Int)).toNat 0, x < 10 := by
      intro x hx
      rcases List.mem_append.1 hx with h | h
      · exact hall x h
      · rw [(List.mem_replicate.1 h).2]; omega
    have := parseUnsigned_parts neg (d :: t ++ List.replicate (p - ((d :: t).length : Int)).toNat 0)
      [] 0 rest rest hip (by simp) (Or.inr ⟨by simp, by
        show (d :: (t ++ List.replicate (p - ((d :: t).length : Int)).toNat 0)).head? ≠ some 0
        simpa using hd0⟩) hnd hdot hexp0
    rw [digitChars_append, digitChars_replicate_zero] at this
    simp only [fracText, if_true, List.nil_append] at this
    have hpt : (((d :: t ++ List.replicate (p - ((d :: t).length : Int)).toNat 0).length : Int) + 0 -
        ((((d :: t ++ List.replicate (p - ((d :: t).length : Int)).toNat 0) ++ []).length -
          (d :: t ++ List.replicate (p - ((d :: t).length : Int)).toNat 0).length : Nat) : Int))
        = p := by
      simp only [List.append_nil, List.length_append, List.length_replicate, List.length_cons]
        at hA ⊢
      omega
    rw [this, mkNumber_eq_gen neg _ [] 0
      (d :: t ++ List.replicate (p - ((d :: t).length : Int)).toNat 0) (d :: t) (by
      rw [List.append_nil]
      exact dropWhile_zero_of_head _ (by
        show (d :: (t ++ List.replicate (p - ((d :: t).length : Int)).toNat 0)).head? ≠ some 0
        simpa using hd0)) (stripZeros_append (d :: t) _ hlast) (by simp), hpt]
  · -- digits with a decimal point inside
    have hpk : p < ((d :: t).length : Int) := by omega
    obtain ⟨m, hm⟩ : ∃ m, p.toNat = m + 1 := ⟨p.toNat - 1, by omega⟩
    have hfne : List.drop p.toNat (d :: t) ≠ [] := by
      intro h
      have := congrArg List.length h
      simp only [List.length_drop, List.length_cons, List.length_nil] at this hpk
      omega
    have hipne : List.take p.toNat (d :: t) ≠ [] := by rw [hm]; simp
    have hiph : (List.take p.toNat (d :: t)).head? ≠ some 0 := by rw [hm]; simpa using hd0
    have := parseUnsigned_parts neg (List.take p.toNat (d :: t)) (List.drop p.toNat (d :: t)) 0
      rest rest (fun x hx => hall x (List.mem_of_mem_take hx))
      (fun x hx => hall x (List.mem_of_mem_drop hx)) (Or.inr ⟨hipne, hiph⟩) hnd hdot hexp0
    simp only [fracText, hfne, if_false] at this
    have hpt : (((List.take p.toNat (d :: t)).length : Int) + 0 -
        (((List.take p.toNat (d :: t) ++ List.drop p.toNat (d :: t)).length -
          (d :: t).length : Nat) : Int)) = p := by
      simp only [List.take_append_drop, List.length_take, List.length_cons] at hpk ⊢
      omega
    rw [List.append_assoc]
    rw [show parseUnsigned neg (digitChars (List.take p.toNat (d :: t)) ++
        (46 :: digitChars (List.drop p.toNat (d :: t)) ++ rest)) = _ from this,
      mkNumber_eq neg _ _ 0 (d :: t) (by rw [List.take_append_drop]; exact hsig) hlast (by simp),
      hpt]
  · -- zero, point, zeros, digits
    have hfp : ∀ x ∈ List.replicate (-p).toNat 0 ++ d :: t, x < 10 := by
      intro x hx
      rcases List.mem_append.1 hx with h | h
      · rw [(List.mem_replicate.1 h).2]; omega
      · exact hall x h
    have := parseUnsigned_parts neg [0] (List.replicate (-p).toNat 0 ++ d :: t) 0 rest rest
      (by simp) hfp (Or.inl rfl) hnd hdot hexp0
    simp only [fracText, List.append_eq_nil, reduceCtorEq, and_false, if_false,
      digitChars_append, digitChars_replicate_zero] at this
    have hshape : (48 :: 46 :: (List.replicate (-p).toNat 48 ++ digitChars (d :: t)) ++ rest) =
        digitChars [0] ++ (46 :: (List.replicate (-p).toNat 48 ++ digitChars (d :: t)) ++ rest) := by
      simp [digitChars]
    have hpt : ((([0] : List Nat).length : Int) + 0 -
        ((([0] ++ (List.replicate (-p).toNat 0 ++ d :: t)).length - (d :: t).length : Nat) : Int))
        = p := by
      simp only [List.length_append, List.length_replicate, List.length_cons, List.length_nil]
      omega
    rw [hshape, this, mkNumber_eq neg [0] _ 0 (d :: t) (by
        have := dropWhile_replicate_append_gen (fun d => decide (d = 0)) 0 (by simp)
          ((-p).toNat + 1) (d :: t) (by intro c hc; simp at hc; subst hc; simpa using hd0)
        simpa [List.replicate_succ] using this) hlast (by simp), hpt]
  · -- exponent form
    have hexp := parseExponent_expText (p - 1) rest hnd
    have hndE := noDigit_expText (p - 1) rest
    have hdotE : (expText (p - 1) ++ rest).head? ≠ some 46 := by simp [expText]
    have := parseUnsigned_parts neg [d] t (p - 1) (expText (p - 1) ++ rest) rest
      (fun x hx => hall x (by simp at hx; simp [hx]))
      (fun x hx => hall x (by simp [hx])) (Or.inr ⟨by simp, by simpa using hd0⟩) hndE hdotE hexp
    have hpt : ((([d] : List Nat).length : Int) + (p - 1) -
        ((([d] ++ t).length - (d :: t).length : Nat) : Int)) = p := by
      simp only [List.length_cons, List.length_nil, List.singleton_append]
      omega
    rw [mkNumber_eq neg [d] t (p - 1) (d :: t) hsig hlast (by simp), hpt] at this
    cases t with
    | nil => simpa [fracText, digitChars] using this
    | cons b t2 => simpa [fracText, digitChars] using this

theorem unsignedText_head (d : Nat) (t : List Nat) (p : Int) (hd : d < 10) :
    ∃ c r, unsignedText (d :: t) p = c :: r ∧ 48 ≤ c ∧ c ≤ 57 := by
  unfold unsignedText
  split_ifs with hA hB hC
  · exact ⟨d + 48, _, rfl, by omega, by omega⟩
  · obtain ⟨m, hm⟩ : ∃ m, p.toNat = m + 1 := ⟨p.toNat - 1, by omega⟩
    rw [hm]
    exact ⟨d + 48, _, rfl, by omega, by omega⟩
  · exact ⟨48, _, rfl, by omega, by omega⟩
  · cases t with
    | nil => exact ⟨d + 48, _, rfl, by omega, by omega⟩
    | cons b t2 => exact ⟨d + 48, _, rfl, by omega, by omega⟩

/-- What `Number::toString` prints starts with a digit or a minus sign. -/
theorem numberToString_head (neg : Bool) (ds : List Nat) (p : Int)
    (hwf : numWF neg ds p = true) :
    ∃ c r, numberToString neg ds p = c :: r ∧ ((48 ≤ c ∧ c ≤ 57) ∨ c = 45) := by
  cases ds with
  | nil => exact ⟨48, [], by simp [numberToString], Or.inl (by omega)⟩
  | cons d t =>
    obtain ⟨hall, hd0, _⟩ := numWF_cons hwf
    obtain ⟨c, r, hcr, hc⟩ := unsignedText_head d t p (hall d (by simp))
    cases neg with
    | true => exact ⟨45, c :: r, by simp [numberToString, hcr], Or.inr rfl⟩
    | false => exact ⟨c, r, by simp [numberToString, hcr], Or.inl hc⟩

/-- Reading back what `Number::toString` printed. -/
theorem parseNumber_numberToString (neg : Bool) (ds : List Nat) (p : Int)
    (hwf : numWF neg ds p = true) (rest : JSString) (hd : Delim rest) :
    parseNumber (numberToString neg ds p ++ rest) = some (.num neg ds p, rest) := by
  cases ds with
  | nil =>
    have hdot : rest.head? ≠ some 46 := by
      intro h; rcases hd 46 h with h | h | h <;> omega
    simp only [numWF, Bool.and_eq_true, Bool.not_eq_true', decide_eq_true_eq] at hwf
    obtain ⟨hn, hp⟩ := hwf
    subst hn; subst hp
    have := parseUnsigned_parts false [0] [] 0 rest rest (by simp) (by simp) (Or.inl rfl)
      hd.noDigit hdot (parseExponent_delim rest hd)
    simp only [numberToString, if_true]
    rw [show parseNumber ([48] ++ rest) = parseUnsigned false (48 :: rest) from by
      simp [parseNumber]]
    rw [show (48 :: rest) = digitChars [0] ++ (fracText [] ++ rest) from by
      simp [digitChars, fracText], this]
    rfl
  | cons d t =>
    obtain ⟨hall, hd0, hlast⟩ := numWF_cons hwf
    have hmain := parseUnsigned_unsignedText neg d t p hall hd0 hlast rest hd
    obtain ⟨c, r, hcr, hc⟩ := unsignedText_head d t p (hall d (by simp))
    simp only [numberToString, reduceCtorEq, if_false]
    rw [hcr] at hmain ⊢
    cases neg with
    | true => simpa [parseNumber] using hmain
    | false =>
      have hc45 : c ≠ 45 := by omega
      simpa [parseNumber, hc45] using hmain

theorem insertProp_append (k : JSString) (v : JSON) (l : List (JSString × JSON))
    (h : ∀ kv ∈ l, before kv.1 k = true) : insertProp k v l = l ++ [(k, v)] := by
  induction l with
  | nil => rfl
  | cons kv rest ih =>
    obtain ⟨k1, v1⟩ := kv
    have hb := h (k1, v1) (by simp)
    have hr := ih (fun x hx => h x (by simp [hx]))
    simp only [before] at hb
    simp only [insertProp, List.cons_append]
    cases h1 : arrayIndex? k <;> cases h2 : arrayIndex? k1 <;> simp only [h1, h2] at hb ⊢
    · rw [hr]
    · rw [hr]
    · exact absurd hb (by simp)
    · rw [if_neg (by simpa using hb), hr]

theorem keysCanon_append_singleton (ks : List JSString) (k : JSString) :
    keysCanon (ks ++ [k]) = true ↔
      keysCanon ks = true ∧ ∀ k1 ∈ ks, k ≠ k1 ∧ before k1 k = true := by
  induction ks with
  | nil => simp [keysCanon]
  | cons a t ih =>
    rw [List.cons_append]
    simp only [keysCanon, Bool.and_eq_true, List.all_eq_true, List.mem_append,
      List.mem_singleton, decide_eq_true_eq, ih, List.mem_cons, List.not_mem_nil, or_false]
    constructor
    · rintro ⟨h1, h2, h3⟩
      refine ⟨⟨fun x hx => h1 x (Or.inl hx), h2⟩, ?_⟩
      rintro k1 (rfl | hk1)
      · exact h1 k (Or.inr rfl)
      · exact h3 k1 hk1
    · rintro ⟨⟨h1, h2⟩, h3⟩
      refine ⟨?_, h2, fun k1 hk1 => h3 k1 (Or.inr hk1)⟩
      rintro x (hx | rfl)
      · exact h1 x hx
      · exact h3 a (Or.inl rfl)

theorem keysCanon_append_left (a b : List JSString) (h : keysCanon (a ++ b) = true) :
    keysCanon a = true := by
  induction a with
  | nil => rfl
  | cons x t ih =>
    rw [List.cons_append] at h
    simp only [keysCanon, Bool.and_eq_true, List.all_eq_true, List.mem_append,
      decide_eq_true_eq] at h ⊢
    exact ⟨fun y hy => h.1 y (Or.inl hy), ih h.2⟩

theorem setProp_append (l : List (JSString × JSON)) (k : JSString) (v : JSON)
    (h : keysCanon ((l ++ [(k, v)]).map Prod.fst) = true) : setProp l k v = l ++ [(k, v)] := by
  rw [List.map_append, List.map_singleton, keysCanon_append_singleton] at h
  obtain ⟨_, h2⟩ := h
  have hany : l.any (fun kv => decide (kv.1 = k)) = false := by
    rw [List.any_eq_false]
    intro kv hkv
    have := (h2 kv.1 (List.mem_map_of_mem _ hkv)).1
    simpa using fun e => this e.symm
  simp only [setProp, hany, Bool.false_eq_true, if_false]
  exact insertProp_append k v l (fun kv hkv => (h2 kv.1 (List.mem_map_of_mem _ hkv)).2)

theorem foldl_setProp_canon (acc rest : List (JSString × JSON))
    (h : keysCanon ((acc ++ rest).map Prod.fst) = true) :
    rest.foldl (fun o kv => setProp o kv.1 kv.2) acc = acc ++ rest := by
  induction rest generalizing acc with
  | nil => simp
  | cons kv r ih =>
    have hpre : keysCanon ((acc ++ [kv]).map Prod.fst) = true := by
      have : (acc ++ kv :: r).map Prod.fst = (acc ++ [kv]).map Prod.fst ++ r.map Prod.fst := by
        simp
      rw [this] at h
      exact keysCanon_append_left _ _ h
    simp only [List.foldl_cons]
    rw [setProp_append acc kv.1 kv.2 hpre, ih (acc ++ [kv]) (by simpa using h)]
    simp

/-- Building an object from members that are already in enumeration order, with
distinct keys, gives those members. -/
theorem buildObject_canon (kvs : List (JSString × JSON))
    (h : keysCanon (kvs.map Prod.fst) = true) : buildObject kvs = kvs := by
  simpa [buildObject] using foldl_setProp_canon [] kvs (by simpa using h)

theorem skipWs_cons (c : Nat) (t : JSString) (h : isJsonWs c = false) :
    skipWs (c :: t) = c :: t := by
  simp [skipWs, List.dropWhile, h]

theorem IsStart.not_ws {c : Nat} (h : IsStart c) : isJsonWs c = false := by
  unfold IsStart at h
  simp only [isJsonWs, Bool.or_eq_false_iff, decide_eq_false_iff_not]
  omega

theorem stringify_start (v : JSON) (h : v.WF = true) :
    ∃ c r, v.stringify = c :: r ∧ IsStart c := by
  unfold IsStart
  cases v with
  | null => exact ⟨110, _, rfl, by simp⟩
  | bool b =>
    cases b
    · exact ⟨102, _, rfl, by simp⟩
    · exact ⟨116, _, rfl, by simp⟩
  | num n d p =>
    obtain ⟨c, r, h1, h2⟩ := numberToString_head n d p (by simpa [JSON.WF] using h)
    exact ⟨c, r, by simp [JSON.stringify, h1], by omega⟩
  | str s => exact ⟨34, _, rfl, by simp⟩
  | arr xs => exact ⟨91, stringifyElems xs ++ [93], by rw [JSON.stringify]; rfl, by simp⟩
  | obj kvs => exact ⟨123, stringifyMembers kvs ++ [125], by rw [JSON.stringify]; rfl, by simp⟩

theorem parseValue_null (f : Nat) (rest : JSString) :
    parseValue (f + 1) (110 :: 117 :: 108 :: 108 :: rest) = some (.null, rest) := by
  simp [parseValue, skipWs, isJsonWs, expect]

theorem parseValue_true (f : Nat) (rest : JSString) :
    parseValue (f + 1) (116 :: 114 :: 117 :: 101 :: rest) = some (.bool true, rest) := by
  simp [parseValue, skipWs, isJsonWs, expect]

theorem parseValue_false (f : Nat) (rest : JSString) :
    parseValue (f + 1) (102 :: 97 :: 108 :: 115 :: 101 :: rest) = some (.bool false, rest) := by
  simp [parseValue, skipWs, isJsonWs, expect]

theorem parseValue_str (f : Nat) (t : JSString) :
    parseValue (f + 1) (34 :: t) = mkStr (parseChars t) := by
  simp [parseValue, skipWs, isJsonWs]

theorem parseValue_num (f : Nat) (c : Nat) (t : JSString) (h : (48 ≤ c ∧ c ≤ 57) ∨ c = 45) :
    parseValue (f + 1) (c :: t) = parseNumber (c :: t) := by
  have hws : isJsonWs c = false := by
    simp only [isJsonWs, Bool.or_eq_false_iff, decide_eq_false_iff_not]; omega
  have h1 : c ≠ 123 := by omega
  have h2 : c ≠ 91 := by omega
  have h3 : c ≠ 34 := by omega
  have h4 : c ≠ 116 := by omega
  have h5 : c ≠ 102 := by omega
  have h6 : c ≠ 110 := by omega
  simp only [parseValue, skipWs_cons c t hws, h1, h2, h3, h4, h5, h6, if_false]

theorem parseValue_arr_nil (f : Nat) (rest : JSString) :
    parseValue (f + 1) (91 :: 93 :: rest) = some (.arr [], rest) := by
  simp [parseValue, skipWs, isJsonWs]

theorem parseValue_obj_nil (f : Nat) (rest : JSString) :
    parseValue (f + 1) (123 :: 125 :: rest) = some (.obj [], rest) := by
  simp [parseValue, skipWs, isJsonWs]

theorem parseValue_arr (f : Nat) (d : Nat) (t : JSString) (h : IsStart d) :
    parseValue (f + 1) (91 :: d :: t) = mkArr (parseElems f (d :: t)) := by
  have h93 : d ≠ 93 := by unfold IsStart at h; omega
  have h91 : isJsonWs 91 = false := by decide
  simp only [parseValue, skipWs_cons 91 _ h91, skipWs_cons d t h.not_ws, h93, if_false, if_true,
    reduceCtorEq]
  simp

theorem parseValue_obj (f : Nat) (t : JSString) :
    parseValue (f + 1) (123 :: 34 :: t) = mkObj (parseMembers f (34 :: t)) := by
  have h123 : isJsonWs 123 = false := by decide
  have h34 : isJsonWs 34 = false := by decide
  simp only [parseValue, skipWs_cons 123 _ h123, skipWs_cons 34 t h34, if_true]
  simp

theorem parseElems_last (f : Nat) (input : JSString) (v : JSON) (rest : JSString)
    (h : parseValue f input = some (v, 93 :: rest)) :
    parseElems (f + 1) input = some ([v], rest) := by
  simp [parseElems, h, skipWs, isJsonWs]

theorem parseElems_more (f : Nat) (input : JSString) (v : JSON) (rest : JSString)
    (h : parseValue f input = some (v, 44 :: rest)) :
    parseElems (f + 1) input = consElem v (parseElems f rest) := by
  simp [parseElems, h, skipWs, isJsonWs]

theorem parseMembers_last (f : Nat) (k t : JSString) (v : JSON) (rest : JSString)
    (h : parseValue f t = some (v, 125 :: rest)) :
    parseMembers (f + 1) (quoteJSONString k ++ 58 :: t) = some ([(k, v)], rest) := by
  have hk := parseChars_quoteChars k (58 :: t)
  have : quoteJSONString k ++ 58 :: t = 34 :: (quoteChars k ++ 34 :: 58 :: t) := by
    simp [quoteJSONString]
  rw [this]
  simp [parseMembers, skipWs, isJsonWs, hk, h]

theorem parseMembers_more (f : Nat) (k t : JSString) (v : JSON) (rest : JSString)
    (h : parseValue f t = some (v, 44 :: rest)) :
    parseMembers (f + 1) (quoteJSONString k ++ 58 :: t) =
      consMember k v (parseMembers f rest) := by
  have hk := parseChars_quoteChars k (58 :: t)
  have : quoteJSONString k ++ 58 :: t = 34 :: (quoteChars k ++ 34 :: 58 :: t) := by
    simp [quoteJSONString]
  rw [this]
  simp [parseMembers, skipWs, isJsonWs, hk, h]

theorem delim_cons (c : Nat) (t : JSString) (h : c = 44 ∨ c = 93 ∨ c = 125) : Delim (c :: t) := by
  intro x hx
  simp at hx
  subst hx
  exact h

mutual
/-- Parsing the compact serialisation of a well-formed value gives the value back
and stops at the end of its text. -/
theorem parseValue_stringify : ∀ (v : JSON) (fuel : Nat) (rest : JSString),
    v.WF = true → Delim rest → v.need ≤ fuel →
    parseValue fuel (v.stringify ++ rest) = some (v, rest)
  | .null, fuel, rest, _, _, hf => by
    obtain ⟨f, rfl⟩ : ∃ f, fuel = f + 1 := ⟨fuel - 1, by simp [JSON.need] at hf; omega⟩
    exact parseValue_null f rest
  | .bool true, fuel, rest, _, _, hf => by
    obtain ⟨f, rfl⟩ : ∃ f, fuel = f + 1 := ⟨fuel - 1, by simp [JSON.need] at hf; omega⟩
    exact parseValue_true f rest
  | .bool false, fuel, rest, _, _, hf => by
    obtain ⟨f, rfl⟩ : ∃ f, fuel = f + 1 := ⟨fuel - 1, by simp [JSON.need] at hf; omega⟩
    exact parseValue_false f rest
  | .num neg ds p, fuel, rest, hwf, hd, hf => by
    obtain ⟨f, rfl⟩ : ∃ f, fuel = f + 1 := ⟨fuel - 1, by simp [JSON.need] at hf; omega⟩
    have hwf1 : numWF neg ds p = true := by simpa [JSON.WF] using hwf
    obtain ⟨c, r, h1, h2⟩ := numberToString_head neg ds p hwf1
    have hmain := parseNumber_numberToString neg ds p hwf1 rest hd
    simp only [JSON.stringify]
    rw [h1] at hmain ⊢
    rw [List.cons_append, parseValue_num f c _ h2]
    exact hmain
  | .str s, fuel, rest, _, _, hf => by
    obtain ⟨f, rfl⟩ : ∃ f, fuel = f + 1 := ⟨fuel - 1, by simp [JSON.need] at hf; omega⟩
    have : (JSON.str s).stringify ++ rest = 34 :: (quoteChars s ++ 34 :: rest) := by
      simp [JSON.stringify, quoteJSONString]
    rw [this, parseValue_str, parseChars_quoteChars]
    rfl
  | .arr [], fuel, rest, _, _, hf => by
    obtain ⟨f, rfl⟩ : ∃ f, fuel = f + 1 := ⟨fuel - 1, by simp [JSON.need] at hf; omega⟩
    have : (JSON.arr []).stringify ++ rest = 91 :: 93 :: rest := by
      simp [JSON.stringify, stringifyElems]
    rw [this, parseValue_arr_nil]
  | .arr (x :: xs), fuel, rest, hwf, _, hf => by
    obtain ⟨f, rfl⟩ : ∃ f, fuel = f + 1 := ⟨fuel - 1, by simp [JSON.need] at hf; omega⟩
    have hwf1 : allWF (x :: xs) = true := by simpa [JSON.WF] using hwf
    have hx : x.WF = true := by
      simp only [allWF, Bool.and_eq_true] at hwf1; exact hwf1.1
    have hneed : needElems (x :: xs) ≤ f := by simp only [JSON.need] at hf; omega
    have ih := parseElems_stringify (x :: xs) f rest (by simp) hwf1 hneed
    obtain ⟨c, r, hc, hs⟩ : ∃ c r, stringifyElems (x :: xs) = c :: r ∧ IsStart c := by
      obtain ⟨c, r, h1, h2⟩ := stringify_start x hx
      cases xs with
      | nil => exact ⟨c, r, by simp [stringifyElems, h1], h2⟩
      | cons y ys =>
        exact ⟨c, r ++ 44 :: stringifyElems (y :: ys),
          by simp only [stringifyElems, h1, List.cons_append], h2⟩
    have : (JSON.arr (x :: xs)).stringify ++ rest = 91 :: (stringifyElems (x :: xs) ++ 93 :: rest) := by
      simp [JSON.stringify]
    rw [this]
    rw [hc, List.cons_append] at ih ⊢
    rw [parseValue_arr f c _ hs, ih]
    rfl
  | .obj [], fuel, rest, _, _, hf => by
    obtain ⟨f, rfl⟩ : ∃ f, fuel = f + 1 := ⟨fuel - 1, by simp [JSON.need] at hf; omega⟩
    have : (JSON.obj []).stringify ++ rest = 123 :: 125 :: rest := by
      simp [JSON.stringify, stringifyMembers]
    rw [this, parseValue_obj_nil]
  | .obj (m :: ms), fuel, rest, hwf, _, hf => by
    obtain ⟨f, rfl⟩ : ∃ f, fuel = f + 1 := ⟨fuel - 1, by simp [JSON.need] at hf; omega⟩
    have hwf1 : keysCanon ((m :: ms).map Prod.fst) = true ∧ membersWF (m :: ms) = true := by
      simpa [JSON.WF] using hwf
    have hneed : needMembers (m :: ms) ≤ f := by simp only [JSON.need] at hf; omega
    have ih := parseMembers_stringify (m :: ms) f rest (by simp) hwf1.2 hneed
    obtain ⟨r, hc⟩ : ∃ r, stringifyMembers (m :: ms) = 34 :: r := by
      obtain ⟨k, v⟩ := m
      cases ms with
      | nil =>
        exact ⟨quoteChars k ++ 34 :: 58 :: v.stringify,
          by simp [stringifyMembers, quoteJSONString]⟩
      | cons y ys =>
        exact ⟨quoteChars k ++ [34] ++ 58 :: v.stringify ++ 44 :: stringifyMembers (y :: ys),
          by simp only [stringifyMembers, quoteJSONString, List.cons_append]⟩
    have : (JSON.obj (m :: ms)).stringify ++ rest =
        123 :: (stringifyMembers (m :: ms) ++ 125 :: rest) := by
      simp [JSON.stringify]
    rw [this]
    rw [hc, List.cons_append] at ih ⊢
    rw [parseValue_obj f _, ih]
    simp only [mkObj, buildObject_canon (m :: ms) hwf1.1]
/-- Parsing the serialised elements of a non-empty array, up to the closing bracket. -/
theorem parseElems_stringify : ∀ (xs : List JSON) (fuel : Nat) (rest : JSString),
    xs ≠ [] → allWF xs = true → needElems xs ≤ fuel →
    parseElems fuel (stringifyElems xs ++ 93 :: rest) = some (xs, rest)
  | [], _, _, h, _, _ => absurd rfl h
  | [x], fuel, rest, _, hwf, hf => by
    obtain ⟨f, rfl⟩ : ∃ f, fuel = f + 1 := ⟨fuel - 1, by simp [needElems] at hf; omega⟩
    have hx : x.WF = true := by
      simp only [allWF, Bool.and_eq_true] at hwf; exact hwf.1
    have hn : x.need ≤ f := by simp only [needElems] at hf; omega
    have := parseValue_stringify x f (93 :: rest) hx (delim_cons 93 rest (by simp)) hn
    simp only [stringifyElems]
    exact parseElems_last f _ x rest this
  | x :: y :: r, fuel, rest, _, hwf, hf => by
    obtain ⟨f, rfl⟩ : ∃ f, fuel = f + 1 := ⟨fuel - 1, by simp [needElems] at hf; omega⟩
    have hw : x.WF = true ∧ allWF (y :: r) = true := by
      simpa only [allWF, Bool.and_eq_true] using hwf
    have hn : x.need ≤ f ∧ needElems (y :: r) ≤ f := by
      simp only [needElems] at hf ⊢; omega
    have h1 := parseValue_stringify x f (44 :: (stringifyElems (y :: r) ++ 93 :: rest)) hw.1
      (delim_cons 44 _ (by simp)) hn.1
    have h2 := parseElems_stringify (y :: r) f rest (by simp) hw.2 hn.2
    have : stringifyElems (x :: y :: r) ++ 93 :: rest =
        x.stringify ++ 44 :: (stringifyElems (y :: r) ++ 93 :: rest) := by
      simp [stringifyElems]
    rw [this, parseElems_more f _ x _ h1, h2]
    rfl
/-- Parsing the serialised members of a non-empty object, up to the closing brace. -/
theorem parseMembers_stringify : ∀ (kvs : List (JSString × JSON)) (fuel : Nat) (rest : JSString),
    kvs ≠ [] → membersWF kvs = true → needMembers kvs ≤ fuel →
    parseMembers fuel (stringifyMembers kvs ++ 125 :: rest) = some (kvs, rest)
  | [], _, _, h, _, _ => absurd rfl h
  | [(k, v)], fuel, rest, _, hwf, hf => by
    obtain ⟨f, rfl⟩ : ∃ f, fuel = f + 1 := ⟨fuel - 1, by simp [needMembers] at hf; omega⟩
    have hx : v.WF = true := by
      simp only [membersWF, Bool.and_eq_true] at hwf; exact hwf.1
    have hn : v.need ≤ f := by simp only [needMembers] at hf; omega
    have := parseValue_stringify v f (125 :: rest) hx (delim_cons 125 rest (by simp)) hn
    have hs : stringifyMembers [(k, v)] ++ 125 :: rest =
        quoteJSONString k ++ 58 :: (v.stringify ++ 125 :: rest) := by
      simp [stringifyMembers]
    rw [hs]
    exact parseMembers_last f k _ v rest this
  | (k, v) :: m :: r, fuel, rest, _, hwf, hf => by
    obtain ⟨f, rfl⟩ : ∃ f, fuel = f + 1 := ⟨fuel - 1, by simp [needMembers] at hf; omega⟩
    have hw : v.WF = true ∧ membersWF (m :: r) = true := by
      simpa only [membersWF, Bool.and_eq_true] using hwf
    have hn : v.need ≤ f ∧ needMembers (m :: r) ≤ f := by
      simp only [needMembers] at hf ⊢; omega
    have h1 := parseValue_stringify v f (44 :: (stringifyMembers (m :: r) ++ 125 :: rest)) hw.1
      (delim_cons 44 _ (by simp)) hn.1
    have h2 := parseMembers_stringify (m :: r) f rest (by simp) hw.2 hn.2
    have hs : stringifyMembers ((k, v) :: m :: r) ++ 125 :: rest =
        quoteJSONString k ++ 58 :: (v.stringify ++ 44 :: (stringifyMembers (m :: r) ++ 125 :: rest)) := by
      simp [stringifyMembers]
    rw [hs, parseMembers_more f k _ v _ h1, h2]
    rfl
end

mutual
theorem need_le_length : ∀ (v : JSON), v.WF = true →
    v.need ≤ v.stringify.length
  | .null, _ => by simp [JSON.need, JSON.stringify]
  | .bool true, _ => by simp [JSON.need, JSON.stringify]
  | .bool false, _ => by simp [JSON.need, JSON.stringify]
  | .num neg ds p, hwf => by
    obtain ⟨c, r, h1, _⟩ := numberToString_head neg ds p (by simpa [JSON.WF] using hwf)
    simp [JSON.need, JSON.stringify, h1]
  | .str s, _ => by simp [JSON.need, JSON.stringify, quoteJSONString]
  | .arr xs, hwf => by
    have := needElems_le_length xs (by simpa [JSON.WF] using hwf)
    simp only [JSON.need, JSON.stringify, List.length_cons, List.length_append, List.length_nil]
    omega
  | .obj kvs, hwf => by
    have hw : keysCanon (kvs.map Prod.fst) = true ∧ membersWF kvs = true := by
      simpa [JSON.WF] using hwf
    have := needMembers_le_length kvs hw.2
    simp only [JSON.need, JSON.stringify, List.length_cons, List.length_append, List.length_nil]
    omega
theorem needElems_le_length : ∀ (xs : List JSON), allWF xs = true →
    needElems xs ≤ (stringifyElems xs).length + 1
  | [], _ => by simp [needElems]
  | [x], hwf => by
    have hx : x.WF = true := by simp only [allWF, Bool.and_eq_true] at hwf; exact hwf.1
    have := need_le_length x hx
    simp only [needElems, stringifyElems]
    omega
  | x :: y :: r, hwf => by
    have hw : x.WF = true ∧ allWF (y :: r) = true := by
      simpa only [allWF, Bool.and_eq_true] using hwf
    have h1 := need_le_length x hw.1
    have h2 := needElems_le_length (y :: r) hw.2
    simp only [needElems, stringifyElems, List.length_cons, List.length_append] at h2 ⊢
    omega
theorem needMembers_le_length : ∀ (kvs : List (JSString × JSON)), membersWF kvs = true →
    needMembers kvs ≤ (stringifyMembers kvs).length + 1
  | [], _ => by simp [needMembers]
  | [(k, v)], hwf => by
    have hx : v.WF = true := by simp only [membersWF, Bool.and_eq_true] at hwf; exact hwf.1
    have := need_le_length v hx
    simp only [needMembers, stringifyMembers, List.length_cons, List.length_append]
    omega
  | (k, v) :: m :: r, hwf => by
    have hw : v.WF = true ∧ membersWF (m :: r) = true := by
      simpa only [membersWF, Bool.and_eq_true] using hwf
    have h1 := need_le_length v hw.1
    have h2 := needMembers_le_length (m :: r) hw.2
    simp only [needMembers, stringifyMembers, List.length_cons, List.length_append] at h2 ⊢
    omega
end

/-- For every value JavaScript can hold, `JSON.parse(JSON.stringify(v))` is `v`. -/
theorem JSON.parse_stringify (v : JSON) (h : v.WF = true) :
    JSON.parse v.stringify = some v := by
  have hn := need_le_length v h
  have := parseValue_stringify v (2 * v.stringify.length + 1) [] h
    (by intro c hc; simp at hc) (by omega)
  rw [List.append_nil] at this
  simp [JSON.parse, this, skipWs]

/-! ## JSON: parsed values are well formed -/

theorem takeDigits_lt (s : JSString) : ∀ d ∈ (takeDigits s).1, d < 10 := by
  induction s with
  | nil => simp [takeDigits]
  | cons c t ih =>
    simp only [takeDigits]
    split_ifs with h
    · intro d hd
      simp only [List.mem_cons] at hd
      rcases hd with rfl | hd
      · simp only [isDigit, Bool.and_eq_true, decide_eq_true_eq] at h; omega
      · exact ih d hd
    · simp

theorem numWF_of (neg : Bool) (ds : List Nat) (p : Int) (hne : ds ≠ [])
    (hall : ∀ x ∈ ds, x < 10) (hhead : ds.head? ≠ some 0) (hlast : ds.getLast? ≠ some 0) :
    numWF neg ds p = true := by
  cases ds with
  | nil => exact absurd rfl hne
  | cons d t =>
    simp only [numWF, Bool.and_eq_true, List.all_eq_true, decide_eq_true_eq]
    exact ⟨⟨hall, by simpa using hhead⟩, hlast⟩

theorem mkNumber_wf (neg : Bool) (ip fp : List Nat) (e : Int)
    (hip : ∀ d ∈ ip, d < 10) (hfp : ∀ d ∈ fp, d < 10) : (mkNumber neg ip fp e).WF = true := by
  simp only [mkNumber]
  split_ifs with h
  · rfl
  · simp only [JSON.WF]
    have hpre : ((List.dropWhile (fun d => decide (d = 0)) (ip ++ fp)).reverse.dropWhile
        (fun d => decide (d = 0))).reverse <+:
        List.dropWhile (fun d => decide (d = 0)) (ip ++ fp) :=
      List.rdropWhile_prefix (fun d => decide (d = 0)) _
    have hsuf : List.dropWhile (fun d => decide (d = 0)) (ip ++ fp) <:+ ip ++ fp :=
      List.dropWhile_suffix (fun d => decide (d = 0))
    apply numWF_of _ _ _ h
    · intro x hx
      have := hsuf.mem (hpre.mem hx)
      rcases List.mem_append.1 this with h1 | h1
      · exact hip x h1
      · exact hfp x h1
    · rw [List.head?_eq_head h, hpre.head h]
      have := List.head_dropWhile_not (fun d => decide (d = 0)) (ip ++ fp) (hpre.ne_nil h)
      intro hc
      simp only [Option.some.injEq] at hc
      rw [hc] at this
      simp at this
    · have := List.rdropWhile_last_not (fun d => decide (d = 0))
        (List.dropWhile (fun d => decide (d = 0)) (ip ++ fp)) h
      rw [List.getLast?_eq_getLast _ h]
      intro hc
      simp only [Option.some.injEq] at hc
      apply this
      simp only [List.rdropWhile]
      exact decide_eq_true hc

theorem parseFraction_lt (s : JSString) (fp : List Nat) (r : JSString)
    (h : parseFraction s = some (fp, r)) : ∀ d ∈ fp, d < 10 := by
  cases s with
  | nil =>
    simp only [parseFraction, Option.some.injEq, Prod.mk.injEq] at h
    rw [← h.1]; simp
  | cons c t =>
    simp only [parseFraction] at h
    split_ifs at h with h1 h2
    · simp only [Option.some.injEq] at h
      have := takeDigits_lt t
      rw [h] at this
      exact this
    · simp only [Option.some.injEq, Prod.mk.injEq] at h
      rw [← h.1]; simp

theorem parseUnsigned_wf (neg : Bool) (s : JSString) (v : JSON) (r : JSString)
    (h : parseUnsigned neg s = some (v, r)) : v.WF = true := by
  cases s with
  | nil => simp [parseUnsigned] at h
  | cons c t =>
    simp only [parseUnsigned] at h
    split_ifs at h with hd h48
    · split at h
      · simp at h
      · rename_i fp s3 hfr
        split at h
        · simp at h
        · rename_i e s4 hex
          simp only [Option.some.injEq, Prod.mk.injEq] at h
          rw [← h.1]
          exact mkNumber_wf neg _ fp e (by simp) (parseFraction_lt _ fp s3 hfr)
    · split at h
      · simp at h
      · rename_i fp s3 hfr
        split at h
        · simp at h
        · rename_i e s4 hex
          simp only [Option.some.injEq, Prod.mk.injEq] at h
          rw [← h.1]
          exact mkNumber_wf neg _ fp e (takeDigits_lt _) (parseFraction_lt _ fp s3 hfr)

theorem parseNumber_wf (s : JSString) (v : JSON) (r : JSString)
    (h : parseNumber s = some (v, r)) : v.WF = true := by
  cases s with
  | nil => simp [parseNumber] at h
  | cons c t =>
    simp only [parseNumber] at h
    split_ifs at h
    · exact parseUnsigned_wf true _ v r h
    · exact parseUnsigned_wf false _ v r h

theorem expect_wf (lit : JSString) (v0 : JSON) (hv0 : v0.WF = true) (s : JSString) (v : JSON)
    (r : JSString) (h : expect lit v0 s = some (v, r)) : v.WF = true := by
  simp only [expect] at h
  split_ifs at h
  simp only [Option.some.injEq, Prod.mk.injEq] at h
  rw [← h.1]; exact hv0

theorem mem_insertProp (k : JSString) (v : JSON) (l : List (JSString × JSON))
    (x : JSString × JSON) : x ∈ insertProp k v l ↔ x = (k, v) ∨ x ∈ l := by
  induction l with
  | nil => simp [insertProp]
  | cons kv rest ih =>
    obtain ⟨k1, v1⟩ := kv
    simp only [insertProp]
    cases h1 : arrayIndex? k <;> cases h2 : arrayIndex? k1 <;> simp only []
    · simp only [List.mem_cons, ih]; tauto
    · simp only [List.mem_cons, ih]; tauto
    · simp only [List.mem_cons]
    · split_ifs
      · simp only [List.mem_cons]
      · simp only [List.mem_cons, ih]; tauto

theorem mem_keys_insertProp (k : JSString) (v : JSON) (l : List (JSString × JSON))
    (x : JSString) : x ∈ (insertProp k v l).map Prod.fst ↔ x = k ∨ x ∈ l.map Prod.fst := by
  simp only [List.mem_map, mem_insertProp]
  constructor
  · rintro ⟨a, rfl | ha, rfl⟩
    · exact Or.inl rfl
    · exact Or.inr ⟨a, ha, rfl⟩
  · rintro (rfl | ⟨a, ha, rfl⟩)
    · exact ⟨(x, v), Or.inl rfl, rfl⟩
    · exact ⟨a, Or.inr ha, rfl⟩

theorem keysCanon_cons (k : JSString) (ks : List JSString) :
    keysCanon (k :: ks) = true ↔
      (∀ x ∈ ks, x ≠ k ∧ before k x = true) ∧ keysCanon ks = true := by
  simp only [keysCanon, Bool.and_eq_true, List.all_eq_true, decide_eq_true_eq]

theorem keysCanon_insertProp (k : JSString) (v : JSON) (l : List (JSString × JSON))
    (hk : k ∉ l.map Prod.fst) (h : keysCanon (l.map Prod.fst) = true) :
    keysCanon ((insertProp k v l).map Prod.fst) = true := by
  induction l with
  | nil => simp [insertProp, keysCanon]
  | cons kv rest ih =>
    obtain ⟨k1, v1⟩ := kv
    simp only [List.map_cons, List.mem_cons, not_or] at hk
    rw [List.map_cons, keysCanon_cons] at h
    obtain ⟨hall, hrest⟩ := h
    have ihr := ih hk.2 hrest
    have hcont : (∀ x ∈ rest.map Prod.fst, x ≠ k1 ∧ before k1 x = true) → before k1 k = true →
        keysCanon (((k1, v1) :: insertProp k v rest).map Prod.fst) = true := by
      intro _ hb
      rw [List.map_cons, keysCanon_cons]
      refine ⟨?_, ihr⟩
      intro x hx
      rcases (mem_keys_insertProp k v rest x).1 hx with rfl | hx
      · exact ⟨hk.1, hb⟩
      · exact hall x hx
    have hhere : (∀ x ∈ rest.map Prod.fst, before k x = true) → before k k1 = true →
        keysCanon (((k, v) :: (k1, v1) :: rest).map Prod.fst) = true := by
      intro hbr hb
      rw [List.map_cons, keysCanon_cons]
      refine ⟨?_, ?_⟩
      · intro x hx
        simp only [List.map_cons, List.mem_cons] at hx
        rcases hx with rfl | hx
        · exact ⟨fun e => hk.1 e.symm, hb⟩
        · exact ⟨fun e => hk.2 (by rw [← show x = k from e]; exact hx), hbr x hx⟩
      · rw [List.map_cons, keysCanon_cons]
        exact ⟨hall, hrest⟩
    simp only [insertProp]
    cases h1 : arrayIndex? k <;> cases h2 : arrayIndex? k1 <;> simp only []
    · exact hcont hall (by simp [before, h1, h2])
    · exact hcont hall (by simp [before, h1, h2])
    · apply hhere
      · intro x hx
        have := (hall x hx).2
        simp only [before, h2] at this
        cases h3 : arrayIndex? x
        · simp [before, h1, h3]
        · simp [h3] at this
      · simp [before, h1, h2]
    · rename_i i j
      split_ifs with hij
      · apply hhere
        · intro x hx
          have := (hall x hx).2
          simp only [before, h2] at this
          cases h3 : arrayIndex? x
          · simp [before, h1, h3]
          · simp only [h3, decide_eq_true_eq] at this
            simp only [before, h1, h3, decide_eq_true_eq]
            omega
        · simp only [before, h1, h2, decide_eq_true_eq]; omega
      · exact hcont hall (by simp only [before, h1, h2, decide_eq_true_eq]; omega)

theorem keys_replace (k : JSString) (v : JSON) (o : List (JSString × JSON)) :
    (o.map (fun kv => if kv.1 = k then (k, v) else kv)).map Prod.fst = o.map Prod.fst := by
  rw [List.map_map]
  apply List.map_congr_left
  intro kv _
  simp only [Function.comp]
  split_ifs with h
  · exact h.symm
  · rfl

theorem keysCanon_setProp (o : List (JSString × JSON)) (k : JSString) (v : JSON)
    (h : keysCanon (o.map Prod.fst) = true) : keysCanon ((setProp o k v).map Prod.fst) = true := by
  simp only [setProp]
  split_ifs with hany
  · rw [keys_replace]; exact h
  · apply keysCanon_insertProp k v o _ h
    intro hk
    apply hany
    rw [List.any_eq_true]
    obtain ⟨kv, hkv, rfl⟩ := List.mem_map.1 hk
    exact ⟨kv, hkv, by simp⟩

theorem membersWF_iff (l : List (JSString × JSON)) :
    membersWF l = true ↔ ∀ kv ∈ l, kv.2.WF = true := by
  induction l with
  | nil => simp [membersWF]
  | cons kv rest ih =>
    obtain ⟨k, v⟩ := kv
    simp only [membersWF, Bool.and_eq_true, ih, List.mem_cons, forall_eq_or_imp]

theorem allWF_iff (l : List JSON) : allWF l = true ↔ ∀ x ∈ l, x.WF = true := by
  induction l with
  | nil => simp [allWF]
  | cons x rest ih => simp only [allWF, Bool.and_eq_true, ih, List.mem_cons, forall_eq_or_imp]

theorem membersWF_setProp (o : List (JSString × JSON)) (k : JSString) (v : JSON)
    (ho : membersWF o = true) (hv : v.WF = true) : membersWF (setProp o k v) = true := by
  rw [membersWF_iff] at ho ⊢
  intro kv hkv
  simp only [setProp] at hkv
  split_ifs at hkv
  · obtain ⟨a, ha, rfl⟩ := List.mem_map.1 hkv
    split_ifs
    · exact hv
    · exact ho a ha
  · rcases (mem_insertProp k v o kv).1 hkv with rfl | h
    · exact hv
    · exact ho kv h

theorem buildObject_wf (ms : List (JSString × JSON)) (h : membersWF ms = true) :
    (JSON.obj (buildObject ms)).WF = true := by
  have key : ∀ (rest acc : List (JSString × JSON)), membersWF rest = true →
      keysCanon (acc.map Prod.fst) = true → membersWF acc = true →
      keysCanon ((rest.foldl (fun o kv => setProp o kv.1 kv.2) acc).map Prod.fst) = true ∧
        membersWF (rest.foldl (fun o kv => setProp o kv.1 kv.2) acc) = true := by
    intro rest
    induction rest with
    | nil => intro acc _ h1 h2; exact ⟨h1, h2⟩
    | cons kv r ih =>
      intro acc hr h1 h2
      obtain ⟨k, v⟩ := kv
      simp only [membersWF, Bool.and_eq_true] at hr
      simp only [List.foldl_cons]
      exact ih (setProp acc k v) hr.2 (keysCanon_setProp acc k v h1)
        (membersWF_setProp acc k v h2 hr.1)
  have := key ms [] h rfl rfl
  simp only [JSON.WF, buildObject, Bool.and_eq_true]
  exact this

/-- Every value that the parser returns is well formed. -/
theorem parse_wf_aux (fuel : Nat) :
    (∀ input v rest, parseValue fuel input = some (v, rest) → v.WF = true) ∧
    (∀ input xs rest, parseElems fuel input = some (xs, rest) → allWF xs = true) ∧
    (∀ input ms rest, parseMembers fuel input = some (ms, rest) → membersWF ms = true) := by
  induction fuel with
  | zero => simp [parseValue, parseElems, parseMembers]
  | succ f ih =>
    obtain ⟨ihV, ihE, ihM⟩ := ih
    refine ⟨?_, ?_, ?_⟩
    · intro input v rest h
      simp only [parseValue] at h
      split at h
      · simp at h
      · rename_i c r _
        split_ifs at h
        · split at h
          · simp at h
          · rename_i d r2 _
            split_ifs at h
            · simp only [Option.some.injEq, Prod.mk.injEq] at h
              rw [← h.1]; rfl
            · cases hm : parseMembers f (d :: r2) with
              | none => simp [hm, mkObj] at h
              | some res =>
                obtain ⟨ms, r3⟩ := res
                simp only [hm, mkObj, Option.some.injEq, Prod.mk.injEq] at h
                rw [← h.1]
                exact buildObject_wf ms (ihM _ ms r3 hm)
        · split at h
          · simp at h
          · rename_i d r2 _
            split_ifs at h
            · simp only [Option.some.injEq, Prod.mk.injEq] at h
              rw [← h.1]; rfl
            · cases hm : parseElems f (d :: r2) with
              | none => simp [hm, mkArr] at h
              | some res =>
                obtain ⟨xs, r3⟩ := res
                simp only [hm, mkArr, Option.some.injEq, Prod.mk.injEq] at h
                rw [← h.1]
                simpa [JSON.WF] using ihE _ xs r3 hm
        · cases hm : parseChars r with
          | none => simp [hm, mkStr] at h
          | some res =>
            obtain ⟨s, r3⟩ := res
            simp only [hm, mkStr, Option.some.injEq, Prod.mk.injEq] at h
            rw [← h.1]; rfl
        · exact expect_wf _ (.bool true) rfl _ v rest h
        · exact expect_wf _ (.bool false) rfl _ v rest h
        · exact expect_wf _ .null rfl _ v rest h
        · exact parseNumber_wf _ v rest h
    · intro input xs rest h
      simp only [parseElems] at h
      split at h
      · simp at h
      · rename_i v r hv
        split at h
        · simp at h
        · rename_i c r2 _
          split_ifs at h
          · simp only [Option.some.injEq, Prod.mk.injEq] at h
            rw [← h.1]
            simp only [allWF, Bool.and_eq_true, and_true]
            exact ihV _ v r hv
          · cases hm : parseElems f r2 with
            | none => simp [hm, consElem] at h
            | some res =>
              obtain ⟨vs, r3⟩ := res
              simp only [hm, consElem, Option.some.injEq, Prod.mk.injEq] at h
              rw [← h.1]
              simp only [allWF, Bool.and_eq_true]
              exact ⟨ihV _ v r hv, ihE _ vs r3 hm⟩
    · intro input ms rest h
      simp only [parseMembers] at h
      split at h
      · simp at h
      · rename_i q r _
        split_ifs at h
        split at h
        · simp at h
        · rename_i k r1 _
          split at h
          · simp at h
          · rename_i colon r2 _
            split_ifs at h
            split at h
            · simp at h
            · rename_i v r3 hv
              split at h
              · simp at h
              · rename_i c r4 _
                split_ifs at h
                · simp only [Option.some.injEq, Prod.mk.injEq] at h
                  rw [← h.1]
                  simp only [membersWF, Bool.and_eq_true, and_true]
                  exact ihV _ v r3 hv
                · cases hm : parseMembers f r4 with
                  | none => simp [hm, consMember] at h
                  | some res =>
                    obtain ⟨vs, r5⟩ := res
                    simp only [hm, consMember, Option.some.injEq, Prod.mk.injEq] at h
                    rw [← h.1]
                    simp only [membersWF, Bool.and_eq_true]
                    exact ⟨ihV _ v r3 hv, ihM _ vs r5 hm⟩

/-- Whatever `JSON.parse` returns is well formed. -/
theorem JSON.parse_wf (text : JSString) (v : JSON) (h : JSON.parse text = some v) :
    v.WF = true := by
  simp only [JSON.parse] at h
  split at h
  · rename_i v1 rest hv
    split_ifs at h
    simp only [Option.some.injEq] at h
    rw [← h]
    exact (parse_wf_aux _).1 _ v1 rest hv
  · simp at h

/-- A parsed value survives re-serialisation: `JSON.parse(JSON.stringify(JSON.parse(t)))`
is `JSON.parse(t)`. -/
theorem JSON.parse_stringify_parse (text : JSString) (v : JSON) (h : JSON.parse text = some v) :
    JSON.parse v.stringify = some v :=
  JSON.parse_stringify v (JSON.parse_wf text v h)

/-! ## JSON: the recursion bound of `JSON.parse` is never reached -/

theorem skipWs_length_le (s : JSString) : (skipWs s).length ≤ s.length := by
  unfold skipWs
  exact (List.dropWhile_sublist _).length_le

theorem consChar_length (c : Nat) (o : Option (JSString × JSString)) (k r : JSString)
    (h : consChar c o = some (k, r)) : ∃ k1, o = some (k1, r) := by
  cases o with
  | none => simp [consChar] at h
  | some p =>
    obtain ⟨k1, r1⟩ := p
    simp only [consChar, Option.some.injEq, Prod.mk.injEq] at h
    exact ⟨k1, by rw [h.2]⟩

theorem parseChars_length (n : Nat) : ∀ (s k r : JSString), s.length ≤ n →
    parseChars s = some (k, r) → r.length < s.length := by
  induction n with
  | zero =>
    intro s k r hn h
    cases s with
    | nil => simp [parseChars] at h
    | cons c t => simp at hn
  | succ n ih =>
    intro s k r hn h
    cases s with
    | nil => simp [parseChars] at h
    | cons c t =>
      rw [parseChars.eq_def] at h
      simp only at h
      repeat' split at h
      all_goals first
        | (simp only [Option.some.injEq, Prod.mk.injEq] at h
           rw [← h.2]
           simp only [List.length_cons]
           omega)
        | (obtain ⟨k1, hk⟩ := consChar_length _ _ _ _ h
           have := ih _ k1 r (by simp only [List.length_cons] at hn ⊢; omega) hk
           simp only [List.length_cons] at this ⊢
           omega)
        | simp at h

theorem takeDigits_length (s : JSString) : (takeDigits s).2.length ≤ s.length := by
  induction s with
  | nil => simp [takeDigits]
  | cons c t ih =>
    simp only [takeDigits]
    split_ifs
    · simp only [List.length_cons]; omega
    · simp

theorem parseFraction_length (s : JSString) (fp : List Nat) (r : JSString)
    (h : parseFraction s = some (fp, r)) : r.length ≤ s.length := by
  cases s with
  | nil =>
    simp only [parseFraction, Option.some.injEq, Prod.mk.injEq] at h
    rw [← h.2]
  | cons c t =>
    simp only [parseFraction] at h
    split_ifs at h
    · simp only [Option.some.injEq] at h
      have := takeDigits_length t
      rw [h] at this
      simp only [List.length_cons] at this ⊢
      omega
    · simp only [Option.some.injEq, Prod.mk.injEq] at h
      rw [← h.2]

theorem parseExpDigits_length (neg : Bool) (s : JSString) (e : Int) (r : JSString)
    (h : parseExpDigits neg s = some (e, r)) : r.length ≤ s.length := by
  simp only [parseExpDigits] at h
  split_ifs at h <;>
    (simp only [Option.some.injEq, Prod.mk.injEq] at h
     rw [← h.2]
     exact takeDigits_length s)

theorem parseExponent_length (s : JSString) (e : Int) (r : JSString)
    (h : parseExponent s = some (e, r)) : r.length ≤ s.length := by
  cases s with
  | nil =>
    simp only [parseExponent, Option.some.injEq, Prod.mk.injEq] at h
    rw [← h.2]
  | cons c t =>
    simp only [parseExponent] at h
    split_ifs at h
    · split at h
      · simp at h
      · rename_i sg r1
        split_ifs at h
        · have := parseExpDigits_length _ _ _ _ h
          simp only [List.length_cons]; omega
        · have := parseExpDigits_length _ _ _ _ h
          simp only [List.length_cons]; omega
        · have := parseExpDigits_length _ _ _ _ h
          simp only [List.length_cons] at this ⊢; omega
    · simp only [Option.some.injEq, Prod.mk.injEq] at h
      rw [← h.2]

theorem parseUnsigned_length (neg : Bool) (s : JSString) (v : JSON) (r : JSString)
    (h : parseUnsigned neg s = some (v, r)) : r.length < s.length := by
  cases s with
  | nil => simp [parseUnsigned] at h
  | cons c t =>
    simp only [parseUnsigned] at h
    split_ifs at h with hd h48
    · split at h
      · simp at h
      · rename_i fp s3 hfr
        split at h
        · simp at h
        · rename_i e s4 hex
          simp only [Option.some.injEq, Prod.mk.injEq] at h
          rw [← h.2]
          have h1 := parseFraction_length _ _ _ hfr
          have h2 := parseExponent_length _ _ _ hex
          simp only [List.length_cons] at h1 ⊢; omega
    · split at h
      · simp at h
      · rename_i fp s3 hfr
        split at h
        · simp at h
        · rename_i e s4 hex
          simp only [Option.some.injEq, Prod.mk.injEq] at h
          rw [← h.2]
          have h1 := parseFraction_length _ _ _ hfr
          have h2 := parseExponent_length _ _ _ hex
          have h3 : (takeDigits (c :: t)).2.length ≤ t.length := by
            simp only [takeDigits, hd, if_true]
            exact takeDigits_length t
          simp only [List.length_cons]; omega

theorem parseNumber_length (s : JSString) (v : JSON) (r : JSString)
    (h : parseNumber s = some (v, r)) : r.length < s.length := by
  cases s with
  | nil => simp [parseNumber] at h
  | cons c t =>
    simp only [parseNumber] at h
    split_ifs at h
    · have := parseUnsigned_length _ _ _ _ h
      simp only [List.length_cons]; omega
    · exact parseUnsigned_length _ _ _ _ h

theorem expect_length (lit : JSString) (v0 : JSON) (s : JSString) (v : JSON) (r : JSString)
    (h : expect lit v0 s = some (v, r)) : r.length ≤ s.length := by
  simp only [expect] at h
  split_ifs at h
  simp only [Option.some.injEq, Prod.mk.injEq] at h
  rw [← h.2]
  simp

theorem skipWs_eq_cons_length (s : JSString) (c : Nat) (t : JSString)
    (h : skipWs s = c :: t) : t.length < s.length := by
  have := skipWs_length_le s
  rw [h] at this
  simp only [List.length_cons] at this
  omega

/-- Every successful parse consumes at least one code unit. -/
theorem parse_consumes (fuel : Nat) :
    (∀ input v rest, parseValue fuel input = some (v, rest) → rest.length < input.length) ∧
    (∀ input xs rest, parseElems fuel input = some (xs, rest) → rest.length < input.length) ∧
    (∀ input ms rest, parseMembers fuel input = some (ms, rest) →
      rest.length < input.length) := by
  induction fuel with
  | zero => simp [parseValue, parseElems, parseMembers]
  | succ f ih =>
    obtain ⟨ihV, ihE, ihM⟩ := ih
    refine ⟨?_, ?_, ?_⟩
    · intro input v rest h
      simp only [parseValue] at h
      split at h
      · simp at h
      · rename_i c r hsk
        have hlen := skipWs_eq_cons_length input c r hsk
        split_ifs at h
        · split at h
          · simp at h
          · rename_i d r2 hsk2
            have hlen2 := skipWs_eq_cons_length r d r2 hsk2
            split_ifs at h
            · simp only [Option.some.injEq, Prod.mk.injEq] at h
              rw [← h.2]; omega
            · cases hm : parseMembers f (d :: r2) with
              | none => simp [hm, mkObj] at h
              | some res =>
                obtain ⟨ms, r3⟩ := res
                simp only [hm, mkObj, Option.some.injEq, Prod.mk.injEq] at h
                have := ihM _ ms r3 hm
                rw [← h.2]
                simp only [List.length_cons] at this; omega
        · split at h
          · simp at h
          · rename_i d r2 hsk2
            have hlen2 := skipWs_eq_cons_length r d r2 hsk2
            split_ifs at h
            · simp only [Option.some.injEq, Prod.mk.injEq] at h
              rw [← h.2]; omega
            · cases hm : parseElems f (d :: r2) with
              | none => simp [hm, mkArr] at h
              | some res =>
                obtain ⟨xs, r3⟩ := res
                simp only [hm, mkArr, Option.some.injEq, Prod.mk.injEq] at h
                have := ihE _ xs r3 hm
                rw [← h.2]
                simp only [List.length_cons] at this; omega
        · cases hm : parseChars r with
          | none => simp [hm, mkStr] at h
          | some res =>
            obtain ⟨s, r3⟩ := res
            simp only [hm, mkStr, Option.some.injEq, Prod.mk.injEq] at h
            have := parseChars_length r.length r s r3 (le_refl _) hm
            rw [← h.2]; omega
        · have := expect_length _ _ _ _ _ h; omega
        · have := expect_length _ _ _ _ _ h; omega
        · have := expect_length _ _ _ _ _ h; omega
        · have := parseNumber_length _ _ _ h
          simp only [List.length_cons] at this; omega
    · intro input xs rest h
      simp only [parseElems] at h
      split at h
      · simp at h
      · rename_i v r hv
        have h1 := ihV _ v r hv
        split at h
        · simp at h
        · rename_i c r2 hsk
          have h2 := skipWs_eq_cons_length r c r2 hsk
          split_ifs at h
          · simp only [Option.some.injEq, Prod.mk.injEq] at h
            rw [← h.2]; omega
          · cases hm : parseElems f r2 with
            | none => simp [hm, consElem] at h
            | some res =>
              obtain ⟨vs, r3⟩ := res
              simp only [hm, consElem, Option.some.injEq, Prod.mk.injEq] at h
              have := ihE _ vs r3 hm
              rw [← h.2]; omega
    · intro input ms rest h
      simp only [parseMembers] at h
      split at h
      · simp at h
      · rename_i q r hsk0
        have h0 := skipWs_eq_cons_length input q r hsk0
        split_ifs at h
        split at h
        · simp at h
        · rename_i k r1 hk
          have h1 := parseChars_length r.length r k r1 (le_refl _) hk
          split at h
          · simp at h
          · rename_i colon r2 hsk1
            have h2 := skipWs_eq_cons_length r1 colon r2 hsk1
            split_ifs at h
            split at h
            · simp at h
            · rename_i v r3 hv
              have h3 := ihV _ v r3 hv
              split at h
              · simp at h
              · rename_i c r4 hsk2
                have h4 := skipWs_eq_cons_length r3 c r4 hsk2
                split_ifs at h
                · simp only [Option.some.injEq, Prod.mk.injEq] at h
                  rw [← h.2]; omega
                · cases hm : parseMembers f r4 with
                  | none => simp [hm, consMember] at h
                  | some res =>
                    obtain ⟨vs, r5⟩ := res
                    simp only [hm, consMember, Option.some.injEq, Prod.mk.injEq] at h
                    have := ihM _ vs r5 hm
                    rw [← h.2]; omega

/-- Beyond `2 * length + 1` calls for a value, and `2 * length + 2` for elements or
members, one more unit of fuel changes nothing. -/
theorem parse_fuel_step (fuel : Nat) :
    (∀ input, 2 * input.length + 1 ≤ fuel → parseValue (fuel + 1) input = parseValue fuel input) ∧
    (∀ input, 2 * input.length + 2 ≤ fuel → parseElems (fuel + 1) input = parseElems fuel input) ∧
    (∀ input, 2 * input.length + 2 ≤ fuel →
      parseMembers (fuel + 1) input = parseMembers fuel input) := by
  induction fuel with
  | zero =>
    refine ⟨?_, ?_, ?_⟩ <;> intro input h <;> omega
  | succ f ih =>
    obtain ⟨ihV, ihE, ihM⟩ := ih
    refine ⟨?_, ?_, ?_⟩
    · intro input hf
      rw [parseValue, parseValue]
      cases hsk : skipWs input with
      | nil => rfl
      | cons c r =>
        have hlen := skipWs_eq_cons_length input c r hsk
        simp only []
        split_ifs
        · cases hsk2 : skipWs r with
          | nil => rfl
          | cons d r2 =>
            have hlen2 := skipWs_eq_cons_length r d r2 hsk2
            simp only []
            split_ifs
            · rfl
            · rw [ihM (d :: r2) (by simp only [List.length_cons]; omega)]
        · cases hsk2 : skipWs r with
          | nil => rfl
          | cons d r2 =>
            have hlen2 := skipWs_eq_cons_length r d r2 hsk2
            simp only []
            split_ifs
            · rfl
            · rw [ihE (d :: r2) (by simp only [List.length_cons]; omega)]
        · rfl
        · rfl
        · rfl
        · rfl
        · rfl
    · intro input hf
      rw [parseElems, parseElems, ihV input (by omega)]
      cases hv : parseValue f input with
      | none => rfl
      | some res =>
        obtain ⟨v, r⟩ := res
        have h1 := (parse_consumes f).1 input v r hv
        simp only []
        cases hsk : skipWs r with
        | nil => rfl
        | cons c r2 =>
          have h2 := skipWs_eq_cons_length r c r2 hsk
          simp only []
          split_ifs
          · rfl
          · rw [ihE r2 (by omega)]
          · rfl
    · intro input hf
      rw [parseMembers, parseMembers]
      cases hsk0 : skipWs input with
      | nil => rfl
      | cons q r =>
        have h0 := skipWs_eq_cons_length input q r hsk0
        simp only []
        split_ifs
        · cases hk : parseChars r with
          | none => rfl
          | some res =>
            obtain ⟨k, r1⟩ := res
            have h1 := parseChars_length r.length r k r1 (le_refl _) hk
            simp only []
            cases hsk1 : skipWs r1 with
            | nil => rfl
            | cons colon r2 =>
              have h2 := skipWs_eq_cons_length r1 colon r2 hsk1
              simp only []
              split_ifs
              · rw [ihV r2 (by omega)]
                cases hv : parseValue f r2 with
                | none => rfl
                | some res2 =>
                  obtain ⟨v, r3⟩ := res2
                  have h3 := (parse_consumes f).1 r2 v r3 hv
                  simp only []
                  cases hsk2 : skipWs r3 with
                  | nil => rfl
                  | cons c r4 =>
                    have h4 := skipWs_eq_cons_length r3 c r4 hsk2
                    simp only []
                    split_ifs
                    · rfl
                    · rw [ihM r4 (by omega)]
                    · rfl
              · rfl
        · rfl

/-- With at least `2 * length + 1` units of fuel the parser returns what it returns
with exactly that many: the bound in `JSON.parse` never cuts a parse short. -/
theorem parseValue_fuel (input : JSString) (fuel : Nat) (h : 2 * input.length + 1 ≤ fuel) :
    parseValue fuel input = parseValue (2 * input.length + 1) input := by
  induction fuel with
  | zero => omega
  | succ f ih =>
    by_cases hf : 2 * input.length + 1 ≤ f
    · rw [(parse_fuel_step f).1 input hf, ih hf]
    · have : f + 1 = 2 * input.length + 1 := by omega
      rw [this]

/-- The result of `JSON.parse` does not depend on its recursion bound: any larger
bound gives the same value or the same failure. -/
theorem JSON.parse_fuel (text : JSString) (fuel : Nat) (h : 2 * text.length + 1 ≤ fuel) :
    JSON.parse text =
      match parseValue fuel text with
      | some (v, rest) => if skipWs rest = [] then some v else none
      | none => none := by
  rw [parseValue_fuel text fuel h]
  rfl

/-! ## Facts about `split`, `trim`, the signature text and the operations -/

theorem split_ne_nil (sep : Nat) (s : JSString) : split sep s ≠ [] := by
  cases s with
  | nil => simp [split]
  | cons c t =>
    simp only [split]
    split_ifs
    · simp
    · split <;> simp

theorem split_append (sep : Nat) (a b : JSString) (h : ∀ c ∈ a, c ≠ sep) :
    split sep (a ++ sep :: b) = a :: split sep b := by
  induction a with
  | nil => simp [split]
  | cons c t ih =>
    have hc : c ≠ sep := h c (by simp)
    have ht := ih (fun x hx => h x (by simp [hx]))
    show split sep (c :: (t ++ sep :: b)) = _
    simp only [split, hc, if_false, ht]

theorem split_nosep (sep : Nat) (a : JSString) (h : ∀ c ∈ a, c ≠ sep) : split sep a = [a] := by
  induction a with
  | nil => simp [split]
  | cons c t ih =>
    have hc : c ≠ sep := h c (by simp)
    have ht := ih (fun x hx => h x (by simp [hx]))
    simp only [split, hc, if_false, ht]

/-- A token of three dot-free segments splits into exactly those segments. -/
theorem split_three (a b c : JSString) (ha : ∀ x ∈ a, x ≠ 46) (hb : ∀ x ∈ b, x ≠ 46)
    (hc : ∀ x ∈ c, x ≠ 46) : split 46 (a ++ 46 :: (b ++ 46 :: c)) = [a, b, c] := by
  rw [split_append 46 a _ ha, split_append 46 b _ hb, split_nosep 46 c hc]

/-- No part that `split` returns contains the separator. -/
theorem split_parts_nosep (sep : Nat) (s : JSString) :
    ∀ p ∈ split sep s, ∀ c ∈ p, c ≠ sep := by
  induction s with
  | nil => simp [split]
  | cons c t ih =>
    simp only [split]
    split_ifs with h
    · intro p hp
      simp only [List.mem_cons] at hp
      rcases hp with rfl | hp
      · simp
      · exact ih p hp
    · split
      · intro p hp
        simp only [List.mem_singleton] at hp
        subst hp
        intro x hx
        simp only [List.mem_singleton] at hx
        subst hx
        exact h
      · rename_i p ps heq
        intro q hq
        simp only [List.mem_cons] at hq
        rcases hq with rfl | hq
        · intro x hx
          simp only [List.mem_cons] at hx
          rcases hx with rfl | hx
          · exact h
          · exact ih p (by rw [heq]; simp) x hx
        · exact ih q (by rw [heq]; simp [hq])

theorem dropWhile_of_head (p : Nat → Bool) (l : List Nat)
    (h : ∀ c, l.head? = some c → p c = false) : l.dropWhile p = l := by
  cases l with
  | nil => rfl
  | cons c t => simp [List.dropWhile, h c rfl]

/-- The method `trim` leaves a string alone when neither end is white space. -/
theorem trim_eq_self (s : JSString) (hh : ∀ c, s.head? = some c → isTrimSpace c = false)
    (hl : ∀ c, s.getLast? = some c → isTrimSpace c = false) : trim s = s := by
  unfold trim
  rw [dropWhile_of_head _ s hh, dropWhile_of_head _ s.reverse (by
    intro c hc; rw [List.head?_reverse] at hc; exact hl c hc), List.reverse_reverse]

theorem isUrlChar_not_trimSpace {c : Nat} (h : isUrlChar c) : isTrimSpace c = false := by
  unfold isUrlChar at h
  simp only [isTrimSpace, Bool.or_eq_false_iff, Bool.and_eq_false_iff, decide_eq_false_iff_not]
  omega

theorem isUrlChar_ne_dot {c : Nat} (h : isUrlChar c) : c ≠ 46 := by
  unfold isUrlChar at h; omega

/-- The signature text is the unpadded URL-safe base64 of the digest. -/
theorem hmacSignature_eq (hmac : Hmac) (f : HmacAlgo) (data secret : JSString) :
    hmacSignature hmac f data secret = urlBody (hmac f data secret) := by
  simp only [hmacSignature, replaceAll_url, base64Encode_eq, List.map_append, List.map_replicate,
    List.map_map]
  have h61 : urlChar 61 = 61 := by decide
  rw [h61]
  apply stripTrailingEq_append
  intro c hc
  have := urlBody_isUrlChar (hmac f data secret) c (by simpa [urlBody] using hc)
  unfold isUrlChar at this
  omega

theorem hmacSignature_nodot (hmac : Hmac) (f : HmacAlgo) (data secret : JSString) :
    ∀ c ∈ hmacSignature hmac f data secret, c ≠ 46 := by
  rw [hmacSignature_eq]
  exact fun c hc => isUrlChar_ne_dot (urlBody_isUrlChar _ c hc)

theorem urlBody_nodot (s : List Nat) : ∀ c ∈ urlBody s, c ≠ 46 :=
  fun c hc => isUrlChar_ne_dot (urlBody_isUrlChar _ c hc)

/-- The status messages of `liveVerify` are pairwise different. -/
theorem msgs_distinct :
    msgSigValid ≠ msgSigInvalid ∧ msgNeedSecret ≠ msgCannotVerify ∧
    msgNeedSecret ≠ msgSigValid ∧ msgNeedSecret ≠ msgSigInvalid ∧
    msgNeedSecret ≠ msgValidNone ∧ msgCannotVerify ≠ msgSigValid ∧
    msgCannotVerify ≠ msgSigInvalid ∧ msgValidNone ≠ msgSigValid ∧
    msgValidNone ≠ msgSigInvalid ∧ msgValidNone ≠ msgCannotVerify := by
  decide

/-- An algorithm that resolves to a keyed hash is not `none`. -/
theorem strictEq_none_of_getHMACAlgo (alg : Option JSON) (f : HmacAlgo)
    (h : getHMACAlgo alg = some f) : strictEq alg (js "none") = false := by
  cases alg with
  | none => rfl
  | some v =>
    cases v with
    | str s =>
      simp only [getHMACAlgo, strictEq] at h ⊢
      split_ifs at h with h1 h2 h3
      · simp only [decide_eq_true_eq] at h1; subst h1; decide
      · simp only [decide_eq_true_eq] at h2; subst h2; decide
      · simp only [decide_eq_true_eq] at h3; subst h3; decide
    | _ => rfl

/-- What `liveVerify` does to a token of three segments whose header decodes. -/
theorem liveVerify_decoded (hmac : Hmac) (st : State) (jwt h p s text : JSString)
    (hdr : JSON) (alg : Option JSON)
    (hsplit : split 46 jwt = [h, p, s])
    (hatob : atob (replaceAll 95 47 (replaceAll 45 43 h)) = some text)
    (hparse : JSON.parse text = some hdr) (halg : getAlg hdr = some alg) :
    liveVerify hmac st jwt =
      if strictEq alg (js "none") then writeStatus st msgValidNone
      else
        match getHMACAlgo alg with
        | none => writeStatus st msgCannotVerify
        | some hmacAlgo =>
          if trim st.editSecret = [] then writeStatus st msgNeedSecret
          else writeStatus st
            (if hmacSignature hmac hmacAlgo (h ++ 46 :: p) (trim st.editSecret) = s
              then msgSigValid else msgSigInvalid) := by
  simp only [liveVerify, hsplit, List.length_cons, List.length_nil, ne_eq, not_true_eq_false,
    if_false, List.getD_cons_zero, List.getD_cons_succ, hatob, hparse, halg]

/-- The three ways `liveVerify` can end: silently, by throwing, or at a status write. -/
theorem liveVerify_shape (hmac : Hmac) (st : State) (jwt : JSString) :
    liveVerify hmac st jwt = some st ∨ liveVerify hmac st jwt = none ∨
      ∃ msg, liveVerify hmac st jwt = writeStatus st msg := by
  unfold liveVerify
  simp only []
  repeat' split
  all_goals first
    | exact Or.inl rfl
    | exact Or.inr (Or.inl rfl)
    | exact Or.inr (Or.inr ⟨_, rfl⟩)

/-- Whatever `liveVerify` returns differs from the state it was given at most in
the status text. -/
theorem liveVerify_frame (hmac : Hmac) (st st1 : State) (jwt : JSString)
    (h : liveVerify hmac st jwt = some st1) :
    ∃ msg, st1 = { st with verifyStatus := msg } := by
  rcases liveVerify_shape hmac st jwt with h1 | h1 | ⟨msg, h1⟩
  · rw [h1] at h
    simp only [Option.some.injEq] at h
    exact ⟨st.verifyStatus, by rw [← h]⟩
  · rw [h1] at h; simp at h
  · rw [h1] at h
    simp only [writeStatus] at h
    split_ifs at h
    simp only [Option.some.injEq] at h
    exact ⟨msg, h.symm⟩

theorem writeStatus_bound (st : State) (msg : JSString) (h : st.verificationStatus = true) :
    writeStatus st msg = some { st with verifyStatus := msg } := by
  simp [writeStatus, h]

/-- With the status element bound, a token of three segments whose header decodes
always gets one of the five status texts of `liveVerify`. -/
theorem liveVerify_bound_decoded (hmac : Hmac) (st : State) (jwt h p s text : JSString)
    (hdr : JSON) (alg : Option JSON) (hB : st.verificationStatus = true)
    (hsplit : split 46 jwt = [h, p, s])
    (hatob : atob (replaceAll 95 47 (replaceAll 45 43 h)) = some text)
    (hparse : JSON.parse text = some hdr) (halg : getAlg hdr = some alg) :
    ∃ msg, liveVerify hmac st jwt = some { st with verifyStatus := msg } ∧
      (msg = msgValidNone ∨ msg = msgCannotVerify ∨ msg = msgNeedSecret ∨ msg = msgSigValid ∨
        msg = msgSigInvalid) := by
  rw [liveVerify_decoded hmac st jwt h p s text hdr alg hsplit hatob hparse halg]
  by_cases h1 : strictEq alg (js "none") = true
  · rw [if_pos h1]
    exact ⟨_, writeStatus_bound st _ hB, by simp⟩
  · rw [if_neg h1]
    cases hg : getHMACAlgo alg with
    | none => exact ⟨_, writeStatus_bound st _ hB, by simp⟩
    | some f =>
      by_cases h2 : trim st.editSecret = []
      · simp only [h2, if_true]
        exact ⟨_, writeStatus_bound st _ hB, by simp⟩
      · simp only [h2, if_false]
        by_cases h3 : hmacSignature hmac f (h ++ 46 :: p) (trim st.editSecret) = s
        · rw [if_pos h3]
          exact ⟨_, writeStatus_bound st _ hB, by simp⟩
        · rw [if_neg h3]
          exact ⟨_, writeStatus_bound st _ hB, by simp⟩

/-- Once the status element is bound (after an `autoDecodeJWT`): for a token `h.p.s`
of exactly three segments whose header segment decodes to JSON with `alg` one of
HS256, HS384, HS512, and a secret that is not empty (the trimmed content of
`#editSecret`), `liveVerify` writes "Signature valid" if `s` is exactly the unpadded
URL-safe base64 of the keyed hash of `h + "." + p` under the secret, and "Signature
invalid" otherwise; that text contains no `+`, `/` or `=`. -/
theorem liveVerify_hmac_bound (hmac : Hmac) (st : State) (jwt h p s text : JSString)
    (hdr : JSON) (alg : Option JSON) (f : HmacAlgo) (hB : st.verificationStatus = true)
    (hsplit : split 46 jwt = [h, p, s])
    (hatob : atob (replaceAll 95 47 (replaceAll 45 43 h)) = some text)
    (hparse : JSON.parse text = some hdr) (halg : getAlg hdr = some alg)
    (hF : getHMACAlgo alg = some f) (hS : trim st.editSecret ≠ []) :
    liveVerify hmac st jwt =
        some { st with verifyStatus :=
          if s = urlBody (hmac f (h ++ 46 :: p) (trim st.editSecret)) then msgSigValid
          else msgSigInvalid } ∧
      msgSigValid ≠ msgSigInvalid ∧
      ∀ c ∈ urlBody (hmac f (h ++ 46 :: p) (trim st.editSecret)), c ≠ 43 ∧ c ≠ 47 ∧ c ≠ 61 := by
  refine ⟨?_, msgs_distinct.1, ?_⟩
  · rw [liveVerify_decoded hmac st jwt h p s text hdr alg hsplit hatob hparse halg,
      strictEq_none_of_getHMACAlgo alg f hF]
    simp only [Bool.false_eq_true, if_false, hF, hS, hmacSignature_eq]
    rw [writeStatus_bound st _ hB]
    by_cases he : s = urlBody (hmac f (h ++ 46 :: p) (trim st.editSecret))
    · rw [if_pos he, if_pos he.symm]
    · rw [if_neg he, if_neg (fun e => he e.symm)]
  · intro c hc
    have := urlBody_isUrlChar _ c hc
    unfold isUrlChar at this
    omega

/-- Once the status element is bound: for a token of three segments whose header
decodes to JSON with `alg` equal to `"none"`, `liveVerify` writes "Valid (alg=none)"
whatever the secret field and the signature segment hold; no signature is computed or
compared. -/
theorem liveVerify_none_bound (hmac : Hmac) (st : State) (jwt h p s text : JSString)
    (hdr : JSON) (alg : Option JSON) (hB : st.verificationStatus = true)
    (hsplit : split 46 jwt = [h, p, s])
    (hatob : atob (replaceAll 95 47 (replaceAll 45 43 h)) = some text)
    (hparse : JSON.parse text = some hdr) (halg : getAlg hdr = some alg)
    (hN : strictEq alg (js "none") = true) :
    liveVerify hmac st jwt = some { st with verifyStatus := msgValidNone } := by
  rw [liveVerify_decoded hmac st jwt h p s text hdr alg hsplit hatob hparse halg, if_pos hN,
    writeStatus_bound st _ hB]

/-- Once the status element is bound: for a token of three segments whose header
decodes to JSON with `alg` other than `"none"`, `liveVerify` writes "Cannot verify
RSA/ES signatures" whenever `alg` does not resolve to a keyed hash, whatever the
secret (so also when it is empty), and writes "Provide secret key to verify" exactly
when `alg` resolves and the secret (the trimmed content of `#editSecret`) is empty. -/
theorem liveVerify_precedence_bound (hmac : Hmac) (st : State) (jwt h p s text : JSString)
    (hdr : JSON) (alg : Option JSON) (hB : st.verificationStatus = true)
    (hsplit : split 46 jwt = [h, p, s])
    (hatob : atob (replaceAll 95 47 (replaceAll 45 43 h)) = some text)
    (hparse : JSON.parse text = some hdr) (halg : getAlg hdr = some alg)
    (hN : strictEq alg (js "none") = false) :
    ∃ msg, liveVerify hmac st jwt = some { st with verifyStatus := msg } ∧
      (getHMACAlgo alg = none → msg = msgCannotVerify) ∧
      (msg = msgNeedSecret ↔ (getHMACAlgo alg ≠ none ∧ trim st.editSecret = [])) := by
  obtain ⟨_, h2, h3, h4, _, _, _, _, _, _⟩ := msgs_distinct
  rw [liveVerify_decoded hmac st jwt h p s text hdr alg hsplit hatob hparse halg, hN]
  simp only [Bool.false_eq_true, if_false]
  cases hg : getHMACAlgo alg with
  | none =>
    refine ⟨msgCannotVerify, writeStatus_bound st _ hB, fun _ => rfl, ?_⟩
    constructor
    · intro h; exact absurd h.symm h2
    · intro h; exact absurd rfl h.1
  | some f =>
    by_cases hs : trim st.editSecret = []
    · simp only [hs, if_true]
      refine ⟨msgNeedSecret, writeStatus_bound st _ hB, fun h => by simp at h, ?_⟩
      simp
    · simp only [hs, if_false]
      refine ⟨_, writeStatus_bound st _ hB, fun h => by simp at h, ?_⟩
      constructor
      · intro h
        exfalso
        split_ifs at h
        · exact h3 h.symm
        · exact h4 h.symm
      · intro h; exact h.2.elim

/-- The result of `updateJWTFromEdits` once both texts have parsed, both segments have been
encoded and `header.alg` has been read. -/
theorem updateJWTFromEdits_eq (hmac : Hmac) (st : State) (header payload : JSON)
    (eh ep : JSString) (alg : Option JSON)
    (hH : JSON.parse (trim st.decodedHeader) = some header)
    (hP : JSON.parse (trim st.decodedPayload) = some payload)
    (hEH : base64UrlEncode header.stringify = some eh)
    (hEP : base64UrlEncode payload.stringify = some ep)
    (hA : getAlg header = some alg) :
    updateJWTFromEdits hmac st =
      match liveVerify hmac
          { st with currentAlg := alg, jwtInput := finalJWTOf hmac st eh ep alg,
                    encodedResult := finalJWTOf hmac st eh ep alg }
          (finalJWTOf hmac st eh ep alg) with
      | none =>
        { st with currentAlg := alg, jwtInput := finalJWTOf hmac st eh ep alg,
                  encodedResult := msgInvalidJsonOut }
      | some st3 => st3 := by
  simp only [updateJWTFromEdits, hH, hP, hEH, hEP, hA]
  rfl

/-- After a rebuild that reaches the signature decision, `#jwtInput` holds the
assembled token and the module variable `savedSignature` is what it was. -/
theorem updateJWTFromEdits_token (hmac : Hmac) (st : State) (header payload : JSON)
    (eh ep : JSString) (alg : Option JSON)
    (hH : JSON.parse (trim st.decodedHeader) = some header)
    (hP : JSON.parse (trim st.decodedPayload) = some payload)
    (hEH : base64UrlEncode header.stringify = some eh)
    (hEP : base64UrlEncode payload.stringify = some ep)
    (hA : getAlg header = some alg) :
    (updateJWTFromEdits hmac st).jwtInput = finalJWTOf hmac st eh ep alg ∧
      (updateJWTFromEdits hmac st).savedSignature = st.savedSignature ∧
      (updateJWTFromEdits hmac st).currentAlg = alg := by
  rw [updateJWTFromEdits_eq hmac st header payload eh ep alg hH hP hEH hEP hA]
  split
  · exact ⟨rfl, rfl, rfl⟩
  · rename_i st3 h3
    obtain ⟨msg, rfl⟩ := liveVerify_frame _ _ _ _ h3
    exact ⟨rfl, rfl, rfl⟩

/-! ## The claims -/

/-- C2 (as amended): for every string `s` whose code units are all at most 0xFF,
`base64UrlEncode(s)` returns and `base64UrlDecode` of its output returns `s`
(never the failure value `null`); for every string with a code unit above 0xFF
`btoa` throws, so `base64UrlEncode` does not return. -/
theorem C2_base64url_round_trip (s : JSString) :
    ((∀ c ∈ s, c ≤ 255) →
      ∃ e, base64UrlEncode s = some e ∧ base64UrlDecode e = some s) ∧
    ((¬ ∀ c ∈ s, c ≤ 255) → base64UrlEncode s = none) :=
  ⟨fun h => ⟨urlBody s, base64UrlEncode_eq s h, base64UrlDecode_urlBody s h⟩,
   base64UrlEncode_none s⟩

/-- C2, instances: the round trip at `{"user":"admin"}`, and the failure of the
encoder at the one-character string `€` (code unit 8364). -/
theorem C2_witness :
    (∃ e, base64UrlEncode (js "\x7b\"user\":\"admin\"\x7d") = some e ∧
      base64UrlDecode e = some (js "\x7b\"user\":\"admin\"\x7d")) ∧
    base64UrlEncode (js "€") = none :=
  ⟨(C2_base64url_round_trip (js "\x7b\"user\":\"admin\"\x7d")).1 (by decide),
   (C2_base64url_round_trip (js "€")).2 (by decide)⟩

/-- C2 as stated fails: on the one-character string `Ω` (code unit 937) `btoa`
throws, so `base64UrlEncode` does not return and there is nothing to decode. -/
theorem C2_counterexample :
    base64UrlEncode (js "Ω") = none ∧
      ¬ ∃ e, base64UrlEncode (js "Ω") = some e ∧ base64UrlDecode e = some (js "Ω") := by
  refine ⟨by decide, ?_⟩
  rintro ⟨e, he, _⟩
  have : base64UrlEncode (js "Ω") = none := by decide
  rw [this] at he
  exact absurd he (by simp)

/-- C10 (as amended): `liveVerify` reports nothing for malformed input. For a token
that does not split on `.` into exactly three parts it returns at once and leaves
the state, status text included, as it was; for a token of three parts whose header
segment fails to base64-decode or to parse as JSON it throws, again without writing
anything. No MalformedInput outcome is written by `liveVerify` itself. -/
theorem C10_liveVerify_malformed (hmac : Hmac) (st : State) (jwt : JSString) :
    ((split 46 jwt).length ≠ 3 → liveVerify hmac st jwt = some st) ∧
    (∀ h p s, split 46 jwt = [h, p, s] →
      (atob (replaceAll 95 47 (replaceAll 45 43 h)) = none ∨
        ∃ text, atob (replaceAll 95 47 (replaceAll 45 43 h)) = some text ∧
          JSON.parse text = none) →
      liveVerify hmac st jwt = none) := by
  constructor
  · intro hlen
    simp [liveVerify, hlen]
  · intro h p s hsplit hbad
    rcases hbad with hb | ⟨text, hb, hp⟩
    · simp [liveVerify, hsplit, hb]
    · simp [liveVerify, hsplit, hb, hp]

/-- C10, instances: `abc.def` (two parts) is a silent no-op; `a.b.c` (header segment
of one character) and `YWJj.e30.c2ln` (header text `abc`, not JSON) make
`liveVerify` throw. -/
theorem C10_witness :
    liveVerify toyHmac boundState (js "abc.def") = some boundState ∧
    liveVerify toyHmac boundState (js "a.b.c") = none ∧
    liveVerify toyHmac boundState (js "YWJj.e30.c2ln") = none :=
  ⟨(C10_liveVerify_malformed toyHmac boundState (js "abc.def")).1 (by decide),
   (C10_liveVerify_malformed toyHmac boundState (js "a.b.c")).2 (js "a") (js "b") (js "c")
     (by decide) (Or.inl (by decide)),
   (C10_liveVerify_malformed toyHmac boundState (js "YWJj.e30.c2ln")).2 (js "YWJj") (js "e30")
     (js "c2ln") (by decide) (Or.inr ⟨js "abc", by decide, rfl⟩)⟩

/-- C10 as stated fails: on `abc.def` `liveVerify` returns with the status text
unchanged (here still empty, so no outcome was reported), and on `a.b.c` it throws. -/
theorem C10_counterexample :
    (liveVerify toyHmac boundState (js "abc.def")).map State.verifyStatus = some [] ∧
    liveVerify toyHmac boundState (js "a.b.c") = none := by
  constructor
  · decide
  · rfl

/-- The result of `autoDecodeJWT` on a token of three segments that both decode to JSON texts,
up to its call of `liveVerify`. -/
theorem autoDecodeJWT_decoded (hmac : Hmac) (st : State) (p0 p1 p2 hs ps : JSString)
    (header payload : JSON) (alg : Option JSON)
    (hsplit : split 46 (trim st.jwtInput) = [p0, p1, p2])
    (h0 : base64UrlDecode p0 = some hs) (h1 : base64UrlDecode p1 = some ps)
    (hne0 : hs ≠ []) (hne1 : ps ≠ [])
    (hH : JSON.parse hs = some header) (hP : JSON.parse ps = some payload)
    (hA : getAlg header = some alg) :
    autoDecodeJWT hmac st =
      match liveVerify hmac
          { st with verificationStatus := true, savedSignature := p2,
                    decodedHeader := header.stringifyIndented 0,
                    decodedPayload := payload.stringifyIndented 0,
                    currentAlg := some (orEmpty alg) } (trim st.jwtInput) with
      | none =>
        report { st with verificationStatus := true, savedSignature := p2,
                         decodedHeader := header.stringifyIndented 0,
                         decodedPayload := payload.stringifyIndented 0,
                         currentAlg := some (orEmpty alg) } msgInvalidJson
      | some st5 => st5 := by
  have f0 : falsy (some hs) = false := by
    cases hs with
    | nil => exact absurd rfl hne0
    | cons c t => rfl
  have f1 : falsy (some ps) = false := by
    cases ps with
    | nil => exact absurd rfl hne1
    | cons c t => rfl
  simp only [autoDecodeJWT, hsplit, List.length_cons, List.length_nil, if_true, ne_eq,
    not_true_eq_false, if_false, List.getD_cons_zero, List.getD_cons_succ, h0, h1, f0, f1,
    Bool.or_self, Bool.false_eq_true, Option.getD_some, hH, hP, hA, Nat.reduceAdd]

theorem stringify_ne_nil (v : JSON) (h : v.WF = true) : v.stringify ≠ [] := by
  obtain ⟨c, r, hc, _⟩ := stringify_start v h
  rw [hc]; simp

/-- C5: when `header.alg` of the edited header resolves to a keyed hash and the
secret (the trimmed content of `#editSecret`) is not empty, the token that
`updateJWTFromEdits` writes is `data + "." + sig`, where `data` is
`encodedHeader + "." + encodedPayload` and `sig` is the unpadded URL-safe base64 of
the keyed hash of `data` under the secret. Nothing else of the session enters: a
second session with the same three field contents gets the same token, whatever its
`savedSignature`, `currentAlg`, status or previous token. -/
theorem C5_computed_signature (hmac : Hmac) (st st1 : State) (header payload : JSON)
    (eh ep : JSString) (alg : Option JSON) (f : HmacAlgo)
    (hH : JSON.parse (trim st.decodedHeader) = some header)
    (hP : JSON.parse (trim st.decodedPayload) = some payload)
    (hEH : base64UrlEncode header.stringify = some eh)
    (hEP : base64UrlEncode payload.stringify = some ep)
    (hA : getAlg header = some alg) (hF : getHMACAlgo alg = some f)
    (hS : trim st.editSecret ≠ [])
    (hH1 : trim st1.decodedHeader = trim st.decodedHeader)
    (hP1 : trim st1.decodedPayload = trim st.decodedPayload)
    (hS1 : trim st1.editSecret = trim st.editSecret) :
    (updateJWTFromEdits hmac st).jwtInput =
        (eh ++ 46 :: ep) ++ 46 :: urlBody (hmac f (eh ++ 46 :: ep) (trim st.editSecret)) ∧
      (updateJWTFromEdits hmac st1).jwtInput = (updateJWTFromEdits hmac st).jwtInput := by
  have key : ∀ s : State, trim s.decodedHeader = trim st.decodedHeader →
      trim s.decodedPayload = trim st.decodedPayload → trim s.editSecret = trim st.editSecret →
      (updateJWTFromEdits hmac s).jwtInput =
        (eh ++ 46 :: ep) ++ 46 :: urlBody (hmac f (eh ++ 46 :: ep) (trim st.editSecret)) := by
    intro s e1 e2 e3
    rw [(updateJWTFromEdits_token hmac s header payload eh ep alg (by rw [e1]; exact hH)
      (by rw [e2]; exact hP) hEH hEP hA).1]
    simp only [finalJWTOf, strictEq_none_of_getHMACAlgo alg f hF, Bool.false_eq_true, if_false,
      hF, e3, hS, ne_eq, not_false_eq_true, if_true, hmacSignature_eq]
  exact ⟨key st rfl rfl rfl, by rw [key st1 hH1 hP1 hS1, key st rfl rfl rfl]⟩

/-- C6: when `header.alg` of the edited header is not `"none"` and either does not
resolve to a keyed hash (an RSA or EC name, an unknown string, no `alg` at all),
whatever the secret, or resolves while the secret (the trimmed content of
`#editSecret`) is empty, the token that `updateJWTFromEdits` writes ends in the
current `savedSignature`, and `savedSignature` itself is unchanged. -/
theorem C6_preserved_signature (hmac : Hmac) (st : State) (header payload : JSON)
    (eh ep : JSString) (alg : Option JSON)
    (hH : JSON.parse (trim st.decodedHeader) = some header)
    (hP : JSON.parse (trim st.decodedPayload) = some payload)
    (hEH : base64UrlEncode header.stringify = some eh)
    (hEP : base64UrlEncode payload.stringify = some ep)
    (hA : getAlg header = some alg) (hN : strictEq alg (js "none") = false)
    (hD : getHMACAlgo alg = none ∨ trim st.editSecret = []) :
    (updateJWTFromEdits hmac st).jwtInput = (eh ++ 46 :: ep) ++ 46 :: st.savedSignature ∧
      (updateJWTFromEdits hmac st).savedSignature = st.savedSignature := by
  obtain ⟨h1, h2, _⟩ := updateJWTFromEdits_token hmac st header payload eh ep alg hH hP hEH hEP hA
  refine ⟨?_, h2⟩
  rw [h1]
  simp only [finalJWTOf, hN, Bool.false_eq_true, if_false]
  rcases hD with hD | hD
  · simp only [hD]
  · cases hg : getHMACAlgo alg with
    | none => rfl
    | some f => simp only [hD, ne_eq, not_true_eq_false, if_false]

/-- C7: when `header.alg` of the edited header is `"none"`, the token that
`updateJWTFromEdits` writes is `encodedHeader + "." + encodedPayload + "."`, with an
empty signature segment, whatever the payload, the secret and `savedSignature`
are: this case is decided before the keyed hash is looked up. -/
theorem C7_alg_none_rebuild (hmac : Hmac) (st : State) (header payload : JSON)
    (eh ep : JSString) (alg : Option JSON)
    (hH : JSON.parse (trim st.decodedHeader) = some header)
    (hP : JSON.parse (trim st.decodedPayload) = some payload)
    (hEH : base64UrlEncode header.stringify = some eh)
    (hEP : base64UrlEncode payload.stringify = some ep)
    (hA : getAlg header = some alg) (hN : strictEq alg (js "none") = true) :
    (updateJWTFromEdits hmac st).jwtInput = (eh ++ 46 :: ep) ++ [46] ∧
      split 46 (updateJWTFromEdits hmac st).jwtInput = [eh, ep, []] := by
  have h1 := (updateJWTFromEdits_token hmac st header payload eh ep alg hH hP hEH hEP hA).1
  have hjwt : (updateJWTFromEdits hmac st).jwtInput = (eh ++ 46 :: ep) ++ [46] := by
    rw [h1]; simp only [finalJWTOf, hN, if_true]
  refine ⟨hjwt, ?_⟩
  have heh : ∀ c ∈ eh, c ≠ 46 := by
    by_cases hl : ∀ c ∈ header.stringify, c ≤ 255
    · rw [base64UrlEncode_eq _ hl] at hEH
      simp only [Option.some.injEq] at hEH
      rw [← hEH]; exact urlBody_nodot _
    · rw [base64UrlEncode_none _ hl] at hEH; simp at hEH
  have hep : ∀ c ∈ ep, c ≠ 46 := by
    by_cases hl : ∀ c ∈ payload.stringify, c ≤ 255
    · rw [base64UrlEncode_eq _ hl] at hEP
      simp only [Option.some.injEq] at hEP
      rw [← hEP]; exact urlBody_nodot _
    · rw [base64UrlEncode_none _ hl] at hEP; simp at hEP
  rw [hjwt, List.append_assoc, List.cons_append]
  exact split_three eh ep [] heh hep (by simp)

/-- C5, instance: the demo session with the payload edited to `{"user":"root"}` and
the secret `admin`; a session that differs in everything but the three fields gets the
same token. -/
theorem C5_witness :
    (updateJWTFromEdits toyHmac editedState).jwtInput =
        (js "eyJhbGciOiJIUzI1NiIsInR5cCI6IkpXVCJ9" ++ 46 :: js "eyJ1c2VyIjoicm9vdCJ9") ++
          46 :: urlBody (toyHmac .HmacSHA256
            (js "eyJhbGciOiJIUzI1NiIsInR5cCI6IkpXVCJ9" ++ 46 :: js "eyJ1c2VyIjoicm9vdCJ9")
            (trim editedState.editSecret)) ∧
      (updateJWTFromEdits toyHmac otherState).jwtInput =
        (updateJWTFromEdits toyHmac editedState).jwtInput :=
  C5_computed_signature toyHmac editedState otherState
    (.obj [(js "alg", .str (js "HS256")), (js "typ", .str (js "JWT"))])
    (.obj [(js "user", .str (js "root"))])
    (js "eyJhbGciOiJIUzI1NiIsInR5cCI6IkpXVCJ9") (js "eyJ1c2VyIjoicm9vdCJ9")
    (some (.str (js "HS256"))) .HmacSHA256 rfl rfl (by decide) (by decide) rfl (by decide)
    (by decide) (by decide) (by decide) (by decide)

/-- C6, instance: header edited to `{"alg":"RS256","typ":"JWT"}`, payload edited,
secret `admin`: the token ends in the signature of the demo token. -/
theorem C6_witness :
    (updateJWTFromEdits toyHmac rsaState).jwtInput =
        (js "eyJhbGciOiJSUzI1NiIsInR5cCI6IkpXVCJ9" ++ 46 :: js "eyJ1c2VyIjoicm9vdCJ9") ++
          46 :: rsaState.savedSignature ∧
      (updateJWTFromEdits toyHmac rsaState).savedSignature = rsaState.savedSignature :=
  C6_preserved_signature toyHmac rsaState
    (.obj [(js "alg", .str (js "RS256")), (js "typ", .str (js "JWT"))])
    (.obj [(js "user", .str (js "root"))])
    (js "eyJhbGciOiJSUzI1NiIsInR5cCI6IkpXVCJ9") (js "eyJ1c2VyIjoicm9vdCJ9")
    (some (.str (js "RS256"))) rfl rfl (by decide) (by decide) rfl (by decide)
    (Or.inl (by decide))

/-- C7, instance: header edited to `{"alg":"none"}` with the secret `admin` and a
non-empty saved signature. -/
theorem C7_witness :
    (updateJWTFromEdits toyHmac noneState).jwtInput =
        (js "eyJhbGciOiJub25lIn0" ++ 46 :: js "eyJ1c2VyIjoicm9vdCJ9") ++ [46] ∧
      split 46 (updateJWTFromEdits toyHmac noneState).jwtInput =
        [js "eyJhbGciOiJub25lIn0", js "eyJ1c2VyIjoicm9vdCJ9", []] :=
  C7_alg_none_rebuild toyHmac noneState (.obj [(js "alg", .str (js "none"))])
    (.obj [(js "user", .str (js "root"))]) (js "eyJhbGciOiJub25lIn0")
    (js "eyJ1c2VyIjoicm9vdCJ9") (some (.str (js "none"))) rfl rfl (by decide) (by decide) rfl
    (by decide)

/-- C3 (as amended): for every header text that is valid JSON with `alg` one of
HS256, HS384, HS512 and every payload text that is valid JSON, provided the compact
serialisations of both contain only code units up to 0xFF (so that `btoa` accepts
them), for every secret that is not empty (the trimmed content of `#editSecret`), in
a session whose status element is bound, `updateJWTFromEdits` writes the token
`encodedHeader.encodedPayload.sig` to `#jwtInput` and `#encodedResult`, the token
splits into exactly 3 parts, and `liveVerify` reports "Signature valid" for it. -/
theorem C3_rebuild_then_verify (hmac : Hmac) (st : State) (header payload : JSON)
    (alg : Option JSON) (f : HmacAlgo) (hB : st.verificationStatus = true)
    (hH : JSON.parse (trim st.decodedHeader) = some header)
    (hP : JSON.parse (trim st.decodedPayload) = some payload)
    (hA : getAlg header = some alg) (hF : getHMACAlgo alg = some f)
    (hLH : ∀ c ∈ header.stringify, c ≤ 255) (hLP : ∀ c ∈ payload.stringify, c ≤ 255)
    (hS : trim st.editSecret ≠ []) :
    (updateJWTFromEdits hmac st).verifyStatus = msgSigValid ∧
      (updateJWTFromEdits hmac st).jwtInput =
        urlBody header.stringify ++ 46 :: (urlBody payload.stringify ++
          46 :: urlBody (hmac f (urlBody header.stringify ++ 46 :: urlBody payload.stringify)
            (trim st.editSecret))) ∧
      (updateJWTFromEdits hmac st).encodedResult = (updateJWTFromEdits hmac st).jwtInput ∧
      (split 46 (updateJWTFromEdits hmac st).jwtInput).length = 3 := by
  have hEH := base64UrlEncode_eq _ hLH
  have hEP := base64UrlEncode_eq _ hLP
  have hN := strictEq_none_of_getHMACAlgo alg f hF
  have htok : finalJWTOf hmac st (urlBody header.stringify) (urlBody payload.stringify) alg =
      urlBody header.stringify ++ 46 :: (urlBody payload.stringify ++
        46 :: hmacSignature hmac f (urlBody header.stringify ++ 46 :: urlBody payload.stringify)
          (trim st.editSecret)) := by
    simp only [finalJWTOf, hN, Bool.false_eq_true, if_false, hF, hS, ne_eq, not_false_eq_true,
      if_true, List.append_assoc, List.cons_append]
  have hsplit := split_three (urlBody header.stringify) (urlBody payload.stringify)
    (hmacSignature hmac f (urlBody header.stringify ++ 46 :: urlBody payload.stringify)
      (trim st.editSecret)) (urlBody_nodot _) (urlBody_nodot _) (hmacSignature_nodot _ _ _ _)
  rw [← htok] at hsplit
  have hlv := liveVerify_decoded hmac
    { st with currentAlg := alg,
              jwtInput := finalJWTOf hmac st (urlBody header.stringify)
                (urlBody payload.stringify) alg,
              encodedResult := finalJWTOf hmac st (urlBody header.stringify)
                (urlBody payload.stringify) alg }
    _ _ _ _ _ header alg hsplit (atob_std_urlBody _ hLH)
    (JSON.parse_stringify_parse _ header hH) hA
  simp only [hN, Bool.false_eq_true, if_false, hF, hS, if_true, writeStatus] at hlv
  rw [if_pos hB] at hlv
  rw [updateJWTFromEdits_eq hmac st header payload _ _ alg hH hP hEH hEP hA, hlv]
  refine ⟨rfl, ?_, rfl, ?_⟩
  · show finalJWTOf hmac st (urlBody header.stringify) (urlBody payload.stringify) alg = _
    rw [htok, hmacSignature_eq]
  · show (split 46 (finalJWTOf hmac st (urlBody header.stringify)
      (urlBody payload.stringify) alg)).length = 3
    rw [hsplit]; rfl

/-- C3, instance: header `{"alg":"HS256","typ":"JWT"}`, payload `{"user":"root"}`,
secret `admin`, in the demo session. -/
theorem C3_witness :
    (updateJWTFromEdits toyHmac editedState).verifyStatus = msgSigValid ∧
      (updateJWTFromEdits toyHmac editedState).jwtInput =
        urlBody (js "\x7b\"alg\":\"HS256\",\"typ\":\"JWT\"\x7d") ++
          46 :: (urlBody (js "\x7b\"user\":\"root\"\x7d") ++
          46 :: urlBody (toyHmac .HmacSHA256
            (urlBody (js "\x7b\"alg\":\"HS256\",\"typ\":\"JWT\"\x7d") ++
              46 :: urlBody (js "\x7b\"user\":\"root\"\x7d"))
            (trim editedState.editSecret))) ∧
      (updateJWTFromEdits toyHmac editedState).encodedResult =
        (updateJWTFromEdits toyHmac editedState).jwtInput ∧
      (split 46 (updateJWTFromEdits toyHmac editedState).jwtInput).length = 3 :=
  C3_rebuild_then_verify toyHmac editedState
    (.obj [(js "alg", .str (js "HS256")), (js "typ", .str (js "JWT"))])
    (.obj [(js "user", .str (js "root"))]) (some (.str (js "HS256"))) .HmacSHA256
    (by decide) rfl rfl rfl (by decide) (by decide) (by decide) (by decide)

/-- C3 as stated fails: with the header text `{"alg":"HS256","typ":"JWT"}`, the
payload text `{"user":"Ω"}` (both valid JSON) and the secret `admin`,
`updateJWTFromEdits` writes no token: `btoa` throws on the payload, the output
shows "Invalid JSON.", the token field and the status text stay as they were, and
nothing is reported valid. The keyed hash is never called on this path. -/
theorem C3_counterexample :
    (JSON.parse (trim omegaState.decodedHeader)).isSome = true ∧
    (JSON.parse (trim omegaState.decodedPayload)).isSome = true ∧
    ((JSON.parse (trim omegaState.decodedHeader)).bind getAlg).map getHMACAlgo =
      some (some .HmacSHA256) ∧
    trim omegaState.editSecret ≠ [] ∧
    omegaState.verificationStatus = true ∧
    (updateJWTFromEdits toyHmac omegaState).encodedResult = msgInvalidJsonOut ∧
    (updateJWTFromEdits toyHmac omegaState).jwtInput = omegaState.jwtInput ∧
    (updateJWTFromEdits toyHmac omegaState).verifyStatus = omegaState.verifyStatus ∧
    (updateJWTFromEdits toyHmac omegaState).verifyStatus ≠ msgSigValid := by
  decide

theorem liveVerify_msg_not_error (msg : JSString)
    (h : msg = msgValidNone ∨ msg = msgCannotVerify ∨ msg = msgNeedSecret ∨ msg = msgSigValid ∨
      msg = msgSigInvalid) :
    msg ≠ msgInvalidFormat ∧ msg ≠ msgBase64Error ∧ msg ≠ msgInvalidJson := by
  rcases h with h | h | h | h | h <;> subst h <;> decide

theorem urlBody_head (s : List Nat) (h : s ≠ []) :
    ∃ c r, urlBody s = c :: r ∧ isUrlChar c := by
  have hne := urlBody_ne_nil s h
  cases hb : urlBody s with
  | nil => exact absurd hb hne
  | cons c r => exact ⟨c, r, rfl, urlBody_isUrlChar s c (by rw [hb]; simp)⟩

/-- The built token is not changed by `trim`. -/
theorem trim_token (a b sig : JSString) (c : Nat) (r : JSString) (ha : a = c :: r)
    (hc : isTrimSpace c = false) (hws : ∀ x, sig.getLast? = some x → isTrimSpace x = false) :
    trim (a ++ 46 :: (b ++ 46 :: sig)) = a ++ 46 :: (b ++ 46 :: sig) := by
  apply trim_eq_self
  · intro x hx
    rw [ha] at hx
    simp only [List.cons_append, List.head?_cons, Option.some.injEq] at hx
    rw [← hx]; exact hc
  · intro x hx
    rcases List.eq_nil_or_concat sig with hs | ⟨init, z, hs⟩
    · subst hs
      have : a ++ 46 :: (b ++ [46]) = (a ++ 46 :: b) ++ [46] := by simp
      rw [this, List.getLast?_concat] at hx
      simp only [Option.some.injEq] at hx
      rw [← hx]; decide
    · rw [List.concat_eq_append] at hs
      subst hs
      have : a ++ 46 :: (b ++ 46 :: (init ++ [z])) = (a ++ 46 :: (b ++ 46 :: init)) ++ [z] := by
        simp
      rw [this, List.getLast?_concat] at hx
      simp only [Option.some.injEq] at hx
      rw [← hx]
      exact hws z (List.getLast?_concat init)

/-- C1 (as amended): for every JSON-serialisable header other than `null` and every
JSON-serialisable payload whose compact serialisations contain only code units up to
0xFF, and every signature segment `sig` that contains no `.` and does not end in
white space that `trim` strips, the token
`base64UrlEncode(JSON.stringify(header)) + "." + base64UrlEncode(JSON.stringify(payload)) + "." + sig`
can be built, and `autoDecodeJWT` on it succeeds: the header and payload fields show
exactly that header and that payload (as `JSON.stringify(_, null, 2)` prints them),
`savedSignature` is `sig`, and the status is none of the three error texts. -/
theorem C1_token_round_trip (hmac : Hmac) (st : State) (header payload : JSON)
    (sig : JSString) (alg : Option JSON) (hWH : header.WF = true) (hWP : payload.WF = true)
    (hLH : ∀ c ∈ header.stringify, c ≤ 255) (hLP : ∀ c ∈ payload.stringify, c ≤ 255)
    (hA : getAlg header = some alg) (hdot : ∀ c ∈ sig, c ≠ 46)
    (hws : ∀ c, sig.getLast? = some c → isTrimSpace c = false) :
    ∃ token, buildToken header payload sig = some token ∧
      (autoDecodeJWT hmac { st with jwtInput := token }).decodedHeader =
        header.stringifyIndented 0 ∧
      (autoDecodeJWT hmac { st with jwtInput := token }).decodedPayload =
        payload.stringifyIndented 0 ∧
      (autoDecodeJWT hmac { st with jwtInput := token }).savedSignature = sig ∧
      (autoDecodeJWT hmac { st with jwtInput := token }).verifyStatus ≠ msgInvalidFormat ∧
      (autoDecodeJWT hmac { st with jwtInput := token }).verifyStatus ≠ msgBase64Error ∧
      (autoDecodeJWT hmac { st with jwtInput := token }).verifyStatus ≠ msgInvalidJson := by
  have hEH := base64UrlEncode_eq _ hLH
  have hEP := base64UrlEncode_eq _ hLP
  have hneH := stringify_ne_nil header hWH
  have hneP := stringify_ne_nil payload hWP
  obtain ⟨c, r, hcr, hc⟩ := urlBody_head header.stringify hneH
  have htrim := trim_token (urlBody header.stringify) (urlBody payload.stringify) sig c r hcr
    (isUrlChar_not_trimSpace hc) hws
  have hsplit := split_three (urlBody header.stringify) (urlBody payload.stringify) sig
    (urlBody_nodot _) (urlBody_nodot _) hdot
  refine ⟨urlBody header.stringify ++ 46 :: (urlBody payload.stringify ++ 46 :: sig), ?_, ?_⟩
  · simp only [buildToken, hEH, hEP]
  · have hdec := autoDecodeJWT_decoded hmac
      { st with jwtInput := urlBody header.stringify ++ 46 :: (urlBody payload.stringify ++ 46 :: sig) }
      (urlBody header.stringify) (urlBody payload.stringify) sig header.stringify
      payload.stringify header payload alg (by rw [htrim]; exact hsplit)
      (base64UrlDecode_urlBody _ hLH) (base64UrlDecode_urlBody _ hLP) hneH hneP
      (JSON.parse_stringify header hWH) (JSON.parse_stringify payload hWP) hA
    obtain ⟨msg, hlv, hmsg⟩ := liveVerify_bound_decoded hmac
      { st with jwtInput := urlBody header.stringify ++ 46 :: (urlBody payload.stringify ++ 46 :: sig),
                verificationStatus := true, savedSignature := sig,
                decodedHeader := header.stringifyIndented 0,
                decodedPayload := payload.stringifyIndented 0,
                currentAlg := some (orEmpty alg) }
      (urlBody header.stringify ++ 46 :: (urlBody payload.stringify ++ 46 :: sig))
      (urlBody header.stringify) (urlBody payload.stringify) sig header.stringify header alg rfl
      hsplit (atob_std_urlBody _ hLH) (JSON.parse_stringify header hWH) hA
    rw [htrim] at hdec
    rw [hdec, hlv]
    exact ⟨rfl, rfl, rfl, liveVerify_msg_not_error msg hmsg⟩

/-- C1, instance: header `{"alg":"none"}`, payload `{}`, signature segment `c2ln`. -/
theorem C1_witness :
    ∃ token, buildToken (.obj [(js "alg", .str (js "none"))]) (.obj []) (js "c2ln") = some token ∧
      (autoDecodeJWT toyHmac { initialState with jwtInput := token }).decodedHeader =
        (JSON.obj [(js "alg", .str (js "none"))]).stringifyIndented 0 ∧
      (autoDecodeJWT toyHmac { initialState with jwtInput := token }).decodedPayload =
        (JSON.obj []).stringifyIndented 0 ∧
      (autoDecodeJWT toyHmac { initialState with jwtInput := token }).savedSignature = js "c2ln" ∧
      (autoDecodeJWT toyHmac { initialState with jwtInput := token }).verifyStatus ≠
        msgInvalidFormat ∧
      (autoDecodeJWT toyHmac { initialState with jwtInput := token }).verifyStatus ≠
        msgBase64Error ∧
      (autoDecodeJWT toyHmac { initialState with jwtInput := token }).verifyStatus ≠
        msgInvalidJson :=
  C1_token_round_trip toyHmac initialState (.obj [(js "alg", .str (js "none"))]) (.obj [])
    (js "c2ln") (some (.str (js "none"))) (by decide) (by decide) (by decide) (by decide) rfl
    (by decide) (by decide)

/-- C1 as stated fails, on four inputs. (1) The header `null` is JSON-serialisable;
its token `bnVsbA.e30.c2ln` is built, but `headerObj.alg` throws and the status is
"Invalid JSON in header/payload". (2) With the signature segment `a.b` the token
has four parts: the status is "Invalid JWT format", the fields are cleared and
`savedSignature` is not set. (3) With the signature segment `c2ln` followed by a
space, `trim` drops the space and `savedSignature` is `c2ln`. (4) With the payload
`{"user":"Ω"}` no token is built, since `btoa` throws. -/
theorem C1_counterexample :
    (JSON.null.WF = true ∧
      buildToken .null (.obj []) (js "c2ln") = some (js "bnVsbA.e30.c2ln") ∧
      (autoDecodeJWT toyHmac { initialState with jwtInput := js "bnVsbA.e30.c2ln" }).verifyStatus
        = msgInvalidJson) ∧
    (buildToken (.obj [(js "alg", .str (js "none"))]) (.obj []) (js "a.b") =
        some (js "eyJhbGciOiJub25lIn0.e30.a.b") ∧
      (autoDecodeJWT toyHmac
        { initialState with jwtInput := js "eyJhbGciOiJub25lIn0.e30.a.b" }).verifyStatus
        = msgInvalidFormat ∧
      (autoDecodeJWT toyHmac
        { initialState with jwtInput := js "eyJhbGciOiJub25lIn0.e30.a.b" }).decodedHeader = [] ∧
      (autoDecodeJWT toyHmac
        { initialState with jwtInput := js "eyJhbGciOiJub25lIn0.e30.a.b" }).savedSignature
        ≠ js "a.b") ∧
    (buildToken (.obj [(js "alg", .str (js "none"))]) (.obj []) (js "c2ln ") =
        some (js "eyJhbGciOiJub25lIn0.e30.c2ln ") ∧
      (autoDecodeJWT toyHmac
        { initialState with jwtInput := js "eyJhbGciOiJub25lIn0.e30.c2ln " }).savedSignature
        = js "c2ln") ∧
    ((JSON.obj [(js "user", .str (js "Ω"))]).WF = true ∧
      buildToken (.obj [(js "alg", .str (js "none"))]) (.obj [(js "user", .str (js "Ω"))])
        (js "c2ln") = none) := by
  decide

/-! ## Segment counts, and what the operations leave unchanged -/

/-- The number of parts of `split` is the number of separators plus one. -/
theorem split_length (sep : Nat) (s : JSString) : (split sep s).length = s.count sep + 1 := by
  induction s with
  | nil => rfl
  | cons c t ih =>
    by_cases h : c = sep
    · subst h
      simp [split, ih]
    · have hne : ¬ (c == sep) = true := by simpa using h
      simp only [split, h, if_false, List.count_cons, hne]
      cases hs : split sep t with
      | nil => exact absurd hs (split_ne_nil sep t)
      | cons p ps =>
        rw [hs] at ih
        simpa using ih

theorem count_dropWhile (p : Nat → Bool) (a : Nat) (l : List Nat) (h : p a = false) :
    (l.dropWhile p).count a = l.count a := by
  induction l with
  | nil => rfl
  | cons c t ih =>
    by_cases hc : p c = true
    · have hne : ¬ (c == a) = true := by
        intro e
        have : c = a := by simpa using e
        rw [this, h] at hc
        exact absurd hc (by simp)
      simp only [List.dropWhile_cons, hc, if_true, ih, List.count_cons, hne, if_false]
      simp
    · simp only [List.dropWhile_cons, hc, if_false]
      simp

/-- Trimming removes no dot, so it does not change the number of segments. -/
theorem split_length_trim (s : JSString) :
    (split 46 (trim s)).length = (split 46 s).length := by
  rw [split_length, split_length]
  unfold trim
  rw [List.count_reverse, count_dropWhile _ 46 _ (by decide), List.count_reverse,
    count_dropWhile _ 46 _ (by decide)]

theorem report_bound (st : State) (msg : JSString) (h : st.verificationStatus = true) :
    report st msg = { st with verifyStatus := msg } := by
  simp [report, h]

/-- The result of `autoDecodeJWT` on an input with a wrong number of segments. -/
theorem autoDecodeJWT_wrong_count (hmac : Hmac) (st : State)
    (h : (split 46 (trim st.jwtInput)).length ≠ 3) :
    autoDecodeJWT hmac st =
      { st with verificationStatus := true, decodedHeader := [], decodedPayload := [],
                verifyStatus := msgInvalidFormat } := by
  simp [autoDecodeJWT, h, report]

/-- The result of `autoDecodeJWT` on an input of three segments of which the header or
the payload segment does not decode to a non-empty text. -/
theorem autoDecodeJWT_decode_error (hmac : Hmac) (st : State) (p0 p1 p2 : JSString)
    (hsplit : split 46 (trim st.jwtInput) = [p0, p1, p2])
    (h : falsy (base64UrlDecode p0) = true ∨ falsy (base64UrlDecode p1) = true) :
    autoDecodeJWT hmac st =
      { st with verificationStatus := true, savedSignature := p2,
                verifyStatus := msgBase64Error } := by
  have hor : (falsy (base64UrlDecode p0) || falsy (base64UrlDecode p1)) = true := by
    rcases h with h | h <;> simp [h]
  simp [autoDecodeJWT, hsplit, hor, report]

/-- The result of `autoDecodeJWT` on an input of three segments that decode, of which
the header or the payload text is not JSON. -/
theorem autoDecodeJWT_json_error (hmac : Hmac) (st : State) (p0 p1 p2 hs ps : JSString)
    (hsplit : split 46 (trim st.jwtInput) = [p0, p1, p2])
    (h0 : base64UrlDecode p0 = some hs) (h1 : base64UrlDecode p1 = some ps)
    (hne0 : hs ≠ []) (hne1 : ps ≠ [])
    (h : JSON.parse hs = none ∨ JSON.parse ps = none) :
    autoDecodeJWT hmac st =
      { st with verificationStatus := true, savedSignature := p2,
                verifyStatus := msgInvalidJson } := by
  have f0 : falsy (some hs) = false := by
    cases hs with
    | nil => exact absurd rfl hne0
    | cons c t => rfl
  have f1 : falsy (some ps) = false := by
    cases ps with
    | nil => exact absurd rfl hne1
    | cons c t => rfl
  rcases h with h | h
  · simp [autoDecodeJWT, hsplit, h0, h1, f0, f1, h, report]
  · cases hH : JSON.parse hs with
    | none => simp [autoDecodeJWT, hsplit, h0, h1, f0, f1, hH, report]
    | some header => simp [autoDecodeJWT, hsplit, h0, h1, f0, f1, hH, h, report]

/-- The result of `autoDecodeJWT` on an input of three segments that decode to JSON
texts, when reading `alg` off the header throws (the header is `null`). -/
theorem autoDecodeJWT_alg_error (hmac : Hmac) (st : State) (p0 p1 p2 hs ps : JSString)
    (header payload : JSON)
    (hsplit : split 46 (trim st.jwtInput) = [p0, p1, p2])
    (h0 : base64UrlDecode p0 = some hs) (h1 : base64UrlDecode p1 = some ps)
    (hne0 : hs ≠ []) (hne1 : ps ≠ [])
    (hH : JSON.parse hs = some header) (hP : JSON.parse ps = some payload)
    (hA : getAlg header = none) :
    autoDecodeJWT hmac st =
      { st with verificationStatus := true, savedSignature := p2,
                decodedHeader := header.stringifyIndented 0,
                decodedPayload := payload.stringifyIndented 0,
                verifyStatus := msgInvalidJson } := by
  have f0 : falsy (some hs) = false := by
    cases hs with
    | nil => exact absurd rfl hne0
    | cons c t => rfl
  have f1 : falsy (some ps) = false := by
    cases ps with
    | nil => exact absurd rfl hne1
    | cons c t => rfl
  simp [autoDecodeJWT, hsplit, h0, h1, f0, f1, hH, hP, hA, report]

theorem falsy_eq_false (s : Option JSString) (h : falsy s = false) :
    ∃ t, s = some t ∧ t ≠ [] := by
  cases s with
  | none => simp [falsy] at h
  | some t =>
    cases t with
    | nil => simp [falsy] at h
    | cons c r => exact ⟨c :: r, rfl, by simp⟩

theorem length_eq_three {α : Type} (l : List α) (h : l.length = 3) :
    ∃ a b c, l = [a, b, c] := by
  match l, h with
  | [a, b, c], _ => exact ⟨a, b, c, rfl⟩

/-- Whatever the input, `autoDecodeJWT` binds the status element, stores the third
segment when there are three, and otherwise touches only the two decoded fields,
`currentAlg` and the status text. -/
theorem autoDecodeJWT_frame (hmac : Hmac) (st : State) :
    ∃ h p a v, autoDecodeJWT hmac st =
      { st with verificationStatus := true,
                savedSignature :=
                  if (split 46 (trim st.jwtInput)).length = 3 then
                    (split 46 (trim st.jwtInput)).getD 2 []
                  else st.savedSignature,
                decodedHeader := h, decodedPayload := p, currentAlg := a,
                verifyStatus := v } := by
  by_cases hlen : (split 46 (trim st.jwtInput)).length = 3
  · obtain ⟨p0, p1, p2, hsplit⟩ := length_eq_three _ hlen
    rw [if_pos hlen, hsplit]
    show ∃ h p a v, autoDecodeJWT hmac st =
      { st with verificationStatus := true, savedSignature := p2, decodedHeader := h,
                decodedPayload := p, currentAlg := a, verifyStatus := v }
    cases hf0 : falsy (base64UrlDecode p0) with
    | true =>
      rw [autoDecodeJWT_decode_error hmac st p0 p1 p2 hsplit (Or.inl hf0)]
      exact ⟨_, _, _, _, rfl⟩
    | false =>
      cases hf1 : falsy (base64UrlDecode p1) with
      | true =>
        rw [autoDecodeJWT_decode_error hmac st p0 p1 p2 hsplit (Or.inr hf1)]
        exact ⟨_, _, _, _, rfl⟩
      | false =>
        obtain ⟨hs, h0, hne0⟩ := falsy_eq_false _ hf0
        obtain ⟨ps, h1, hne1⟩ := falsy_eq_false _ hf1
        cases hH : JSON.parse hs with
        | none =>
          rw [autoDecodeJWT_json_error hmac st p0 p1 p2 hs ps hsplit h0 h1 hne0 hne1 (Or.inl hH)]
          exact ⟨_, _, _, _, rfl⟩
        | some header =>
          cases hP : JSON.parse ps with
          | none =>
            rw [autoDecodeJWT_json_error hmac st p0 p1 p2 hs ps hsplit h0 h1 hne0 hne1
              (Or.inr hP)]
            exact ⟨_, _, _, _, rfl⟩
          | some payload =>
            cases hA : getAlg header with
            | none =>
              rw [autoDecodeJWT_alg_error hmac st p0 p1 p2 hs ps header payload hsplit h0 h1
                hne0 hne1 hH hP hA]
              exact ⟨_, _, _, _, rfl⟩
            | some alg =>
              rw [autoDecodeJWT_decoded hmac st p0 p1 p2 hs ps header payload alg hsplit h0 h1
                hne0 hne1 hH hP hA]
              split
              · exact ⟨_, _, _, _, report_bound _ _ rfl⟩
              · rename_i st5 h5
                obtain ⟨msg, rfl⟩ := liveVerify_frame _ _ _ _ h5
                exact ⟨_, _, _, _, rfl⟩
  · rw [autoDecodeJWT_wrong_count hmac st hlen, if_neg hlen]
    exact ⟨_, _, _, _, rfl⟩

/-- Whatever the texts, `updateJWTFromEdits` touches only `currentAlg`, the token
field, the output and the status text. -/
theorem updateJWTFromEdits_frame (hmac : Hmac) (st : State) :
    ∃ a j e v, updateJWTFromEdits hmac st =
      { st with currentAlg := a, jwtInput := j, encodedResult := e, verifyStatus := v } := by
  unfold updateJWTFromEdits
  simp only []
  split
  · exact ⟨_, _, _, _, rfl⟩
  · split
    · exact ⟨_, _, _, _, rfl⟩
    · split
      · exact ⟨_, _, _, _, rfl⟩
      · split
        · exact ⟨_, _, _, _, rfl⟩
        · split
          · exact ⟨_, _, _, _, rfl⟩
          · split
            · exact ⟨_, _, _, _, rfl⟩
            · rename_i st3 h3
              obtain ⟨msg, rfl⟩ := liveVerify_frame _ _ _ _ h3
              exact ⟨_, _, _, _, rfl⟩

/-- Either `updateJWTFromEdits` stops before it writes a token, and then only the
output changes, or both texts have parsed, both segments have been encoded and
`header.alg` has been read. -/
theorem updateJWTFromEdits_cases (hmac : Hmac) (st : State) :
    updateJWTFromEdits hmac st = { st with encodedResult := msgInvalidJsonOut } ∨
    ∃ header payload eh ep alg,
      JSON.parse (trim st.decodedHeader) = some header ∧
      JSON.parse (trim st.decodedPayload) = some payload ∧
      base64UrlEncode header.stringify = some eh ∧
      base64UrlEncode payload.stringify = some ep ∧
      getAlg header = some alg := by
  rcases Option.eq_none_or_eq_some (JSON.parse (trim st.decodedHeader)) with hH | ⟨header, hH⟩
  · exact Or.inl (by simp only [updateJWTFromEdits, hH])
  rcases Option.eq_none_or_eq_some (JSON.parse (trim st.decodedPayload)) with hP | ⟨payload, hP⟩
  · exact Or.inl (by simp only [updateJWTFromEdits, hH, hP])
  rcases Option.eq_none_or_eq_some (base64UrlEncode header.stringify) with hEH | ⟨eh, hEH⟩
  · exact Or.inl (by simp only [updateJWTFromEdits, hH, hP, hEH])
  rcases Option.eq_none_or_eq_some (base64UrlEncode payload.stringify) with hEP | ⟨ep, hEP⟩
  · exact Or.inl (by simp only [updateJWTFromEdits, hH, hP, hEH, hEP])
  rcases Option.eq_none_or_eq_some (getAlg header) with hA | ⟨alg, hA⟩
  · exact Or.inl (by simp only [updateJWTFromEdits, hH, hP, hEH, hEP, hA])
  exact Or.inr ⟨header, payload, eh, ep, alg, hH, hP, hEH, hEP, hA⟩

theorem base64UrlEncode_nodot (s e : JSString) (h : base64UrlEncode s = some e) :
    ∀ c ∈ e, c ≠ 46 := by
  have hs : ∀ c ∈ s, c ≤ 255 := by
    by_contra hn
    rw [base64UrlEncode_none s hn] at h
    exact absurd h (by simp)
  rw [base64UrlEncode_eq s hs] at h
  rw [← Option.some.inj h]
  exact urlBody_nodot s

/-- The token that `updateJWTFromEdits` assembles is the two encoded segments and a
signature segment, which has no dot when `savedSignature` has none. -/
theorem finalJWTOf_segments (hmac : Hmac) (st : State) (eh ep : JSString) (alg : Option JSON)
    (hs : ∀ c ∈ st.savedSignature, c ≠ 46) :
    ∃ sig, finalJWTOf hmac st eh ep alg = eh ++ 46 :: (ep ++ 46 :: sig) ∧
      ∀ c ∈ sig, c ≠ 46 := by
  unfold finalJWTOf
  by_cases h1 : strictEq alg (js "none") = true
  · rw [if_pos h1]
    exact ⟨[], by simp, by simp⟩
  · rw [if_neg h1]
    cases hg : getHMACAlgo alg with
    | none => exact ⟨st.savedSignature, by simp, hs⟩
    | some f =>
      by_cases h2 : trim st.editSecret = []
      · exact ⟨st.savedSignature, by simp [h2], hs⟩
      · exact ⟨hmacSignature hmac f (eh ++ 46 :: ep) (trim st.editSecret), by simp [h2],
          hmacSignature_nodot hmac f _ _⟩

theorem getD_split_nodot (s : JSString) (i : Nat) : ∀ c ∈ (split 46 s).getD i [], c ≠ 46 := by
  intro c hc
  by_cases hi : i < (split 46 s).length
  · rw [List.getD_eq_getElem _ _ hi] at hc
    exact split_parts_nosep 46 s _ (List.getElem_mem hi) c hc
  · rw [List.getD_eq_default _ _ (by omega)] at hc
    simp at hc

/-- The function `autoDecodeJWT` keeps `savedSignature` free of dots. -/
theorem autoDecodeJWT_nodot (hmac : Hmac) (st : State) (h : ∀ c ∈ st.savedSignature, c ≠ 46) :
    ∀ c ∈ (autoDecodeJWT hmac st).savedSignature, c ≠ 46 := by
  obtain ⟨hd, pl, a, v, heq⟩ := autoDecodeJWT_frame hmac st
  rw [heq]
  dsimp only
  split_ifs
  · exact getD_split_nodot _ 2
  · exact h

/-- Every listener keeps `savedSignature` free of dots. -/
theorem step_savedSignature_nodot (hmac : Hmac) (st : State) (ev : Event)
    (h : ∀ c ∈ st.savedSignature, c ≠ 46) : ∀ c ∈ (step hmac st ev).savedSignature, c ≠ 46 := by
  cases ev with
  | jwtInput value => exact autoDecodeJWT_nodot hmac { st with jwtInput := value } h
  | headerInput value => exact h
  | payloadInput value => exact h
  | secretInput value => exact h
  | mouseEnter =>
    show ∀ c ∈ (triggerUpdateOnMouseEnter hmac st).savedSignature, c ≠ 46
    unfold triggerUpdateOnMouseEnter
    split_ifs
    · obtain ⟨a, j, e, v, heq⟩ := updateJWTFromEdits_frame hmac st
      rw [heq]
      exact h
    · exact h
  | loadDemo =>
    exact autoDecodeJWT_nodot hmac
      { st with jwtInput := demoJWT, editSecret := js "admin",
                savedSignature := (split 46 demoJWT).getD 2 [] }
      (getD_split_nodot demoJWT 2)

theorem foldl_step_nodot (hmac : Hmac) (events : List Event) (st : State)
    (h : ∀ c ∈ st.savedSignature, c ≠ 46) :
    ∀ c ∈ (events.foldl (step hmac) st).savedSignature, c ≠ 46 := by
  induction events generalizing st with
  | nil => exact h
  | cons ev rest ih => exact ih _ (step_savedSignature_nodot hmac st ev h)

/-- In every state that a sequence of events reaches from the initial state,
`savedSignature` has no dot. -/
theorem run_savedSignature_nodot (hmac : Hmac) (events : List Event) :
    ∀ c ∈ (run hmac events).savedSignature, c ≠ 46 :=
  foldl_step_nodot hmac events initialState (by simp [initialState])

/-- What `updateJWTFromEdits` does is independent of the previous output text. -/
theorem updateJWTFromEdits_output (hmac : Hmac) (st : State) (text : JSString) :
    updateJWTFromEdits hmac { st with encodedResult := text } = updateJWTFromEdits hmac st := by
  rfl

/-! ## The claims on decoding, rebuilding and the session -/

/-- C11: for every content of `#jwtInput` whose split on `.` does not give exactly
three segments, `autoDecodeJWT` reports "Invalid JWT format", empties the header and
payload fields, and leaves `savedSignature`, `currentAlg` and everything else but the
binding of the status element as it was. Trimming does not change the number of
segments, so the count may be taken before or after it. -/
theorem C11_wrong_segment_count (hmac : Hmac) (st : State)
    (h : (split 46 st.jwtInput).length ≠ 3) :
    (split 46 (trim st.jwtInput)).length = (split 46 st.jwtInput).length ∧
    autoDecodeJWT hmac st =
      { st with verificationStatus := true, decodedHeader := [], decodedPayload := [],
                verifyStatus := msgInvalidFormat } :=
  ⟨split_length_trim st.jwtInput,
   autoDecodeJWT_wrong_count hmac st (by rw [split_length_trim]; exact h)⟩

/-- C11, instance: `abc.def` pasted into the demo session. The two fields, which held
the decoded demo token, are emptied; `savedSignature` still is the demo signature. -/
theorem C11_witness :
    (split 46 (pastedState (js "abc.def")).jwtInput).length = 2 ∧
    (pastedState (js "abc.def")).decodedHeader ≠ [] ∧
    autoDecodeJWT toyHmac (pastedState (js "abc.def")) =
      { pastedState (js "abc.def") with
          verificationStatus := true, decodedHeader := [], decodedPayload := [],
          verifyStatus := msgInvalidFormat } ∧
    (autoDecodeJWT toyHmac (pastedState (js "abc.def"))).savedSignature =
      js "qK7qEqLJHX_8JoECnKoMsMo8CtX3oywecGe0NSK5pCg" :=
  ⟨by decide, by decide,
   (C11_wrong_segment_count toyHmac (pastedState (js "abc.def")) (by decide)).2, by decide⟩

/-- C12: whenever the trimmed content of `#jwtInput` (the text that `autoDecodeJWT`
splits) has exactly three segments, `savedSignature` is the third segment after
`autoDecodeJWT`, on every path: also when a segment does not decode, when a text is
not JSON, and when `liveVerify` throws. -/
theorem C12_sticky_signature (hmac : Hmac) (st : State) (p0 p1 p2 : JSString)
    (h : split 46 (trim st.jwtInput) = [p0, p1, p2]) :
    (autoDecodeJWT hmac st).savedSignature = p2 := by
  obtain ⟨hd, pl, a, v, heq⟩ := autoDecodeJWT_frame hmac st
  rw [heq, h]
  rfl

/-- C12, instances: `a.b.c` (the header segment does not decode) and `YWJj.e30.c2ln`
(the header text `abc` is not JSON) pasted into the demo session: the status is an
error and `savedSignature` is the new third segment. -/
theorem C12_witness :
    ((autoDecodeJWT toyHmac (pastedState (js "a.b.c"))).savedSignature = js "c" ∧
      (autoDecodeJWT toyHmac (pastedState (js "a.b.c"))).verifyStatus = msgBase64Error) ∧
    ((autoDecodeJWT toyHmac (pastedState (js "YWJj.e30.c2ln"))).savedSignature = js "c2ln" ∧
      (autoDecodeJWT toyHmac (pastedState (js "YWJj.e30.c2ln"))).verifyStatus =
        msgInvalidJson) :=
  ⟨⟨C12_sticky_signature toyHmac (pastedState (js "a.b.c")) (js "a") (js "b") (js "c")
      (by decide), by decide⟩,
   ⟨C12_sticky_signature toyHmac (pastedState (js "YWJj.e30.c2ln")) (js "YWJj") (js "e30")
      (js "c2ln") (by decide), by decide⟩⟩

/-- C13: when the header text or the payload text (the trimmed field content that
`updateJWTFromEdits` parses) is not valid JSON, `updateJWTFromEdits` writes
"Invalid JSON." to the output and changes nothing else: the token field,
`savedSignature`, `currentAlg`, the fields and the status are as they were. The
session stays usable: once the fields are edited again, a rebuild does what it would
have done had the failed rebuild not happened. -/
theorem C13_atomic_json_error (hmac : Hmac) (st : State)
    (h : JSON.parse (trim st.decodedHeader) = none ∨
      JSON.parse (trim st.decodedPayload) = none) :
    updateJWTFromEdits hmac st = { st with encodedResult := msgInvalidJsonOut } ∧
    ∀ headerText payloadText secret : JSString,
      updateJWTFromEdits hmac
          (onSecretInput secret (onPayloadInput payloadText (onHeaderInput headerText
            (updateJWTFromEdits hmac st)))) =
        updateJWTFromEdits hmac
          (onSecretInput secret (onPayloadInput payloadText (onHeaderInput headerText st))) := by
  have hfail : updateJWTFromEdits hmac st = { st with encodedResult := msgInvalidJsonOut } := by
    rcases h with h | h
    · simp only [updateJWTFromEdits, h]
    · cases hH : JSON.parse (trim st.decodedHeader) with
      | none => simp only [updateJWTFromEdits, hH]
      | some header => simp only [updateJWTFromEdits, hH, h]
  refine ⟨hfail, ?_⟩
  intro headerText payloadText secret
  rw [hfail]
  exact updateJWTFromEdits_output hmac
    (onSecretInput secret (onPayloadInput payloadText (onHeaderInput headerText st)))
    msgInvalidJsonOut

/-- C13, instance: the demo session with the payload field edited to `{"user":`; the
rebuild fails and leaves the demo token in the token field. -/
theorem C13_witness :
    JSON.parse (trim (onPayloadInput (js "\x7b\"user\":") demoState).decodedPayload) = none ∧
    updateJWTFromEdits toyHmac (onPayloadInput (js "\x7b\"user\":") demoState) =
      { onPayloadInput (js "\x7b\"user\":") demoState with
          encodedResult := msgInvalidJsonOut } ∧
    (updateJWTFromEdits toyHmac (onPayloadInput (js "\x7b\"user\":") demoState)).jwtInput =
      demoJWT :=
  ⟨rfl,
   (C13_atomic_json_error toyHmac (onPayloadInput (js "\x7b\"user\":") demoState)
     (Or.inr rfl)).1,
   by decide⟩

/-- C15: whenever `base64UrlEncode` returns, its output contains no `+`, no `/`, no
`=` and no `.`. The text that `btoa` returned is a body without `=` followed by at
most two `=`; the output is that body with `+` and `/` replaced, the `=` stripped. -/
theorem C15_url_safe_alphabet (s e : JSString) (h : base64UrlEncode s = some e) :
    (∀ c ∈ e, c ≠ 43 ∧ c ≠ 47 ∧ c ≠ 61 ∧ c ≠ 46) ∧
    ∃ body k, btoa s = some (body ++ List.replicate k 61) ∧ k ≤ 2 ∧
      (∀ c ∈ body, c ≠ 61) ∧ e = replaceAll 47 95 (replaceAll 43 45 body) := by
  have hs : ∀ c ∈ s, c ≤ 255 := by
    by_contra hn
    rw [base64UrlEncode_none s hn] at h
    exact absurd h (by simp)
  rw [base64UrlEncode_eq s hs] at h
  have he : e = urlBody s := (Option.some.inj h).symm
  subst he
  constructor
  · intro c hc
    have := urlBody_isUrlChar s c hc
    unfold isUrlChar at this
    omega
  · refine ⟨(sextets s).map b64Char, padLen s, ?_, padLen_le s, ?_, ?_⟩
    · have hall : s.all (fun c => decide (c ≤ 255)) = true := by
        simpa [List.all_eq_true] using hs
      simp only [btoa, hall, if_true, base64Encode_eq]
    · intro c hc
      simp only [List.mem_map] at hc
      obtain ⟨v, _, rfl⟩ := hc
      have := b64Char_range v
      omega
    · rw [replaceAll_url]
      simp [urlBody]

/-- C15, instance: the one byte 251 has the base64 text `+w==`; the output is `-w`. -/
theorem C15_witness :
    btoa [251] = some (js "+w==") ∧ base64UrlEncode [251] = some (js "-w") ∧
    ((∀ c ∈ js "-w", c ≠ 43 ∧ c ≠ 47 ∧ c ≠ 61 ∧ c ≠ 46) ∧
      ∃ body k, btoa [251] = some (body ++ List.replicate k 61) ∧ k ≤ 2 ∧
        (∀ c ∈ body, c ≠ 61) ∧ js "-w" = replaceAll 47 95 (replaceAll 43 45 body)) :=
  ⟨by decide, by decide, C15_url_safe_alphabet [251] (js "-w") (by decide)⟩

/-- C16: `getHMACAlgo(alg)` returns `CryptoJS.HmacSHA256` exactly for the string
`"HS256"`, `CryptoJS.HmacSHA384` exactly for `"HS384"`, `CryptoJS.HmacSHA512` exactly
for `"HS512"`, and `null` for every other value: among them `"none"`, `"RS256"`,
`"ES256"`, `"hs256"`, the empty string and `undefined`. -/
theorem C16_algorithm_resolution (alg : Option JSON) :
    (getHMACAlgo alg = some .HmacSHA256 ↔ alg = some (.str (js "HS256"))) ∧
    (getHMACAlgo alg = some .HmacSHA384 ↔ alg = some (.str (js "HS384"))) ∧
    (getHMACAlgo alg = some .HmacSHA512 ↔ alg = some (.str (js "HS512"))) ∧
    (getHMACAlgo alg = none ↔
      (alg ≠ some (.str (js "HS256")) ∧ alg ≠ some (.str (js "HS384")) ∧
        alg ≠ some (.str (js "HS512")))) ∧
    getHMACAlgo (some (.str (js "none"))) = none ∧
    getHMACAlgo (some (.str (js "RS256"))) = none ∧
    getHMACAlgo (some (.str (js "ES256"))) = none ∧
    getHMACAlgo (some (.str (js "hs256"))) = none ∧
    getHMACAlgo (some (.str (js ""))) = none ∧
    getHMACAlgo none = none := by
  have h1 : js "HS256" ≠ js "HS384" := by decide
  have h2 : js "HS256" ≠ js "HS512" := by decide
  have h3 : js "HS384" ≠ js "HS512" := by decide
  refine ⟨?_, ?_, ?_, ?_, by decide, by decide, by decide, by decide, by decide, by decide⟩
  all_goals
    cases alg with
    | none => simp [getHMACAlgo, strictEq]
    | some v =>
      cases v with
      | str t =>
        by_cases e1 : t = js "HS256"
        · subst e1
          simp [getHMACAlgo, strictEq, h1, h2]
        · by_cases e2 : t = js "HS384"
          · subst e2
            simp [getHMACAlgo, strictEq, h1.symm, h3]
          · by_cases e3 : t = js "HS512"
            · subst e3
              simp [getHMACAlgo, strictEq, h2.symm, h3.symm]
            · simp [getHMACAlgo, strictEq, e1, e2, e3]
      | _ => simp [getHMACAlgo, strictEq]

/-- C17: an edit of the header, payload or secret field sets `pendingUpdate` and
changes nothing but that field (no rebuild); after `triggerUpdateOnMouseEnter`
`pendingUpdate` is false; with `pendingUpdate` set the trigger is one run of
`updateJWTFromEdits` followed by clearing the flag; with `pendingUpdate` clear it
leaves the whole state as it was; so a second trigger right after a first does
nothing. -/
theorem C17_edit_session (hmac : Hmac) (st : State) (value : JSString) :
    (onHeaderInput value st = { st with decodedHeader := value, pendingUpdate := true } ∧
      onPayloadInput value st = { st with decodedPayload := value, pendingUpdate := true } ∧
      onSecretInput value st = { st with editSecret := value, pendingUpdate := true }) ∧
    (triggerUpdateOnMouseEnter hmac st).pendingUpdate = false ∧
    (st.pendingUpdate = true →
      triggerUpdateOnMouseEnter hmac st =
        { updateJWTFromEdits hmac st with pendingUpdate := false }) ∧
    (st.pendingUpdate = false → triggerUpdateOnMouseEnter hmac st = st) ∧
    triggerUpdateOnMouseEnter hmac (triggerUpdateOnMouseEnter hmac st) =
      triggerUpdateOnMouseEnter hmac st := by
  have hclear : (triggerUpdateOnMouseEnter hmac st).pendingUpdate = false := by
    unfold triggerUpdateOnMouseEnter
    cases hp : st.pendingUpdate with
    | true => rfl
    | false => simpa using hp
  have hnoop : ∀ s : State, s.pendingUpdate = false → triggerUpdateOnMouseEnter hmac s = s := by
    intro s hs
    simp [triggerUpdateOnMouseEnter, hs]
  refine ⟨⟨rfl, rfl, rfl⟩, hclear, ?_, hnoop st, hnoop _ hclear⟩
  intro hp
  simp [triggerUpdateOnMouseEnter, hp]

/-- C17, instance: in the demo session the payload is edited to `{"user":"root"}`;
the edit sets the flag and leaves the token; the trigger rebuilds the token and
clears the flag; a trigger without an edit changes nothing. -/
theorem C17_witness :
    (editedState.pendingUpdate = true ∧ editedState.jwtInput = demoState.jwtInput) ∧
    (triggerUpdateOnMouseEnter toyHmac editedState =
        { updateJWTFromEdits toyHmac editedState with pendingUpdate := false } ∧
      (triggerUpdateOnMouseEnter toyHmac editedState).jwtInput ≠ editedState.jwtInput) ∧
    (demoState.pendingUpdate = false ∧ triggerUpdateOnMouseEnter toyHmac demoState = demoState) :=
  ⟨⟨rfl, rfl⟩,
   ⟨(C17_edit_session toyHmac editedState []).2.2.1 rfl, by decide⟩,
   ⟨rfl, (C17_edit_session toyHmac demoState []).2.2.2.1 rfl⟩⟩

/-- C18, the code at failing inputs: in the demo session, whose header and payload
fields hold the decoded demo token, `a.b.c` (the header segment does not decode) and
`YWJj.e30.c2ln` (the header text `abc` is not JSON) are pasted. `autoDecodeJWT`
reports "Base64 decode error" and "Invalid JSON in header/payload" and leaves both
fields as they were, not empty; only on `abc.def` (two segments) are they emptied. -/
theorem C18_fields_not_cleared (hmac : Hmac) :
    (pastedState (js "a.b.c")).decodedHeader ≠ [] ∧
    (pastedState (js "a.b.c")).decodedPayload ≠ [] ∧
    autoDecodeJWT hmac (pastedState (js "a.b.c")) =
      { pastedState (js "a.b.c") with
          verificationStatus := true, savedSignature := js "c",
          verifyStatus := msgBase64Error } ∧
    autoDecodeJWT hmac (pastedState (js "YWJj.e30.c2ln")) =
      { pastedState (js "YWJj.e30.c2ln") with
          verificationStatus := true, savedSignature := js "c2ln",
          verifyStatus := msgInvalidJson } ∧
    autoDecodeJWT hmac (pastedState (js "abc.def")) =
      { pastedState (js "abc.def") with
          verificationStatus := true, decodedHeader := [], decodedPayload := [],
          verifyStatus := msgInvalidFormat } :=
  ⟨by decide, by decide,
   autoDecodeJWT_decode_error hmac (pastedState (js "a.b.c")) (js "a") (js "b") (js "c")
     (by decide) (Or.inl (by decide)),
   autoDecodeJWT_json_error hmac (pastedState (js "YWJj.e30.c2ln")) (js "YWJj") (js "e30")
     (js "c2ln") (js "abc") (js "\x7b\x7d") (by decide) (by decide) (by decide) (by decide)
     (by decide) (Or.inl rfl),
   autoDecodeJWT_wrong_count hmac (pastedState (js "abc.def")) (by decide)⟩

/-- C19: `updateJWTFromEdits` leaves `savedSignature` as it was, for every header
text, payload text and secret, also when it computes a signature. So when, after any
rebuild, the three fields are edited and a second rebuild preserves the signature
(`alg` is not `"none"` and either does not resolve or the trimmed secret is empty), the
signature segment it writes is the `savedSignature` from before the first rebuild,
whatever the first rebuild computed. -/
theorem C19_rebuild_keeps_saved_signature (hmac : Hmac) (st : State) :
    (updateJWTFromEdits hmac st).savedSignature = st.savedSignature ∧
    ∀ (headerText payloadText secret : JSString) (header payload : JSON) (eh ep : JSString)
      (alg : Option JSON),
      JSON.parse (trim headerText) = some header →
      JSON.parse (trim payloadText) = some payload →
      base64UrlEncode header.stringify = some eh →
      base64UrlEncode payload.stringify = some ep →
      getAlg header = some alg → strictEq alg (js "none") = false →
      (getHMACAlgo alg = none ∨ trim secret = []) →
      (updateJWTFromEdits hmac
          (onSecretInput secret (onPayloadInput payloadText (onHeaderInput headerText
            (updateJWTFromEdits hmac st))))).jwtInput =
        (eh ++ 46 :: ep) ++ 46 :: st.savedSignature := by
  have hkeep : (updateJWTFromEdits hmac st).savedSignature = st.savedSignature := by
    obtain ⟨a, j, e, v, heq⟩ := updateJWTFromEdits_frame hmac st
    rw [heq]
  refine ⟨hkeep, ?_⟩
  intro headerText payloadText secret header payload eh ep alg hH hP hEH hEP hA hN hS
  rw [(updateJWTFromEdits_token hmac
    (onSecretInput secret (onPayloadInput payloadText (onHeaderInput headerText
      (updateJWTFromEdits hmac st)))) header payload eh ep alg hH hP hEH hEP hA).1]
  unfold finalJWTOf
  rw [hN]
  simp only [Bool.false_eq_true, if_false]
  have hsig : (onSecretInput secret (onPayloadInput payloadText (onHeaderInput headerText
      (updateJWTFromEdits hmac st)))).savedSignature = st.savedSignature := hkeep
  have hsec : (onSecretInput secret (onPayloadInput payloadText (onHeaderInput headerText
      (updateJWTFromEdits hmac st)))).editSecret = secret := rfl
  rw [hsig, hsec]
  rcases hS with hS | hS
  · rw [hS]
  · cases hg : getHMACAlgo alg with
    | none => rfl
    | some f => simp [hS]

/-- C19, instance: in the demo session the payload is edited to `{"user":"root"}` and
rebuilt under the secret `admin`, which computes a signature; then the secret is
emptied and the token rebuilt: its signature segment is the one of the demo token. -/
theorem C19_witness :
    (updateJWTFromEdits toyHmac editedState).savedSignature =
        js "qK7qEqLJHX_8JoECnKoMsMo8CtX3oywecGe0NSK5pCg" ∧
    (split 46 (updateJWTFromEdits toyHmac editedState).jwtInput).getD 2 [] ≠
        js "qK7qEqLJHX_8JoECnKoMsMo8CtX3oywecGe0NSK5pCg" ∧
    (updateJWTFromEdits toyHmac
        (onSecretInput [] (onPayloadInput (js "\x7b\"user\":\"root\"\x7d")
          (onHeaderInput (js "\x7b\"alg\":\"HS256\",\"typ\":\"JWT\"\x7d")
            (updateJWTFromEdits toyHmac editedState))))).jwtInput =
      (js "eyJhbGciOiJIUzI1NiIsInR5cCI6IkpXVCJ9" ++ 46 :: js "eyJ1c2VyIjoicm9vdCJ9") ++
        46 :: editedState.savedSignature :=
  ⟨by decide, by decide,
   (C19_rebuild_keeps_saved_signature toyHmac editedState).2
     (js "\x7b\"alg\":\"HS256\",\"typ\":\"JWT\"\x7d") (js "\x7b\"user\":\"root\"\x7d") []
     (.obj [(js "alg", .str (js "HS256")), (js "typ", .str (js "JWT"))])
     (.obj [(js "user", .str (js "root"))])
     (js "eyJhbGciOiJIUzI1NiIsInR5cCI6IkpXVCJ9") (js "eyJ1c2VyIjoicm9vdCJ9")
     (some (.str (js "HS256"))) rfl rfl (by decide) (by decide) rfl (by decide)
     (Or.inr (by decide))⟩

/-- C20: in every state that a sequence of events (token input, demo button, field
edits, apply trigger) reaches from the initial state, `savedSignature` has no dot.
So a rebuild from such a state either stops before it writes a token, leaving the
token field as it was, or writes a token that splits on `.` into exactly three
segments: the two encoded segments and the signature segment, on every branch of
the signature decision. -/
theorem C20_three_segments (hmac : Hmac) (events : List Event) :
    (∀ c ∈ (run hmac events).savedSignature, c ≠ 46) ∧
    ((updateJWTFromEdits hmac (run hmac events)).jwtInput = (run hmac events).jwtInput ∨
      ∃ header payload eh ep sig,
        JSON.parse (trim (run hmac events).decodedHeader) = some header ∧
        JSON.parse (trim (run hmac events).decodedPayload) = some payload ∧
        base64UrlEncode header.stringify = some eh ∧
        base64UrlEncode payload.stringify = some ep ∧
        (updateJWTFromEdits hmac (run hmac events)).jwtInput = eh ++ 46 :: (ep ++ 46 :: sig) ∧
        split 46 (updateJWTFromEdits hmac (run hmac events)).jwtInput = [eh, ep, sig]) := by
  have hinv := run_savedSignature_nodot hmac events
  refine ⟨hinv, ?_⟩
  rcases updateJWTFromEdits_cases hmac (run hmac events) with h |
    ⟨header, payload, eh, ep, alg, hH, hP, hEH, hEP, hA⟩
  · left
    rw [h]
  · right
    obtain ⟨sig, hsig, hnodot⟩ := finalJWTOf_segments hmac (run hmac events) eh ep alg hinv
    have htok := (updateJWTFromEdits_token hmac (run hmac events) header payload eh ep alg
      hH hP hEH hEP hA).1
    refine ⟨header, payload, eh, ep, sig, hH, hP, hEH, hEP, ?_, ?_⟩
    · rw [htok, hsig]
    · rw [htok, hsig]
      exact split_three eh ep sig (base64UrlEncode_nodot _ _ hEH) (base64UrlEncode_nodot _ _ hEP)
        hnodot

/-- C20, instance: the demo button, an edit of the header to `{"alg":"RS256"}`, and
the apply trigger. The rebuilt token has three segments, the third the demo
signature. -/
theorem C20_witness :
    (∀ c ∈ (run toyHmac [.loadDemo, .headerInput (js "\x7b\"alg\":\"RS256\"\x7d")]).savedSignature,
      c ≠ 46) ∧
    split 46 (run toyHmac [.loadDemo, .headerInput (js "\x7b\"alg\":\"RS256\"\x7d"),
        .mouseEnter]).jwtInput =
      [js "eyJhbGciOiJSUzI1NiJ9", js "eyJ1c2VyIjoiYWRtaW4ifQ",
        js "qK7qEqLJHX_8JoECnKoMsMo8CtX3oywecGe0NSK5pCg"] :=
  ⟨(C20_three_segments toyHmac [.loadDemo, .headerInput (js "\x7b\"alg\":\"RS256\"\x7d")]).1,
   by decide⟩

/-! ## The demo token -/

/-- The model `sha256` on the two test messages of the standard (FIPS 180-4 examples):
`abc` and the message of 56 letters, which takes two blocks. -/
theorem sha256_examples :
    sha256 (js "abc") =
      [186, 120, 22, 191, 143, 1, 207, 234, 65, 65, 64, 222, 93, 174, 34, 35, 176, 3, 97, 163,
       150, 23, 122, 156, 180, 16, 255, 97, 242, 0, 21, 173] ∧
    sha256 (js "abcdbcdecdefdefgefghfghighijhijkijkljklmklmnlmnomnopnopq") =
      [36, 141, 106, 97, 210, 6, 56, 184, 229, 192, 38, 147, 12, 62, 96, 57, 163, 60, 228, 89,
       100, 255, 33, 103, 246, 236, 237, 212, 25, 219, 6, 193] := by
  decide!

/-- The model `hmacSHA256` on two test cases of RFC 4231: the key `Jefe`, and a key of
131 bytes, longer than a block. -/
theorem hmacSHA256_examples :
    hmacSHA256 (js "Jefe") (js "what do ya want for nothing?") =
      [91, 220, 193, 70, 191, 96, 117, 78, 106, 4, 36, 38, 8, 149, 117, 199, 90, 0, 63, 8,
       157, 39, 57, 131, 157, 236, 88, 185, 100, 236, 56, 67] ∧
    hmacSHA256 (List.replicate 131 170)
        (js "Test Using Larger Than Block-Size Key - Hash Key First") =
      [96, 228, 49, 89, 30, 224, 182, 127, 13, 138, 38, 170, 203, 245, 183, 127, 142, 11, 198,
       33, 55, 40, 197, 20, 5, 70, 4, 15, 14, 227, 127, 84] := by
  decide!

/-- The unpadded URL-safe base64 of HMAC-SHA256 of the demo signing input under the
key `admin`. -/
theorem hmacSHA256_demo :
    urlBody (hmacSHA256 (js "admin") demoData) =
      js "MXi3JVNa96zFigIouJL9dSmGxXmLkyO2lMyiJpw-sEs" := by
  decide!

/-- C14, the code at the demo token: its first two segments decode to the header
`{"alg":"HS256","typ":"JWT"}` and the payload `{"user":"admin"}`, but its signature
segment `qK7q...pCg` is not the base64url of HMAC-SHA256 of its signing input under
`admin`, which is `MXi3...sEs`. So with a provider whose `HmacSHA256` is HMAC-SHA256
at this input, `loadTestJWT` ends with the status "Signature invalid". -/
theorem C14_demo_token_signature (hmac : Hmac) (st : State)
    (h256 : hmac .HmacSHA256 demoData (js "admin") = hmacSHA256 (js "admin") demoData) :
    split 46 demoJWT =
      [js "eyJhbGciOiJIUzI1NiIsInR5cCI6IkpXVCJ9", js "eyJ1c2VyIjoiYWRtaW4ifQ",
        js "qK7qEqLJHX_8JoECnKoMsMo8CtX3oywecGe0NSK5pCg"] ∧
    (base64UrlDecode (js "eyJhbGciOiJIUzI1NiIsInR5cCI6IkpXVCJ9")).bind JSON.parse =
      some demoHeader ∧
    (base64UrlDecode (js "eyJ1c2VyIjoiYWRtaW4ifQ")).bind JSON.parse = some demoPayload ∧
    hmacSignature hmac .HmacSHA256 demoData (js "admin") =
      js "MXi3JVNa96zFigIouJL9dSmGxXmLkyO2lMyiJpw-sEs" ∧
    js "MXi3JVNa96zFigIouJL9dSmGxXmLkyO2lMyiJpw-sEs" ≠
      js "qK7qEqLJHX_8JoECnKoMsMo8CtX3oywecGe0NSK5pCg" ∧
    loadTestJWT hmac st =
      { st with jwtInput := demoJWT, editSecret := js "admin", verificationStatus := true,
                savedSignature := js "qK7qEqLJHX_8JoECnKoMsMo8CtX3oywecGe0NSK5pCg",
                decodedHeader := demoHeader.stringifyIndented 0,
                decodedPayload := demoPayload.stringifyIndented 0,
                currentAlg := some (.str (js "HS256")),
                verifyStatus := msgSigInvalid } := by
  have hsig : hmacSignature hmac .HmacSHA256 demoData (js "admin") =
      js "MXi3JVNa96zFigIouJL9dSmGxXmLkyO2lMyiJpw-sEs" := by
    rw [hmacSignature_eq, h256, hmacSHA256_demo]
  have hsplit : split 46 demoJWT =
      [js "eyJhbGciOiJIUzI1NiIsInR5cCI6IkpXVCJ9", js "eyJ1c2VyIjoiYWRtaW4ifQ",
        js "qK7qEqLJHX_8JoECnKoMsMo8CtX3oywecGe0NSK5pCg"] := by decide
  have htrim : trim demoJWT = demoJWT := by decide
  refine ⟨hsplit, rfl, rfl, hsig, by decide, ?_⟩
  unfold loadTestJWT
  rw [autoDecodeJWT_decoded hmac _ (js "eyJhbGciOiJIUzI1NiIsInR5cCI6IkpXVCJ9")
    (js "eyJ1c2VyIjoiYWRtaW4ifQ") (js "qK7qEqLJHX_8JoECnKoMsMo8CtX3oywecGe0NSK5pCg")
    (js "\x7b\"alg\":\"HS256\",\"typ\":\"JWT\"\x7d") (js "\x7b\"user\":\"admin\"\x7d")
    demoHeader demoPayload (some (.str (js "HS256")))
    (by show split 46 (trim demoJWT) = _; rw [htrim, hsplit])
    (by decide) (by decide) (by decide) (by decide) rfl rfl rfl]
  rw [show trim ({ st with jwtInput := demoJWT, editSecret := js "admin",
                           savedSignature := (split 46 demoJWT).getD 2 [] } : State).jwtInput =
    demoJWT from htrim]
  rw [liveVerify_decoded hmac _ demoJWT (js "eyJhbGciOiJIUzI1NiIsInR5cCI6IkpXVCJ9")
    (js "eyJ1c2VyIjoiYWRtaW4ifQ") (js "qK7qEqLJHX_8JoECnKoMsMo8CtX3oywecGe0NSK5pCg")
    (js "\x7b\"alg\":\"HS256\",\"typ\":\"JWT\"\x7d") demoHeader (some (.str (js "HS256")))
    hsplit (by decide) rfl rfl]
  have hnone : strictEq (some (.str (js "HS256"))) (js "none") = false := by decide
  have halgo : getHMACAlgo (some (.str (js "HS256"))) = some .HmacSHA256 := by decide
  have hsecret : trim (js "admin") = js "admin" := by decide
  have hdata : js "eyJhbGciOiJIUzI1NiIsInR5cCI6IkpXVCJ9" ++ 46 :: js "eyJ1c2VyIjoiYWRtaW4ifQ" =
      demoData := by decide
  have hne : js "MXi3JVNa96zFigIouJL9dSmGxXmLkyO2lMyiJpw-sEs" ≠
      js "qK7qEqLJHX_8JoECnKoMsMo8CtX3oywecGe0NSK5pCg" := by decide
  simp only [hnone, halgo, hsecret, hdata, hsig, hne, Bool.false_eq_true, if_false]
  rfl

/-- C14, instance: the demo button pressed in the initial state, with the provider
`sha256Hmac`: the status is "Signature invalid". -/
theorem C14_witness :
    (loadTestJWT sha256Hmac initialState).verifyStatus = msgSigInvalid ∧
    (loadTestJWT sha256Hmac initialState).editSecret = js "admin" ∧
    (loadTestJWT sha256Hmac initialState).jwtInput = demoJWT := by
  have h := (C14_demo_token_signature sha256Hmac initialState rfl).2.2.2.2.2
  rw [h]
  exact ⟨rfl, rfl, rfl⟩

/-! ## Verification before any token has been decoded -/

/-- The unguarded write throws while `verificationStatus` is `null`. -/
theorem writeStatus_unbound (st : State) (msg : JSString) (h : st.verificationStatus = false) :
    writeStatus st msg = none := by
  simp [writeStatus, h]

/-- While `verificationStatus` is `null`, `liveVerify` throws on every token of three
segments whose header decodes: each of its five outcomes ends in the unguarded write. -/
theorem liveVerify_unbound_decoded (hmac : Hmac) (st : State) (jwt h p s text : JSString)
    (hdr : JSON) (alg : Option JSON) (hU : st.verificationStatus = false)
    (hsplit : split 46 jwt = [h, p, s])
    (hatob : atob (replaceAll 95 47 (replaceAll 45 43 h)) = some text)
    (hparse : JSON.parse text = some hdr) (halg : getAlg hdr = some alg) :
    liveVerify hmac st jwt = none := by
  rw [liveVerify_decoded hmac st jwt h p s text hdr alg hsplit hatob hparse halg]
  by_cases h1 : strictEq alg (js "none") = true
  · rw [if_pos h1]
    exact writeStatus_unbound st _ hU
  · rw [if_neg h1]
    cases hg : getHMACAlgo alg with
    | none => exact writeStatus_unbound st _ hU
    | some f =>
      by_cases h2 : trim st.editSecret = []
      · simp only [h2, if_true]
        exact writeStatus_unbound st _ hU
      · simp only [h2, if_false]
        exact writeStatus_unbound st _ hU

/-- A rebuild while `verificationStatus` is `null` (no token has been decoded since
page load): the token is written to `#jwtInput`, `liveVerify` throws on it, and the
`catch` of `updateJWTFromEdits` replaces the output by "Invalid JSON."; the status
text is not touched. -/
theorem updateJWTFromEdits_unbound (hmac : Hmac) (st : State) (header payload : JSON)
    (eh ep : JSString) (alg : Option JSON) (hU : st.verificationStatus = false)
    (hsig : ∀ c ∈ st.savedSignature, c ≠ 46)
    (hH : JSON.parse (trim st.decodedHeader) = some header)
    (hP : JSON.parse (trim st.decodedPayload) = some payload)
    (hEH : base64UrlEncode header.stringify = some eh)
    (hEP : base64UrlEncode payload.stringify = some ep)
    (hA : getAlg header = some alg) :
    liveVerify hmac
        { st with currentAlg := alg, jwtInput := finalJWTOf hmac st eh ep alg,
                  encodedResult := finalJWTOf hmac st eh ep alg }
        (finalJWTOf hmac st eh ep alg) = none ∧
    updateJWTFromEdits hmac st =
      { st with currentAlg := alg, jwtInput := finalJWTOf hmac st eh ep alg,
                encodedResult := msgInvalidJsonOut } := by
  have hLH : ∀ c ∈ header.stringify, c ≤ 255 := by
    by_contra hn
    rw [base64UrlEncode_none _ hn] at hEH
    exact absurd hEH (by simp)
  have heh : eh = urlBody header.stringify := by
    rw [base64UrlEncode_eq _ hLH] at hEH
    exact (Option.some.inj hEH).symm
  obtain ⟨sig, hfin, hnodot⟩ := finalJWTOf_segments hmac st eh ep alg hsig
  have hsplit := split_three eh ep sig (base64UrlEncode_nodot _ _ hEH)
    (base64UrlEncode_nodot _ _ hEP) hnodot
  rw [← hfin] at hsplit
  have hlv := liveVerify_unbound_decoded hmac
    { st with currentAlg := alg, jwtInput := finalJWTOf hmac st eh ep alg,
              encodedResult := finalJWTOf hmac st eh ep alg }
    _ eh ep sig header.stringify header alg hU hsplit
    (by rw [heh]; exact atob_std_urlBody _ hLH)
    (JSON.parse_stringify_parse _ header hH) hA
  refine ⟨hlv, ?_⟩
  rw [updateJWTFromEdits_eq hmac st header payload eh ep alg hH hP hEH hEP hA, hlv]

/-- C4, the code at a failing input: right after page load the header
`{"alg":"HS256","typ":"JWT"}`, the payload `{"user":"root"}` and the secret `admin` are
typed and the mouse enters the token field. The rebuild writes a token of three
segments signed under the secret, but `verificationStatus` still is `null`, so
`liveVerify` throws at its unguarded write: neither "Signature valid" nor "Signature
invalid" is reported, the status stays empty and the output shows "Invalid JSON.".
With the status element bound, the same call reports "Signature valid". -/
theorem C4_unbound_session_throws (hmac : Hmac) :
    run hmac [.headerInput (js "\x7b\"alg\":\"HS256\",\"typ\":\"JWT\"\x7d"),
        .payloadInput (js "\x7b\"user\":\"root\"\x7d"), .secretInput (js "admin")] = hs256Typed ∧
    hs256Typed.verificationStatus = false ∧
    split 46 (hs256Token hmac) =
      [js "eyJhbGciOiJIUzI1NiIsInR5cCI6IkpXVCJ9", js "eyJ1c2VyIjoicm9vdCJ9",
        hmacSignature hmac .HmacSHA256
          (js "eyJhbGciOiJIUzI1NiIsInR5cCI6IkpXVCJ9" ++ 46 :: js "eyJ1c2VyIjoicm9vdCJ9")
          (js "admin")] ∧
    liveVerify hmac
        { hs256Typed with
          currentAlg := some (.str (js "HS256")), jwtInput := hs256Token hmac,
          encodedResult := hs256Token hmac }
        (hs256Token hmac) = none ∧
    run hmac [.headerInput (js "\x7b\"alg\":\"HS256\",\"typ\":\"JWT\"\x7d"),
        .payloadInput (js "\x7b\"user\":\"root\"\x7d"), .secretInput (js "admin"), .mouseEnter] =
      { hs256Typed with
        currentAlg := some (.str (js "HS256")), jwtInput := hs256Token hmac,
        encodedResult := msgInvalidJsonOut, verifyStatus := [], pendingUpdate := false } ∧
    liveVerify hmac
        { hs256Typed with
          verificationStatus := true, currentAlg := some (.str (js "HS256")),
          jwtInput := hs256Token hmac, encodedResult := hs256Token hmac }
        (hs256Token hmac) =
      some { hs256Typed with
             verificationStatus := true, currentAlg := some (.str (js "HS256")),
             jwtInput := hs256Token hmac, encodedResult := hs256Token hmac,
             verifyStatus := msgSigValid } := by
  have hsplit := split_three (js "eyJhbGciOiJIUzI1NiIsInR5cCI6IkpXVCJ9")
    (js "eyJ1c2VyIjoicm9vdCJ9")
    (hmacSignature hmac .HmacSHA256
      (js "eyJhbGciOiJIUzI1NiIsInR5cCI6IkpXVCJ9" ++ 46 :: js "eyJ1c2VyIjoicm9vdCJ9")
      (js "admin"))
    (by decide) (by decide) (hmacSignature_nodot _ _ _ _)
  have hun := updateJWTFromEdits_unbound hmac hs256Typed
    (.obj [(js "alg", .str (js "HS256")), (js "typ", .str (js "JWT"))])
    (.obj [(js "user", .str (js "root"))])
    (js "eyJhbGciOiJIUzI1NiIsInR5cCI6IkpXVCJ9") (js "eyJ1c2VyIjoicm9vdCJ9")
    (some (.str (js "HS256"))) rfl (by decide) rfl rfl (by decide) (by decide) rfl
  refine ⟨rfl, rfl, hsplit, hun.1, ?_, ?_⟩
  · have hp : hs256Typed.pendingUpdate = true := rfl
    show triggerUpdateOnMouseEnter hmac hs256Typed = _
    unfold triggerUpdateOnMouseEnter
    rw [if_pos hp, hun.2]
    rfl
  · have hb := liveVerify_decoded hmac
      { hs256Typed with
        verificationStatus := true, currentAlg := some (.str (js "HS256")),
        jwtInput := hs256Token hmac, encodedResult := hs256Token hmac }
      (hs256Token hmac) _ _ _ (js "\x7b\"alg\":\"HS256\",\"typ\":\"JWT\"\x7d")
      (.obj [(js "alg", .str (js "HS256")), (js "typ", .str (js "JWT"))])
      (some (.str (js "HS256"))) hsplit (by decide) rfl rfl
    have hnone : strictEq (some (.str (js "HS256"))) (js "none") = false := by decide
    have halgo : getHMACAlgo (some (.str (js "HS256"))) = some .HmacSHA256 := by decide
    have hsecret : trim (js "admin") = js "admin" := by decide
    have hne : js "admin" ≠ [] := by decide
    rw [hb, hnone, halgo]
    simp only [Bool.false_eq_true, if_false]
    show (if trim (js "admin") = [] then _
      else writeStatus _
        (if hmacSignature hmac .HmacSHA256
              (js "eyJhbGciOiJIUzI1NiIsInR5cCI6IkpXVCJ9" ++ 46 :: js "eyJ1c2VyIjoicm9vdCJ9")
              (trim (js "admin")) =
            hmacSignature hmac .HmacSHA256
              (js "eyJhbGciOiJIUzI1NiIsInR5cCI6IkpXVCJ9" ++ 46 :: js "eyJ1c2VyIjoicm9vdCJ9")
              (js "admin")
          then msgSigValid else msgSigInvalid)) = _
    rw [hsecret, if_neg hne]
    simp only [if_true]
    rfl

/-- C8, the code at a failing input: right after page load the header `{"alg":"none"}`,
the payload `{}` and the secret `admin` are typed and the mouse enters the token
field. The rebuild writes the token `eyJhbGciOiJub25lIn0.e30.`, of three segments with
`alg` equal to `"none"`, but `verificationStatus` still is `null`, so `liveVerify`
throws at its unguarded write: "Valid (alg=none)" is not reported, the status stays
empty and the output shows "Invalid JSON.". With the status element bound, the same
call reports "Valid (alg=none)". -/
theorem C8_unbound_session_throws (hmac : Hmac) :
    (run hmac [.headerInput (js "\x7b\"alg\":\"none\"\x7d"),
          .payloadInput (js "\x7b\x7d"),
          .secretInput (js "admin")] = noneTyped ∧
      noneTyped.verificationStatus = false ∧
      split 46 (js "eyJhbGciOiJub25lIn0.e30.") = [js "eyJhbGciOiJub25lIn0", js "e30", []] ∧
      liveVerify hmac
          { noneTyped with
            currentAlg := some (.str (js "none")), jwtInput := js "eyJhbGciOiJub25lIn0.e30.",
            encodedResult := js "eyJhbGciOiJub25lIn0.e30." }
          (js "eyJhbGciOiJub25lIn0.e30.") = none ∧
      run hmac [.headerInput (js "\x7b\"alg\":\"none\"\x7d"),
          .payloadInput (js "\x7b\x7d"),
          .secretInput (js "admin"),
          .mouseEnter] =
        { noneTyped with
          currentAlg := some (.str (js "none")), jwtInput := js "eyJhbGciOiJub25lIn0.e30.",
          encodedResult := msgInvalidJsonOut, verifyStatus := [], pendingUpdate := false } ∧
      liveVerify hmac
          { noneTyped with
            verificationStatus := true, currentAlg := some (.str (js "none")),
            jwtInput := js "eyJhbGciOiJub25lIn0.e30.",
            encodedResult := js "eyJhbGciOiJub25lIn0.e30." }
          (js "eyJhbGciOiJub25lIn0.e30.") =
        some { noneTyped with
          verificationStatus := true, currentAlg := some (.str (js "none")),
          jwtInput := js "eyJhbGciOiJub25lIn0.e30.",
          encodedResult := js "eyJhbGciOiJub25lIn0.e30.",
          verifyStatus := msgValidNone }) := by
  have hun := updateJWTFromEdits_unbound hmac noneTyped
    (.obj [(js "alg", .str (js "none"))]) (.obj [])
    (js "eyJhbGciOiJub25lIn0") (js "e30") (some (.str (js "none")))
    rfl (by decide) rfl rfl (by decide) (by decide) rfl
  have hp : noneTyped.pendingUpdate = true := rfl
  refine ⟨rfl, rfl, by decide, hun.1, ?_, rfl⟩
  show triggerUpdateOnMouseEnter hmac noneTyped = _
  unfold triggerUpdateOnMouseEnter
  rw [if_pos hp, hun.2]
  rfl

/-- C9, the code at two failing inputs: right after page load, first the header
`{"alg":"RS256"}`, the payload `{}` and the secret `admin`, second the header
`{"alg":"HS256"}` and the payload `{}` with the secret left empty, are typed and the
mouse enters the token field. The rebuild writes a token of three segments, but
`verificationStatus` still is `null`, so `liveVerify` throws at its unguarded write:
neither "Cannot verify RSA/ES signatures" nor "Provide secret key to verify" is
reported, the status stays empty and the output shows "Invalid JSON.". With the
status element bound, the same calls report these two texts. -/
theorem C9_unbound_session_throws (hmac : Hmac) :
    (run hmac [.headerInput (js "\x7b\"alg\":\"RS256\"\x7d"),
          .payloadInput (js "\x7b\x7d"),
          .secretInput (js "admin")] = rs256Typed ∧
      rs256Typed.verificationStatus = false ∧
      split 46 (js "eyJhbGciOiJSUzI1NiJ9.e30.") = [js "eyJhbGciOiJSUzI1NiJ9", js "e30", []] ∧
      liveVerify hmac
          { rs256Typed with
            currentAlg := some (.str (js "RS256")), jwtInput := js "eyJhbGciOiJSUzI1NiJ9.e30.",
            encodedResult := js "eyJhbGciOiJSUzI1NiJ9.e30." }
          (js "eyJhbGciOiJSUzI1NiJ9.e30.") = none ∧
      run hmac [.headerInput (js "\x7b\"alg\":\"RS256\"\x7d"),
          .payloadInput (js "\x7b\x7d"),
          .secretInput (js "admin"),
          .mouseEnter] =
        { rs256Typed with
          currentAlg := some (.str (js "RS256")), jwtInput := js "eyJhbGciOiJSUzI1NiJ9.e30.",
          encodedResult := msgInvalidJsonOut, verifyStatus := [], pendingUpdate := false } ∧
      liveVerify hmac
          { rs256Typed with
            verificationStatus := true, currentAlg := some (.str (js "RS256")),
            jwtInput := js "eyJhbGciOiJSUzI1NiJ9.e30.",
            encodedResult := js "eyJhbGciOiJSUzI1NiJ9.e30." }
          (js "eyJhbGciOiJSUzI1NiJ9.e30.") =
        some { rs256Typed with
          verificationStatus := true, currentAlg := some (.str (js "RS256")),
          jwtInput := js "eyJhbGciOiJSUzI1NiJ9.e30.",
          encodedResult := js "eyJhbGciOiJSUzI1NiJ9.e30.",
          verifyStatus := msgCannotVerify }) ∧
    (run hmac [.headerInput (js "\x7b\"alg\":\"HS256\"\x7d"),
          .payloadInput (js "\x7b\x7d")] = noSecretTyped ∧
      noSecretTyped.verificationStatus = false ∧
      split 46 (js "eyJhbGciOiJIUzI1NiJ9.e30.") = [js "eyJhbGciOiJIUzI1NiJ9", js "e30", []] ∧
      liveVerify hmac
          { noSecretTyped with
            currentAlg := some (.str (js "HS256")), jwtInput := js "eyJhbGciOiJIUzI1NiJ9.e30.",
            encodedResult := js "eyJhbGciOiJIUzI1NiJ9.e30." }
          (js "eyJhbGciOiJIUzI1NiJ9.e30.") = none ∧
      run hmac [.headerInput (js "\x7b\"alg\":\"HS256\"\x7d"),
          .payloadInput (js "\x7b\x7d"),
          .mouseEnter] =
        { noSecretTyped with
          currentAlg := some (.str (js "HS256")), jwtInput := js "eyJhbGciOiJIUzI1NiJ9.e30.",
          encodedResult := msgInvalidJsonOut, verifyStatus := [], pendingUpdate := false } ∧
      liveVerify hmac
          { noSecretTyped with
            verificationStatus := true, currentAlg := some (.str (js "HS256")),
            jwtInput := js "eyJhbGciOiJIUzI1NiJ9.e30.",
            encodedResult := js "eyJhbGciOiJIUzI1NiJ9.e30." }
          (js "eyJhbGciOiJIUzI1NiJ9.e30.") =
        some { noSecretTyped with
          verificationStatus := true, currentAlg := some (.str (js "HS256")),
          jwtInput := js "eyJhbGciOiJIUzI1NiJ9.e30.",
          encodedResult := js "eyJhbGciOiJIUzI1NiJ9.e30.",
          verifyStatus := msgNeedSecret }) := by
  constructor
  · have hun := updateJWTFromEdits_unbound hmac rs256Typed
      (.obj [(js "alg", .str (js "RS256"))]) (.obj [])
      (js "eyJhbGciOiJSUzI1NiJ9") (js "e30") (some (.str (js "RS256")))
      rfl (by decide) rfl rfl (by decide) (by decide) rfl
    have hp : rs256Typed.pendingUpdate = true := rfl
    refine ⟨rfl, rfl, by decide, hun.1, ?_, rfl⟩
    show triggerUpdateOnMouseEnter hmac rs256Typed = _
    unfold triggerUpdateOnMouseEnter
    rw [if_pos hp, hun.2]
    rfl
  · have hun := updateJWTFromEdits_unbound hmac noSecretTyped
      (.obj [(js "alg", .str (js "HS256"))]) (.obj [])
      (js "eyJhbGciOiJIUzI1NiJ9") (js "e30") (some (.str (js "HS256")))
      rfl (by decide) rfl rfl (by decide) (by decide) rfl
    have hp : noSecretTyped.pendingUpdate = true := rfl
    refine ⟨rfl, rfl, by decide, hun.1, ?_, rfl⟩
    show triggerUpdateOnMouseEnter hmac noSecretTyped = _
    unfold triggerUpdateOnMouseEnter
    rw [if_pos hp, hun.2]
    rfl

end JWTEditor
